import Mathlib

/-!
Mesh: OBJ parsing, edge set, adjacency, ray queries and simulation state.

A shallow embedding of `src/mesh.hpp` and `src/mesh.cpp`.

Conventions of the embedding.

* `float` is read in exact arithmetic: scalars are rationals, a `float`
  literal stands for the single-precision value it denotes, and the two
  IEEE infinities that the source uses as sentinels are the extra
  constructors of `Scalar`.
* `int` is a 32-bit two's-complement integer: values are `Int`, extraction
  clamps to the `int` range as `operator>>` does, and the decrement wraps.
* `std::vector` is `List`; `std::set<Edge, EdgeCompare>` is the list of its
  elements in iteration order (strictly ascending for `EdgeCompare`).
* An `istringstream` is its unread characters together with `eofbit` and
  `failbit`.
* Library code that is not part of the repository (scanning of a `float`,
  `Vector3f::normalize`, the bounding-box slab test) and the contents of
  uninitialised locals and members are collected in `Ambient`; the general
  theorems quantify over all of them.
* A vector subscript outside the bounds of the vector is undefined behaviour
  in the source; the embedding reads the zero vector (or the zero triangle)
  there and writes nothing.
-/

namespace PBD

/-! ## Scalars and vectors -/

/-- A `float` of the source in exact arithmetic, with `INFINITY` and `-INFINITY`. -/
inductive Scalar where
  | negInf : Scalar
  | fin (q : ℚ) : Scalar
  | posInf : Scalar
  deriving DecidableEq

/-- Comparison `a < b` of two scalars. -/
def Scalar.lt : Scalar → Scalar → Bool
  | .negInf, .negInf => false
  | .negInf, _ => true
  | .fin _, .negInf => false
  | .fin a, .fin b => decide (a < b)
  | .fin _, .posInf => true
  | .posInf, _ => false

/-- The `fabs` of a scalar. -/
def Scalar.fabs : Scalar → Scalar
  | .negInf => .posInf
  | .fin q => .fin |q|
  | .posInf => .posInf

/-- An Eigen `Vector3f`. -/
structure Vec3 where
  x : ℚ
  y : ℚ
  z : ℚ
  deriving DecidableEq

/-- An Eigen `Vector2f`. -/
structure Vec2 where
  x : ℚ
  y : ℚ
  deriving DecidableEq

/-- The vector `Vector3f::Zero()`. -/
def Vec3.zero : Vec3 := ⟨0, 0, 0⟩

/-- Componentwise sum. -/
def Vec3.add (a b : Vec3) : Vec3 := ⟨a.x + b.x, a.y + b.y, a.z + b.z⟩

/-- Componentwise difference. -/
def Vec3.sub (a b : Vec3) : Vec3 := ⟨a.x - b.x, a.y - b.y, a.z - b.z⟩

/-- The cross product `a.cross(b)`. -/
def Vec3.cross (a b : Vec3) : Vec3 :=
  ⟨a.y * b.z - a.z * b.y, a.z * b.x - a.x * b.z, a.x * b.y - a.y * b.x⟩

/-- The dot product `a.dot(b)`. -/
def Vec3.dot (a b : Vec3) : ℚ := a.x * b.x + a.y * b.y + a.z * b.z

/-! ## Data model (`mesh.hpp`) -/

/-- The `struct Vertex`: position, uv and normal index. -/
structure Vertex where
  p : Int
  t : Int
  n : Int
  deriving DecidableEq

/-- The `struct Edge`: two vertex references. -/
structure Edge where
  v0 : Vertex
  v1 : Vertex
  deriving DecidableEq

/-- The `struct Triangle`: three vertex references. -/
structure Triangle where
  v0 : Vertex
  v1 : Vertex
  v2 : Vertex
  deriving DecidableEq

/-- The `std::minmax(a, b)`: `(b, a)` when `b < a`, else `(a, b)`. -/
def minmax (a b : Int) : Int × Int := if b < a then (b, a) else (a, b)

/-- The `std::less<std::pair<int, int>>`: lexicographic order of pairs. -/
def lessComparator (x y : Int × Int) : Bool :=
  decide (x.1 < y.1) || (!decide (y.1 < x.1) && decide (x.2 < y.2))

/-- The `EdgeCompare::operator()`. -/
def EdgeCompare (l r : Edge) : Bool :=
  lessComparator (minmax l.v0.p l.v1.p) (minmax r.v0.p r.v1.p)

/-- Equivalence of two keys for a container ordered by `EdgeCompare`. -/
def edgeEquiv (a b : Edge) : Bool := !EdgeCompare a b && !EdgeCompare b a

/-- The `edges.insert(e)` on `std::set<Edge, EdgeCompare>`: the element is
placed at its position in the order unless an equivalent one is present. -/
def setInsert (e : Edge) : List Edge → List Edge
  | [] => [e]
  | x :: xs =>
    if EdgeCompare e x then e :: x :: xs
    else if EdgeCompare x e then x :: setInsert e xs
    else x :: xs

/-- Modelled from the spec: the declaration of the member `adjacentTriangles`
is missing from `mesh.hpp`; by the spec it maps a canonical edge to the
ordered list of triangles, and by its use in `parseObjFile` it is subscripted
by an `Edge` and its values take `push_back`: it is taken to be
`std::map<Edge, std::vector<Triangle>, EdgeCompare>`, embedded as the list of
its entries in iteration order. -/
abbrev AdjacencyMap := List (Edge × List Triangle)

/-- The `adjacentTriangles[e].push_back(t)`: `operator[]` finds the entry with
an equivalent key, or creates one with an empty vector at its position in
the order. -/
def mapPush (e : Edge) (t : Triangle) : AdjacencyMap → AdjacencyMap
  | [] => [(e, [t])]
  | (k, ts) :: rest =>
    if EdgeCompare e k then (e, [t]) :: (k, ts) :: rest
    else if EdgeCompare k e then (k, ts) :: mapPush e t rest
    else (k, ts ++ [t]) :: rest

/-- The adjacency list stored for the key equivalent to `e` (empty when the
map has no such key). -/
def adjacent (e : Edge) : AdjacencyMap → List Triangle
  | [] => []
  | (k, ts) :: rest => if edgeEquiv k e then ts else adjacent e rest

/-- Modelled from the spec: the class `BoundingBox` is not among the sources;
by the spec it is six scalars, and `updateBoundingBox` assigns exactly the
six members below. -/
structure BoundingBox where
  xMin : Scalar
  xMax : Scalar
  yMin : Scalar
  yMax : Scalar
  zMin : Scalar
  zMax : Scalar
  deriving DecidableEq

/-! ## Input streams -/

/-- An `istringstream`: unread characters, `eofbit`, `failbit`. -/
structure IStream where
  rest : List Char
  eof : Bool
  fail : Bool
  deriving DecidableEq

/-- The `good()` of a stream. -/
def IStream.good (s : IStream) : Bool := !s.eof && !s.fail

/-- The `isspace` of the classic locale. -/
def isSpace (c : Char) : Bool :=
  c.toNat = 32 || (9 ≤ c.toNat && c.toNat ≤ 13)

/-- The `isdigit`. -/
def isDigit (c : Char) : Bool := 48 ≤ c.toNat && c.toNat ≤ 57

/-- The sentry of a formatted extraction: a stream that is not good gets
`failbit`; otherwise white space is skipped, and reaching the end sets
`eofbit` and `failbit`. The flag says whether extraction may proceed. -/
def sentry (s : IStream) : IStream × Bool :=
  if s.good then
    match s.rest.dropWhile isSpace with
    | [] => (⟨[], true, true⟩, false)
    | c :: r => (⟨c :: r, s.eof, s.fail⟩, true)
  else (⟨s.rest, s.eof, true⟩, false)

/-- The `stream >> word` for a `std::string` that is empty before the call:
characters up to the next white space, `eofbit` when the end is reached. -/
def readWord (s : IStream) : List Char × IStream :=
  match sentry s with
  | (s1, false) => ([], s1)
  | (s1, true) =>
    let w := s1.rest.takeWhile (fun c => !isSpace c)
    let r := s1.rest.dropWhile (fun c => !isSpace c)
    (w, ⟨r, r.isEmpty, false⟩)

/-- The least `int`. -/
def INT_MIN : Int := -2147483648

/-- The greatest `int`. -/
def INT_MAX : Int := 2147483647

/-- Two's-complement wrap of an integer to 32 bits. -/
def wrap32 (i : Int) : Int := (i + 2147483648) % 4294967296 - 2147483648

/-- Value of a run of decimal digits, most significant first. -/
def digitsVal (ds : List Char) : Nat :=
  ds.foldl (fun acc c => 10 * acc + (c.toNat - 48)) 0

/-- The `stream >> i` for an `int`: `none` when the sentry fails and the
variable is left as it was; otherwise an optional sign and a run of decimal
digits are consumed, no digit stores 0 with `failbit`, a value outside the
`int` range stores the nearer bound with `failbit`, and running into the end
sets `eofbit`. -/
def readInt (s : IStream) : Option Int × IStream :=
  match sentry s with
  | (s1, false) => (none, s1)
  | (s1, true) =>
    let neg : Bool := match s1.rest with
      | c :: _ => c = '-'
      | [] => false
    let r1 : List Char := match s1.rest with
      | c :: r => if c = '-' ∨ c = '+' then r else c :: r
      | [] => []
    let ds := r1.takeWhile isDigit
    let r2 := r1.dropWhile isDigit
    if ds.isEmpty then (some 0, ⟨r2, r2.isEmpty, true⟩)
    else
      let v : Int := if neg then -(digitsVal ds : Int) else (digitsVal ds : Int)
      if v < INT_MIN then (some INT_MIN, ⟨r2, r2.isEmpty, true⟩)
      else if INT_MAX < v then (some INT_MAX, ⟨r2, r2.isEmpty, true⟩)
      else (some v, ⟨r2, r2.isEmpty, false⟩)

/-- The `stream.ignore(1)`: a stream that is not good gets `failbit`;
otherwise one character is discarded, or `eofbit` is set at the end. -/
def ignore1 (s : IStream) : IStream :=
  if s.good then
    match s.rest with
    | [] => ⟨[], true, s.fail⟩
    | _ :: r => ⟨r, s.eof, s.fail⟩
  else ⟨s.rest, s.eof, true⟩

/-- One pass of the body of the loop that reads the references of an `f`
line (`mesh.cpp` 286-300): three extractions separated by `ignore(1)`, then
the three decrements, starting from the indeterminate local `u`. -/
def readVertex (u : Vertex) (s : IStream) : Vertex × IStream :=
  let (p, s1) := readInt s
  let s2 := ignore1 s1
  let (t, s3) := readInt s2
  let s4 := ignore1 s3
  let (n, s5) := readInt s4
  (⟨wrap32 (p.getD u.p - 1), wrap32 (t.getD u.t - 1), wrap32 (n.getD u.n - 1)⟩, s5)

/-- The loop `while (objLine.good())` of an `f` line with at most `fuel`
passes; `uninit k` is the indeterminate content of the local `Vertex v` in
the pass that finds `k` references already stored. -/
def readVertsFuel (uninit : Nat → Vertex) : Nat → IStream → List Vertex → List Vertex
  | 0, _, verts => verts
  | fuel + 1, s, verts =>
    if s.good then
      let (v, s1) := readVertex (uninit verts.length) s
      readVertsFuel uninit fuel s1 (verts ++ [v])
    else verts

/-- The loop `while (objLine.good())` of an `f` line: every pass but the last
consumes a character, so one pass more than the unread characters is enough
(`readVertsFuel_enough`). -/
def readVerts (uninit : Nat → Vertex) (s : IStream) : List Vertex :=
  readVertsFuel uninit (s.rest.length + 1) s []

/-! ## The mesh and its operations (`mesh.cpp`) -/

/-- What the embedding takes as given: library code outside the repository
and the contents of storage that the source reads before writing it. -/
structure Ambient where
  /-- The vector left by `objLine >> v[0] >> v[1] >> v[2]` on an
  uninitialised `Vector3f`. -/
  scanVec3 : IStream → Vec3
  /-- The vector left by `objLine >> vt[0] >> vt[1]` on an uninitialised
  `Vector2f`. -/
  scanVec2 : IStream → Vec2
  /-- The indeterminate content of the local `Vertex v` of the face loop. -/
  uninit : Nat → Vertex
  /-- The `Vector3f::normalize`. -/
  normalize : Vec3 → Vec3
  /-- The `BoundingBox::intersect` (its class is not part of the sources). -/
  boxIntersect : BoundingBox → Vec3 → Vec3 → Bool
  /-- The content of the bounding box before `updateBoundingBox` assigns it. -/
  boundingBox0 : BoundingBox
  /-- The indeterminate content of the member `numVertices` before it is
  assigned. -/
  numVertices0 : Int
  /-- The indeterminate content of the member `numFaces` before it is
  assigned. -/
  numFaces0 : Int

/-- The data members of `class Mesh` that the operations below read or
write (the constraint list, the two flags and the rendering handles are left
out). -/
structure Mesh where
  numVertices : Int
  numFaces : Int
  initialVertices : List Vec3
  vertices : List Vec3
  uvs : List Vec2
  normals : List Vec3
  edges : List Edge
  triangles : List Triangle
  surfaceNormals : List Vec3
  adjacentTriangles : AdjacencyMap
  velocities : List Vec3
  inverseMasses : List ℚ
  estimatePositions : List Vec3
  boundingBox : BoundingBox

/-- The members as they are when the body of the constructor starts: every
container empty, the two counters and the bounding box indeterminate. -/
def Mesh.fresh (A : Ambient) : Mesh :=
  { numVertices := A.numVertices0, numFaces := A.numFaces0,
    initialVertices := [], vertices := [], uvs := [], normals := [],
    edges := [], triangles := [], surfaceNormals := [], adjacentTriangles := [],
    velocities := [], inverseMasses := [], estimatePositions := [],
    boundingBox := A.boundingBox0 }

/-- The subscript `vertices[i]` with an `int` index. -/
def vertexAt (vs : List Vec3) (i : Int) : Vec3 :=
  if 0 ≤ i then vs.getD i.toNat Vec3.zero else Vec3.zero

/-- The subscript `triangles[i]`. -/
def triangleAt (ts : List Triangle) (i : Nat) : Triangle :=
  ts.getD i ⟨⟨0, 0, 0⟩, ⟨0, 0, 0⟩, ⟨0, 0, 0⟩⟩

/-- The normal `normalize(cross(v1 - v0, v2 - v0))` of a triangle
(`mesh.cpp` 38-41 and 122-125). -/
def faceNormal (A : Ambient) (vs : List Vec3) (tri : Triangle) : Vec3 :=
  A.normalize (Vec3.cross ((vertexAt vs tri.v1.p).sub (vertexAt vs tri.v0.p))
    ((vertexAt vs tri.v2.p).sub (vertexAt vs tri.v0.p)))

/-- The `Mesh::generateSurfaceNormals`. -/
def Mesh.generateSurfaceNormals (A : Ambient) (m : Mesh) : Mesh :=
  let normals := (List.range m.numFaces.toNat).map
    (fun i => faceNormal A m.vertices (triangleAt m.triangles i))
  { m with surfaceNormals := normals }

/-- The `Mesh::reset`: `resize((size_t) numVertices, ...)` throws
`std::length_error` for a negative counter, which is `none`. -/
def Mesh.reset (m : Mesh) : Option Mesh :=
  if 0 ≤ m.numVertices then
    some { m with vertices := m.initialVertices,
                  velocities := List.replicate m.numVertices.toNat Vec3.zero }
  else none

/-- The `Mesh::applyImpulse`. -/
def Mesh.applyImpulse (m : Mesh) (force : Vec3) : Mesh :=
  let moved := (List.range m.numVertices.toNat).foldl
    (fun vs i => vs.set i ((vs.getD i Vec3.zero).add force)) m.velocities
  { m with velocities := moved }

/-- The `Mesh::translate`. -/
def Mesh.translate (m : Mesh) (translate : Vec3) : Mesh :=
  let moved := (List.range m.numVertices.toNat).foldl
    (fun vs i => vs.set i ((vs.getD i Vec3.zero).add translate)) m.vertices
  { m with vertices := moved }

/-- One pass of the loop of `updateBoundingBox` (`mesh.cpp` 75-84). -/
def boundStep (b : BoundingBox) (vertex : Vec3) : BoundingBox :=
  { xMin := if Scalar.lt (.fin vertex.x) b.xMin then .fin vertex.x else b.xMin,
    xMax := if Scalar.lt b.xMax (.fin vertex.x) then .fin vertex.x else b.xMax,
    yMin := if Scalar.lt (.fin vertex.y) b.yMin then .fin vertex.y else b.yMin,
    yMax := if Scalar.lt b.yMax (.fin vertex.y) then .fin vertex.y else b.yMax,
    zMin := if Scalar.lt (.fin vertex.z) b.zMin then .fin vertex.z else b.zMin,
    zMax := if Scalar.lt b.zMax (.fin vertex.z) then .fin vertex.z else b.zMax }

/-- The `Mesh::updateBoundingBox`. -/
def Mesh.updateBoundingBox (m : Mesh) : Mesh :=
  let box := (List.range m.numVertices.toNat).foldl
    (fun b i => boundStep b (m.vertices.getD i Vec3.zero))
    ⟨.posInf, .negInf, .posInf, .negInf, .posInf, .negInf⟩
  { m with boundingBox := box }

/-- The `Mesh::rayTriangleIntersect`: the result and the reference
parameters `t`, `u`, `v` as they are on return. The bound of the parallel
test is the `float` literal `0.0001f`, whose value is
13743895/137438953472 = 13743895 · 2^-37, a little below 1/10000. -/
def Mesh.rayTriangleIntersect (m : Mesh) (rayOrigin rayDirection : Vec3) (t : Scalar)
    (triangleIndex : Nat) (vertexIndex : Int) (u v : ℚ) : Bool × Scalar × ℚ × ℚ :=
  let i0 := (triangleAt m.triangles triangleIndex).v0.p
  let i1 := (triangleAt m.triangles triangleIndex).v1.p
  let i2 := (triangleAt m.triangles triangleIndex).v2.p
  if i0 = vertexIndex ∨ i1 = vertexIndex ∨ i2 = vertexIndex then (false, t, u, v)
  else
    let v0 := vertexAt m.vertices i0
    let v1 := vertexAt m.vertices i1
    let v2 := vertexAt m.vertices i2
    let v0v1 := v1.sub v0
    let v0v2 := v2.sub v0
    let pvec := rayDirection.cross v0v2
    let det := v0v1.dot pvec
    if |det| < 13743895 / 137438953472 then (false, t, u, v)
    else
      let invDet := 1 / det
      let tvec := rayOrigin.sub v0
      let u1 := tvec.dot pvec * invDet
      if u1 < 0 ∨ u1 > 1 then (false, t, u1, v)
      else
        let qvec := tvec.cross v0v1
        let w1 := rayDirection.dot qvec * invDet
        if w1 < 0 ∨ u1 + w1 > 1 then (false, t, u1, w1)
        else (true, .fin (v0v2.dot qvec * invDet), u1, w1)

/-- One pass of the loop of `intersect` (`mesh.cpp` 107-115) on the locals
`hit`, `t`, `closestIndex`; the local `uv` is written and never read. -/
def intersectStep (m : Mesh) (rayOrigin rayDirection : Vec3) (vertexIndex : Int)
    (acc : Bool × Scalar × Nat) (triangleIndex : Nat) : Bool × Scalar × Nat :=
  let r := m.rayTriangleIntersect rayOrigin rayDirection .posInf triangleIndex vertexIndex 0 0
  if r.1 && Scalar.lt r.2.1.fabs acc.2.1.fabs then (true, r.2.1, triangleIndex) else acc

/-- The `Mesh::intersect`: the mesh, the result, and the reference
parameters `t`, `normal`, `triHitIndex` as they are on return. -/
def Mesh.intersect (A : Ambient) (m : Mesh) (rayOrigin rayDirection : Vec3) (t : Scalar)
    (normal : Vec3) (vertexIndex : Int) (triHitIndex : Int) :
    Mesh × Bool × Scalar × Vec3 × Int :=
  if !A.boxIntersect m.boundingBox rayOrigin rayDirection then
    (m, false, t, normal, triHitIndex)
  else
    let r := (List.range m.numFaces.toNat).foldl
      (intersectStep m rayOrigin rayDirection vertexIndex) (false, .posInf, 0)
    if r.1 then
      (m, true, r.2.1, faceNormal A m.vertices (triangleAt m.triangles r.2.2), (r.2.2 : Int))
    else (m, false, r.2.1, normal, triHitIndex)

/-- The update `a[i] += n` of an array of vectors with an `int` index. -/
def addAt (vs : List Vec3) (i : Int) (n : Vec3) : List Vec3 :=
  if 0 ≤ i then vs.set i.toNat ((vertexAt vs i).add n) else vs

/-- One pass of the loop of `render` that sums the face normals
(`mesh.cpp` 176-182) on the local `tempNormals`. -/
def accumulateStep (m : Mesh) (tempNormals : List Vec3) (i : Nat) : List Vec3 :=
  let tri := triangleAt m.triangles i
  let n := m.surfaceNormals.getD i Vec3.zero
  addAt (addAt (addAt tempNormals tri.v0.p n) tri.v1.p n) tri.v2.p n

/-- One pass of the loop of `render` that builds `outVertices` and
`outNormals` (`mesh.cpp` 187-198). -/
def emitStep (A : Ambient) (m : Mesh) (tempNormals : List Vec3)
    (out : List Vec3 × List Vec3) (i : Nat) : List Vec3 × List Vec3 :=
  let tri := triangleAt m.triangles i
  (out.1 ++ [vertexAt m.vertices tri.v0.p, vertexAt m.vertices tri.v1.p,
      vertexAt m.vertices tri.v2.p],
    out.2 ++ [A.normalize (vertexAt tempNormals tri.v0.p),
      A.normalize (vertexAt tempNormals tri.v1.p), A.normalize (vertexAt tempNormals tri.v2.p)])

/-- The `Mesh::render` up to the upload of the two arrays (`mesh.cpp`
172-198; the transform, the buffers and the draw call are left out): the
mesh, `outVertices` and `outNormals`, or `none` when the `resize` of
`tempNormals` throws on a negative counter. The loop counters are
`unsigned int`, so the `int` bound `numFaces` is compared modulo 2^32. -/
def Mesh.render (A : Ambient) (m : Mesh) : Option (Mesh × List Vec3 × List Vec3) :=
  if 0 ≤ m.numVertices then
    let tempNormals := List.replicate m.numVertices.toNat Vec3.zero
    let m1 := m.generateSurfaceNormals A
    let count := (m1.numFaces % 4294967296).toNat
    let summed := (List.range count).foldl (accumulateStep m1) tempNormals
    let out := (List.range count).foldl (emitStep A m1 summed) ([], [])
    some (m1, out.1, out.2)
  else none

/-- The lines that `getline` delivers while the file stream is good: the
pieces between line feeds, the piece after the last one included. -/
def splitLines : List Char → List (List Char)
  | [] => [[]]
  | c :: cs =>
    if c = '\n' then [] :: splitLines cs
    else
      match splitLines cs with
      | [] => [[c]]
      | l :: ls => (c :: l) :: ls

/-- The face branch (`mesh.cpp` 304-323) for the references `verts`. -/
def addFace (m : Mesh) (verts : List Vertex) : Mesh :=
  match verts with
  | a :: b :: c :: _ =>
    let triangle : Triangle := ⟨a, b, c⟩
    let e1 : Edge := ⟨a, b⟩
    let e2 : Edge := ⟨a, c⟩
    let e3 : Edge := ⟨b, c⟩
    { m with
      triangles := m.triangles ++ [triangle],
      edges := setInsert e3 (setInsert e2 (setInsert e1 m.edges)),
      adjacentTriangles :=
        mapPush e3 triangle (mapPush e2 triangle (mapPush e1 triangle m.adjacentTriangles)) }
  | _ => m

/-- The body of the loop over the lines of the file (`mesh.cpp` 259-325). -/
def parseLine (A : Ambient) (m : Mesh) (line : List Char) : Mesh :=
  let (mode, objLine) := readWord ⟨line, false, false⟩
  if objLine.fail then m
  else if mode = ['v'] then { m with vertices := m.vertices ++ [A.scanVec3 objLine] }
  else if mode = ['v', 'n'] then { m with normals := m.normals ++ [A.scanVec3 objLine] }
  else if mode = ['v', 't'] then { m with uvs := m.uvs ++ [A.scanVec2 objLine] }
  else if mode = ['f'] then addFace m (readVerts A.uninit objLine)
  else m

/-- The `Mesh::parseObjFile` on the content of the file, `none` when the
file cannot be opened; the flag says whether `Error reading` was printed. -/
def Mesh.parseObjFile (A : Ambient) (m : Mesh) (file : Option (List Char)) : Mesh × Bool :=
  match file with
  | none => (m, true)
  | some text =>
    let m1 := (splitLines text).foldl (parseLine A) m
    let m2 := { m1 with numVertices := (m1.vertices.length : Int) }
    let m3 := { m2 with numFaces := (m2.triangles.length : Int) }
    (m3.generateSurfaceNormals A, false)

/-- The constructor `Mesh::Mesh` (the buffer and shader set-up left out):
the mesh, `none` when `reset` throws, and whether `Error reading` was
printed. -/
def Mesh.construct (A : Ambient) (file : Option (List Char)) : Option Mesh × Bool :=
  let (m1, printed) := (Mesh.fresh A).parseObjFile A file
  let m2 := { m1 with initialVertices := m1.vertices }
  (m2.reset.map Mesh.updateBoundingBox, printed)

/-! ## Definitions used to state the properties -/

/-- The canonical pair of an edge in the words of the spec. -/
def edgeKey (e : Edge) : Int × Int := (min e.v0.p e.v1.p, max e.v0.p e.v1.p)

/-- The key of an edge in the lexicographic order. -/
def lexKey (e : Edge) : Lex (Int × Int) := toLex (edgeKey e)

/-- The keys of the entries of an adjacency map, in iteration order. -/
def mapKeys (adj : AdjacencyMap) : List (Lex (Int × Int)) := adj.map (fun kv => lexKey kv.1)

/-- The three sides of a triangle as `parseObjFile` builds them
(`mesh.cpp` 312-314). -/
def sides (t : Triangle) : List Edge := [⟨t.v0, t.v1⟩, ⟨t.v0, t.v2⟩, ⟨t.v1, t.v2⟩]

/-- How many of the three sides of `t` are the edge `k`. -/
def sideCount (k : Edge) (t : Triangle) : Nat := (sides t).countP (fun s => edgeEquiv s k)

/-- Whether `k` is one of the three sides of `t`. -/
def hasSide (k : Edge) (t : Triangle) : Bool := (sides t).any (fun s => edgeEquiv s k)

/-- A triangle whose three position indices are pairwise different. -/
def Triangle.Proper (t : Triangle) : Prop := t.v0.p ≠ t.v1.p ∧ t.v0.p ≠ t.v2.p ∧ t.v1.p ≠ t.v2.p

instance (t : Triangle) : Decidable t.Proper := by
  unfold Triangle.Proper
  infer_instance

/-- The mesh when the loop of `parseObjFile`, entered from the constructor,
has consumed the lines `ls`. -/
def linesDone (A : Ambient) (ls : List (List Char)) : Mesh :=
  ls.foldl (parseLine A) (Mesh.fresh A)

/-- The edge set and the adjacency map are in ascending key order, the edge
set has the keys of the sides of the triangles, and every adjacency list
has one entry per side. -/
structure Topology (m : Mesh) : Prop where
  edgesSorted : (m.edges.map lexKey).Pairwise (· < ·)
  adjSorted : (mapKeys m.adjacentTriangles).Pairwise (· < ·)
  edgeKeys : ∀ k, k ∈ m.edges.map lexKey ↔ k ∈ (m.triangles.flatMap sides).map lexKey
  adjLists : ∀ k, adjacent k m.adjacentTriangles =
    m.triangles.flatMap (fun t => List.replicate (sideCount k t) t)

/-- An instance of the givens, for evaluating the operations on concrete
inputs. -/
def Ambient.demo : Ambient :=
  { scanVec3 := fun _ => Vec3.zero, scanVec2 := fun _ => ⟨0, 0⟩, uninit := fun _ => ⟨0, 0, 0⟩,
    normalize := id, boxIntersect := fun _ _ _ => true,
    boundingBox0 := ⟨.fin 0, .fin 0, .fin 0, .fin 0, .fin 0, .fin 0⟩,
    numVertices0 := 0, numFaces0 := 0 }

/-- The decimal text of an integer, with a minus sign when it is negative. -/
def intText : Int → List Char
  | Int.ofNat n => Nat.toDigits 10 n
  | Int.negSucc n => '-' :: Nat.toDigits 10 (n + 1)

/-- The text `p/t/n` of a vertex reference. -/
def refText (r : Int × Int × Int) : List Char :=
  intText r.1 ++ '/' :: (intText r.2.1 ++ '/' :: intText r.2.2)

/-- An `f` line: the token `f`, then each reference behind its separator. -/
def faceLine (refs : List (List Char × Int × Int × Int)) : List Char :=
  'f' :: refs.flatMap (fun r => r.1 ++ refText r.2)

/-- A run of white space that is not empty. -/
def IsSeparator (ws : List Char) : Prop := ws ≠ [] ∧ ∀ c ∈ ws, isSpace c = true

instance (ws : List Char) : Decidable (IsSeparator ws) := by
  unfold IsSeparator
  infer_instance

/-- An index that `operator>>` stores as written and whose decrement does
not overflow. -/
def InRange (i : Int) : Prop := INT_MIN < i ∧ i ≤ INT_MAX

instance (i : Int) : Decidable (InRange i) := by
  unfold InRange
  infer_instance

/-- The unread text stops the digits of a number: it is empty or starts with
a character that is not a digit. -/
def StopsDigits (r : List Char) : Prop := ∀ c ∈ r.head?, isDigit c = false

/-- The first white-space-delimited token of a line (empty when the line is
blank or holds white space only). -/
def firstToken (line : List Char) : List Char :=
  (line.dropWhile isSpace).takeWhile (fun c => !isSpace c)

/-- A line whose first token is none of `v`, `vn`, `vt`, `f`; blank and
white-space-only lines are among them. -/
def Ignorable (line : List Char) : Prop :=
  firstToken line ∉ [['v'], ['v', 'n'], ['v', 't'], ['f']]

instance (line : List Char) : Decidable (Ignorable line) := by
  unfold Ignorable
  infer_instance

/-- The text of a file from its lines: a line feed between consecutive
lines. -/
def joinLines : List (List Char) → List Char
  | [] => []
  | [l] => l
  | l :: l' :: ls => l ++ '\n' :: joinLines (l' :: ls)

/-- The state invariant of the claims: the counters and the per-vertex and
per-face arrays agree in size. -/
structure Mesh.Sized (m : Mesh) : Prop where
  numVertices_eq : m.numVertices = (m.vertices.length : Int)
  initialVertices_len : m.initialVertices.length = m.vertices.length
  velocities_len : m.velocities.length = m.vertices.length
  numFaces_eq : m.numFaces = (m.triangles.length : Int)
  surfaceNormals_len : m.surfaceNormals.length = m.triangles.length

/-- Givens whose indeterminate counters are not zero. -/
def Ambient.stale : Ambient :=
  { Ambient.demo with numVertices0 := 3, numFaces0 := -2 }

/-- The text of a file with three positions and one face on them. -/
def oneTriangleText : List Char :=
  "v 0 0 0\nv 1 0 0\nv 0 1 0\nf 1/1/1 2/2/2 3/3/3".toList

/-- The per-triangle test as `intersect` calls it on triangle `j`
(`mesh.cpp` 107-109): the local `tTri` starts at `INFINITY`. -/
def triTest (m : Mesh) (rayOrigin rayDirection : Vec3) (vertexIndex : Int) (j : Nat) :
    Bool × Scalar × ℚ × ℚ :=
  m.rayTriangleIntersect rayOrigin rayDirection .posInf j vertexIndex 0 0

/-- Whether `i` is one of the three position indices of a triangle. -/
def Triangle.hasIndex (t : Triangle) (i : Int) : Prop := t.v0.p = i ∨ t.v1.p = i ∨ t.v2.p = i

instance (t : Triangle) (i : Int) : Decidable (t.hasIndex i) := by
  unfold Triangle.hasIndex
  infer_instance

/-- A mesh of two parallel triangles: triangle 0 on the positions 3, 4, 5
in the plane z = 5 and triangle 1 on the positions 0, 1, 2 in the plane
z = 0, both with the corners (0,0), (1,0), (0,1) in x and y; the counters and
the arrays agree. -/
def twoPlates : Mesh :=
  { numVertices := 6, numFaces := 2,
    initialVertices := [⟨0, 0, 0⟩, ⟨1, 0, 0⟩, ⟨0, 1, 0⟩, ⟨0, 0, 5⟩, ⟨1, 0, 5⟩, ⟨0, 1, 5⟩],
    vertices := [⟨0, 0, 0⟩, ⟨1, 0, 0⟩, ⟨0, 1, 0⟩, ⟨0, 0, 5⟩, ⟨1, 0, 5⟩, ⟨0, 1, 5⟩],
    uvs := [], normals := [],
    edges := [], triangles := [⟨⟨3, 0, 0⟩, ⟨4, 0, 0⟩, ⟨5, 0, 0⟩⟩, ⟨⟨0, 0, 0⟩, ⟨1, 0, 0⟩, ⟨2, 0, 0⟩⟩],
    surfaceNormals := [⟨0, 0, 1⟩, ⟨0, 0, 1⟩], adjacentTriangles := [],
    velocities := List.replicate 6 Vec3.zero, inverseMasses := [], estimatePositions := [],
    boundingBox := ⟨.fin 0, .fin 1, .fin 0, .fin 1, .fin 0, .fin 5⟩ }

/-- The product of a scalar and a vector. -/
def Vec3.scale (k : ℚ) (a : Vec3) : Vec3 := ⟨k * a.x, k * a.y, k * a.z⟩

/-- The opposite vector. -/
def Vec3.neg (a : Vec3) : Vec3 := ⟨-a.x, -a.y, -a.z⟩

/-- The update of a lower bound by one coordinate (`mesh.cpp` 77, 80, 83). -/
def lowerStep (b : Scalar) (c : ℚ) : Scalar := if Scalar.lt (.fin c) b then .fin c else b

/-- The update of an upper bound by one coordinate (`mesh.cpp` 78, 81, 84). -/
def upperStep (b : Scalar) (c : ℚ) : Scalar := if Scalar.lt b (.fin c) then .fin c else b

/-- The three corners of a triangle in winding order. -/
def corners (t : Triangle) : List Vertex := [t.v0, t.v1, t.v2]

/-- The sum of a list of vectors. -/
def Vec3.sum (l : List Vec3) : Vec3 := l.foldl Vec3.add Vec3.zero

/-- The face normals of the triangle corners that lie on the position `p`,
in triangle order: one entry for every corner of every triangle whose
position index is `p`. -/
def incidentNormals (A : Ambient) (m : Mesh) (p : Int) : List Vec3 :=
  (List.range m.numFaces.toNat).flatMap (fun i =>
    ((corners (triangleAt m.triangles i)).filter (fun c => decide (c.p = p))).map
      (fun _ => faceNormal A m.vertices (triangleAt m.triangles i)))

/-- A mesh of one thin triangle with the corners (0,0,0), (0.0001f,0,0),
(0,1,0), the first coordinate of the second corner being the value
13743895/137438953472 of the literal `0.0001f`; the counters and the arrays
agree. -/
def thinTriangle : Mesh :=
  { numVertices := 3, numFaces := 1,
    initialVertices := [⟨0, 0, 0⟩, ⟨13743895 / 137438953472, 0, 0⟩, ⟨0, 1, 0⟩],
    vertices := [⟨0, 0, 0⟩, ⟨13743895 / 137438953472, 0, 0⟩, ⟨0, 1, 0⟩],
    uvs := [], normals := [],
    edges := [], triangles := [⟨⟨0, 0, 0⟩, ⟨1, 0, 0⟩, ⟨2, 0, 0⟩⟩],
    surfaceNormals := [⟨0, 0, 1⟩], adjacentTriangles := [],
    velocities := List.replicate 3 Vec3.zero, inverseMasses := [], estimatePositions := [],
    boundingBox := ⟨.fin 0, .fin (13743895 / 137438953472), .fin 0, .fin 1, .fin 0, .fin 0⟩ }

/-! ## Properties -/

/-! ### The order of `EdgeCompare` -/

theorem minmax_eq (a b : Int) : minmax a b = (min a b, max a b) := by
  unfold minmax
  split_ifs with h
  · rw [min_eq_right h.le, max_eq_left h.le]
  · push_neg at h
    rw [min_eq_left h, max_eq_right h]

theorem lessComparator_iff (x y : Int × Int) :
    lessComparator x y = true ↔ toLex x < toLex y := by
  rw [Prod.Lex.lt_iff]
  simp only [lessComparator, Bool.or_eq_true, Bool.and_eq_true, decide_eq_true_eq,
    Bool.not_eq_true', decide_eq_false_iff_not, ofLex_toLex]
  constructor
  · rintro (h | ⟨h1, h2⟩)
    · exact Or.inl h
    · rcases lt_or_eq_of_le (not_lt.mp h1) with h | h
      · exact Or.inl h
      · exact Or.inr ⟨h, h2⟩
  · rintro (h | ⟨h1, h2⟩)
    · exact Or.inl h
    · exact Or.inr ⟨by omega, h2⟩


theorem edgeCompare_iff (a b : Edge) : EdgeCompare a b = true ↔ lexKey a < lexKey b := by
  unfold EdgeCompare lexKey edgeKey
  rw [lessComparator_iff, minmax_eq, minmax_eq]

theorem edgeCompare_false_iff (a b : Edge) : EdgeCompare a b = false ↔ lexKey b ≤ lexKey a := by
  rw [← not_lt, ← edgeCompare_iff]; simp

theorem edgeEquiv_iff (a b : Edge) : edgeEquiv a b = true ↔ lexKey a = lexKey b := by
  unfold edgeEquiv
  simp only [Bool.and_eq_true, Bool.not_eq_true', edgeCompare_false_iff]
  constructor
  · rintro ⟨h1, h2⟩; exact le_antisymm h2 h1
  · intro h; exact ⟨h.ge, h.le⟩

theorem lexKey_eq_iff (a b : Edge) : lexKey a = lexKey b ↔ edgeKey a = edgeKey b := by
  unfold lexKey; exact toLex_inj

/-! ### The ordered containers -/

theorem mem_keys_setInsert (e : Edge) (xs : List Edge) (k : Lex (Int × Int)) :
    k ∈ (setInsert e xs).map lexKey ↔ k = lexKey e ∨ k ∈ xs.map lexKey := by
  induction xs with
  | nil => simp [setInsert]
  | cons x xs ih =>
    unfold setInsert
    split_ifs with h1 h2
    · simp
    · rw [List.map_cons, List.mem_cons, ih, List.map_cons, List.mem_cons]
      tauto
    · have hx : lexKey x = lexKey e := by
        have a1 := (edgeCompare_false_iff e x).mp (by simpa using h1)
        have a2 := (edgeCompare_false_iff x e).mp (by simpa using h2)
        exact le_antisymm a1 a2
      rw [List.map_cons, List.mem_cons, hx]
      tauto

theorem sorted_setInsert (e : Edge) (xs : List Edge)
    (h : (xs.map lexKey).Pairwise (· < ·)) :
    ((setInsert e xs).map lexKey).Pairwise (· < ·) := by
  induction xs with
  | nil => simp [setInsert]
  | cons x xs ih =>
    rw [List.map_cons, List.pairwise_cons] at h
    unfold setInsert
    split_ifs with h1 h2
    · rw [List.map_cons, List.pairwise_cons]
      refine ⟨?_, by rw [List.map_cons, List.pairwise_cons]; exact h⟩
      intro k hk
      rw [List.map_cons, List.mem_cons] at hk
      have hex := (edgeCompare_iff e x).mp h1
      rcases hk with hk | hk
      · rw [hk]; exact hex
      · exact lt_trans hex (h.1 k hk)
    · rw [List.map_cons, List.pairwise_cons]
      refine ⟨?_, ih h.2⟩
      intro k hk
      rw [mem_keys_setInsert] at hk
      rcases hk with hk | hk
      · rw [hk]; exact (edgeCompare_iff x e).mp h2
      · exact h.1 k hk
    · rw [List.map_cons, List.pairwise_cons]; exact h

theorem length_setInsert_le (e : Edge) (xs : List Edge) :
    (setInsert e xs).length ≤ xs.length + 1 := by
  induction xs with
  | nil => simp [setInsert]
  | cons x xs ih =>
    unfold setInsert
    split_ifs <;> simp only [List.length_cons] <;> omega

theorem mem_setInsert_of_mem (e x : Edge) (xs : List Edge) (h : x ∈ xs) :
    x ∈ setInsert e xs := by
  induction xs with
  | nil => cases h
  | cons y ys ih =>
    unfold setInsert
    split_ifs
    · exact List.mem_cons_of_mem _ h
    · rcases List.mem_cons.mp h with h | h
      · rw [h]; exact List.mem_cons_self _ _
      · exact List.mem_cons_of_mem _ (ih h)
    · exact h


theorem mem_mapKeys_mapPush (e : Edge) (t : Triangle) (adj : AdjacencyMap)
    (k : Lex (Int × Int)) :
    k ∈ mapKeys (mapPush e t adj) ↔ k = lexKey e ∨ k ∈ mapKeys adj := by
  induction adj with
  | nil => simp [mapPush, mapKeys]
  | cons kv rest ih =>
    obtain ⟨k0, ts⟩ := kv
    unfold mapPush
    unfold mapKeys at ih ⊢
    split_ifs with h1 h2
    · simp
    · rw [List.map_cons, List.mem_cons, ih, List.map_cons, List.mem_cons]
      tauto
    · have hx : lexKey k0 = lexKey e := by
        have a1 := (edgeCompare_false_iff e k0).mp (by simpa using h1)
        have a2 := (edgeCompare_false_iff k0 e).mp (by simpa using h2)
        exact le_antisymm a1 a2
      rw [List.map_cons, List.mem_cons, List.map_cons, List.mem_cons]
      simp only [hx]
      tauto

theorem sorted_mapPush (e : Edge) (t : Triangle) (adj : AdjacencyMap)
    (h : (mapKeys adj).Pairwise (· < ·)) :
    (mapKeys (mapPush e t adj)).Pairwise (· < ·) := by
  induction adj with
  | nil => simp [mapPush, mapKeys]
  | cons kv rest ih =>
    obtain ⟨k0, ts⟩ := kv
    have h' : (lexKey k0 :: mapKeys rest).Pairwise (· < ·) := h
    rw [List.pairwise_cons] at h'
    unfold mapPush
    split_ifs with h1 h2
    · show (lexKey e :: lexKey k0 :: mapKeys rest).Pairwise (· < ·)
      rw [List.pairwise_cons]
      refine ⟨?_, h⟩
      intro k hk
      have hex := (edgeCompare_iff e k0).mp h1
      rcases List.mem_cons.mp hk with hk | hk
      · rw [hk]; exact hex
      · exact lt_trans hex (h'.1 k hk)
    · show (lexKey k0 :: mapKeys (mapPush e t rest)).Pairwise (· < ·)
      rw [List.pairwise_cons]
      refine ⟨?_, ih h'.2⟩
      intro k hk
      rw [mem_mapKeys_mapPush] at hk
      rcases hk with hk | hk
      · rw [hk]; exact (edgeCompare_iff k0 e).mp h2
      · exact h'.1 k hk
    · exact h

theorem adjacent_eq_nil (e : Edge) (adj : AdjacencyMap) (h : lexKey e ∉ mapKeys adj) :
    adjacent e adj = [] := by
  induction adj with
  | nil => rfl
  | cons kv rest ih =>
    obtain ⟨k0, ts⟩ := kv
    have h' : lexKey e ∉ lexKey k0 :: mapKeys rest := h
    rw [List.mem_cons, not_or] at h'
    unfold adjacent
    have hne : edgeEquiv k0 e = false := by
      rw [← Bool.not_eq_true, edgeEquiv_iff]
      exact fun hh => h'.1 hh.symm
    rw [hne]
    exact ih h'.2

theorem equiv_key_of_not_lt {e k0 : Edge} (h1 : ¬EdgeCompare e k0 = true)
    (h2 : ¬EdgeCompare k0 e = true) : lexKey k0 = lexKey e :=
  le_antisymm ((edgeCompare_false_iff e k0).mp (by simpa using h1))
    ((edgeCompare_false_iff k0 e).mp (by simpa using h2))

theorem adjacent_mapPush (e : Edge) (t : Triangle) (adj : AdjacencyMap) (k : Edge)
    (h : (mapKeys adj).Pairwise (· < ·)) :
    adjacent k (mapPush e t adj) =
      if edgeEquiv e k then adjacent k adj ++ [t] else adjacent k adj := by
  induction adj with
  | nil =>
    unfold mapPush adjacent
    by_cases hk : edgeEquiv e k = true <;> simp [hk, adjacent]
  | cons kv rest ih =>
    obtain ⟨k0, ts⟩ := kv
    have h' : (lexKey k0 :: mapKeys rest).Pairwise (· < ·) := h
    rw [List.pairwise_cons] at h'
    have ih' := ih h'.2
    unfold mapPush
    by_cases h3 : edgeEquiv e k = true
    · rw [if_pos h3] at ih' ⊢
      have hek := (edgeEquiv_iff e k).mp h3
      split_ifs with h1 h2
      · have hlt := (edgeCompare_iff e k0).mp h1
        have hnil : adjacent k ((k0, ts) :: rest) = [] := by
          apply adjacent_eq_nil
          show lexKey k ∉ lexKey k0 :: mapKeys rest
          rw [List.mem_cons, not_or, ← hek]
          exact ⟨ne_of_lt hlt, fun hm => lt_asymm hlt (h'.1 _ hm)⟩
        rw [hnil]
        show (if edgeEquiv e k then [t] else adjacent k ((k0, ts) :: rest)) = [] ++ [t]
        rw [if_pos h3]; rfl
      · have hlt := (edgeCompare_iff k0 e).mp h2
        have hne : edgeEquiv k0 k = false := by
          rw [← Bool.not_eq_true, edgeEquiv_iff, ← hek]
          exact ne_of_lt hlt
        show (if edgeEquiv k0 k then ts else adjacent k (mapPush e t rest)) =
          (if edgeEquiv k0 k then ts else adjacent k rest) ++ [t]
        rw [hne, ih']; rfl
      · have hk0 : edgeEquiv k0 k = true := by
          rw [edgeEquiv_iff, equiv_key_of_not_lt h1 h2]; exact hek
        show (if edgeEquiv k0 k then ts ++ [t] else adjacent k rest) =
          (if edgeEquiv k0 k then ts else adjacent k rest) ++ [t]
        rw [hk0]; rfl
    · rw [if_neg h3] at ih' ⊢
      split_ifs with h1 h2
      · show (if edgeEquiv e k then [t] else adjacent k ((k0, ts) :: rest)) = _
        rw [if_neg h3]
      · show (if edgeEquiv k0 k then ts else adjacent k (mapPush e t rest)) =
          (if edgeEquiv k0 k then ts else adjacent k rest)
        rw [ih']
      · have hk0 : edgeEquiv k0 k = false := by
          rw [← Bool.not_eq_true, edgeEquiv_iff, equiv_key_of_not_lt h1 h2, ← edgeEquiv_iff]
          exact h3
        show (if edgeEquiv k0 k then ts ++ [t] else adjacent k rest) =
          (if edgeEquiv k0 k then ts else adjacent k rest)
        rw [hk0]; rfl

/-! ### The topology built by the parser -/

theorem replicate_sideCount (k : Edge) (a b c : Vertex) :
    List.replicate (sideCount k ⟨a, b, c⟩) (⟨a, b, c⟩ : Triangle) =
      (if edgeEquiv ⟨a, b⟩ k then [(⟨a, b, c⟩ : Triangle)] else []) ++
      ((if edgeEquiv ⟨a, c⟩ k then [(⟨a, b, c⟩ : Triangle)] else []) ++
       (if edgeEquiv ⟨b, c⟩ k then [(⟨a, b, c⟩ : Triangle)] else [])) := by
  unfold sideCount sides
  simp only [List.countP_cons, List.countP_nil]
  cases edgeEquiv ⟨a, b⟩ k <;> cases edgeEquiv ⟨a, c⟩ k <;> cases edgeEquiv ⟨b, c⟩ k <;> rfl

theorem adjacent_addFace (m : Mesh) (a b c : Vertex) (more : List Vertex) (k : Edge)
    (h : (mapKeys m.adjacentTriangles).Pairwise (· < ·)) :
    adjacent k (addFace m (a :: b :: c :: more)).adjacentTriangles =
      adjacent k m.adjacentTriangles ++ List.replicate (sideCount k ⟨a, b, c⟩) ⟨a, b, c⟩ := by
  have s1 := sorted_mapPush ⟨a, b⟩ ⟨a, b, c⟩ _ h
  have s2 := sorted_mapPush ⟨a, c⟩ ⟨a, b, c⟩ _ s1
  show adjacent k (mapPush ⟨b, c⟩ ⟨a, b, c⟩ (mapPush ⟨a, c⟩ ⟨a, b, c⟩
    (mapPush ⟨a, b⟩ ⟨a, b, c⟩ m.adjacentTriangles))) = _
  rw [adjacent_mapPush _ _ _ _ s2, adjacent_mapPush _ _ _ _ s1, adjacent_mapPush _ _ _ _ h,
    replicate_sideCount]
  cases edgeEquiv ⟨a, b⟩ k <;> cases edgeEquiv ⟨a, c⟩ k <;> cases edgeEquiv ⟨b, c⟩ k <;> simp

theorem topology_addFace (m : Mesh) (verts : List Vertex) (h : Topology m) :
    Topology (addFace m verts) := by
  match verts with
  | [] => exact h
  | [_] => exact h
  | [_, _] => exact h
  | a :: b :: c :: more =>
    have s1 := sorted_mapPush ⟨a, b⟩ ⟨a, b, c⟩ _ h.adjSorted
    have s2 := sorted_mapPush ⟨a, c⟩ ⟨a, b, c⟩ _ s1
    refine ⟨?_, sorted_mapPush ⟨b, c⟩ ⟨a, b, c⟩ _ s2, ?_, ?_⟩
    · exact sorted_setInsert _ _ (sorted_setInsert _ _ (sorted_setInsert _ _ h.edgesSorted))
    · intro k
      show k ∈ (setInsert ⟨b, c⟩ (setInsert ⟨a, c⟩ (setInsert ⟨a, b⟩ m.edges))).map lexKey ↔
        k ∈ ((m.triangles ++ [(⟨a, b, c⟩ : Triangle)]).flatMap sides).map lexKey
      rw [mem_keys_setInsert, mem_keys_setInsert, mem_keys_setInsert, h.edgeKeys k,
        List.flatMap_append, List.map_append, List.mem_append]
      simp only [List.flatMap_cons, List.flatMap_nil, List.append_nil, sides, List.map_cons,
        List.map_nil, List.mem_cons, List.mem_singleton, List.not_mem_nil, or_false]
      tauto
    · intro k
      rw [adjacent_addFace m a b c more k h.adjSorted, h.adjLists k]
      show _ = (m.triangles ++ [(⟨a, b, c⟩ : Triangle)]).flatMap _
      rw [List.flatMap_append]
      simp

theorem addFace_frame (m : Mesh) (verts : List Vertex) :
    (addFace m verts).vertices = m.vertices ∧ (addFace m verts).normals = m.normals ∧
    (addFace m verts).uvs = m.uvs ∧ (addFace m verts).numVertices = m.numVertices ∧
    (addFace m verts).numFaces = m.numFaces := by
  match verts with
  | [] => exact ⟨rfl, rfl, rfl, rfl, rfl⟩
  | [_] => exact ⟨rfl, rfl, rfl, rfl, rfl⟩
  | [_, _] => exact ⟨rfl, rfl, rfl, rfl, rfl⟩
  | _ :: _ :: _ :: _ => exact ⟨rfl, rfl, rfl, rfl, rfl⟩

theorem topology_parseLine (A : Ambient) (m : Mesh) (line : List Char) (h : Topology m) :
    Topology (parseLine A m line) := by
  unfold parseLine
  simp only
  split_ifs
  · exact h
  · exact ⟨h.edgesSorted, h.adjSorted, h.edgeKeys, h.adjLists⟩
  · exact ⟨h.edgesSorted, h.adjSorted, h.edgeKeys, h.adjLists⟩
  · exact ⟨h.edgesSorted, h.adjSorted, h.edgeKeys, h.adjLists⟩
  · exact topology_addFace m _ h
  · exact h

theorem topology_foldl (A : Ambient) (ls : List (List Char)) (m : Mesh) (h : Topology m) :
    Topology (ls.foldl (parseLine A) m) := by
  induction ls generalizing m with
  | nil => exact h
  | cons l ls ih => exact ih _ (topology_parseLine A m l h)

theorem topology_fresh (A : Ambient) : Topology (Mesh.fresh A) :=
  ⟨List.Pairwise.nil, List.Pairwise.nil, fun _ => Iff.rfl, fun _ => rfl⟩

theorem topology_linesDone (A : Ambient) (ls : List (List Char)) : Topology (linesDone A ls) :=
  topology_foldl A ls _ (topology_fresh A)

theorem parseObjFile_topology (A : Ambient) (text : List Char) :
    ((Mesh.fresh A).parseObjFile A (some text)).1.edges = (linesDone A (splitLines text)).edges ∧
    ((Mesh.fresh A).parseObjFile A (some text)).1.triangles =
      (linesDone A (splitLines text)).triangles ∧
    ((Mesh.fresh A).parseObjFile A (some text)).1.adjacentTriangles =
      (linesDone A (splitLines text)).adjacentTriangles :=
  ⟨rfl, rfl, rfl⟩

theorem length_flatMap_sides (ts : List Triangle) : (ts.flatMap sides).length = 3 * ts.length := by
  induction ts with
  | nil => rfl
  | cons t ts ih =>
    rw [List.flatMap_cons, List.length_append, ih, List.length_cons]
    simp only [sides, List.length_cons, List.length_nil]
    omega

theorem topology_edges_length (m : Mesh) (h : Topology m) :
    m.edges.length = (((m.triangles.flatMap sides).map edgeKey).dedup).length := by
  have hnd : (m.edges.map lexKey).Nodup := h.edgesSorted.imp ne_of_lt
  have e1 : (m.edges.map lexKey).toFinset = ((m.triangles.flatMap sides).map lexKey).toFinset := by
    ext k
    rw [List.mem_toFinset, List.mem_toFinset]
    exact h.edgeKeys k
  have e2 : m.edges.length = ((m.triangles.flatMap sides).map lexKey).dedup.length := by
    rw [← List.card_toFinset, ← e1, List.card_toFinset, hnd.dedup, List.length_map]
  have e3 : (m.triangles.flatMap sides).map lexKey =
      ((m.triangles.flatMap sides).map edgeKey).map toLex := by
    rw [List.map_map]; rfl
  rw [e2, e3, List.dedup_map_of_injective toLex.injective, List.length_map]

theorem nodup_of_length_dedup {α : Type} [DecidableEq α] (l : List α)
    (h : l.dedup.length = l.length) : l.Nodup := by
  rw [← List.dedup_eq_self]
  exact (List.dedup_sublist l).eq_of_length h

/-! ### Claims on the topology -/

theorem setInsert_of_key_mem (e : Edge) (xs : List Edge)
    (hs : (xs.map lexKey).Pairwise (· < ·)) (hm : lexKey e ∈ xs.map lexKey) :
    setInsert e xs = xs := by
  induction xs with
  | nil => simp at hm
  | cons x xs ih =>
    rw [List.map_cons, List.pairwise_cons] at hs
    rw [List.map_cons, List.mem_cons] at hm
    unfold setInsert
    rcases hm with hm | hm
    · have h1 : EdgeCompare e x = false := by rw [edgeCompare_false_iff, hm]
      have h2 : EdgeCompare x e = false := by rw [edgeCompare_false_iff, hm]
      simp [h1, h2]
    · have hlt := hs.1 _ hm
      have h1 : EdgeCompare e x = false := by rw [edgeCompare_false_iff]; exact hlt.le
      have h2 : EdgeCompare x e = true := by rw [edgeCompare_iff]; exact hlt
      simp [h1, h2, ih hs.2 hm]

theorem sorted_foldr_setInsert (es : List Edge) :
    ((es.foldr setInsert []).map lexKey).Pairwise (· < ·) := by
  induction es with
  | nil => exact List.Pairwise.nil
  | cons e es ih => exact sorted_setInsert e _ ih

/-- C4: `EdgeCompare` identifies edges by the unordered pair of their position
indices: two edges are equivalent (neither is less than the other) exactly
when their (min, max) pairs are equal; `Edge(x, y)` and `Edge(y, x)` are
equivalent and inserting the second into any set that holds the first changes
nothing; and the comparison does not look at the uv and normal indices. -/
theorem edgeCompare_unordered_pair :
    (∀ a b : Edge, (EdgeCompare a b = false ∧ EdgeCompare b a = false) ↔
      (min a.v0.p a.v1.p, max a.v0.p a.v1.p) = (min b.v0.p b.v1.p, max b.v0.p b.v1.p)) ∧
    (∀ x y : Vertex, EdgeCompare ⟨x, y⟩ ⟨y, x⟩ = false ∧ EdgeCompare ⟨y, x⟩ ⟨x, y⟩ = false) ∧
    (∀ (x y : Vertex) (es : List Edge),
      setInsert ⟨y, x⟩ (setInsert ⟨x, y⟩ (es.foldr setInsert [])) =
        setInsert ⟨x, y⟩ (es.foldr setInsert [])) ∧
    (∀ a b : Edge, EdgeCompare a b =
      EdgeCompare ⟨⟨a.v0.p, 0, 0⟩, ⟨a.v1.p, 0, 0⟩⟩ ⟨⟨b.v0.p, 0, 0⟩, ⟨b.v1.p, 0, 0⟩⟩) := by
  have hswap : ∀ x y : Vertex, lexKey ⟨y, x⟩ = lexKey ⟨x, y⟩ := by
    intro x y
    show toLex (min y.p x.p, max y.p x.p) = toLex (min x.p y.p, max x.p y.p)
    rw [min_comm, max_comm]
  refine ⟨?_, ?_, ?_, fun _ _ => rfl⟩
  · intro a b
    have h := edgeEquiv_iff a b
    rw [lexKey_eq_iff] at h
    unfold edgeEquiv at h
    simp only [Bool.and_eq_true, Bool.not_eq_true'] at h
    exact h
  · intro x y
    rw [edgeCompare_false_iff, edgeCompare_false_iff, hswap x y]
    exact ⟨le_refl _, le_refl _⟩
  · intro x y es
    apply setInsert_of_key_mem
    · exact sorted_setInsert _ _ (sorted_foldr_setInsert es)
    · rw [mem_keys_setInsert]
      exact Or.inl (hswap x y)

/-- C5: after `parseObjFile` on any text the edge set has at most three
entries per triangle, and it has exactly three per triangle only if the
canonical pairs of all the triangle sides of the mesh are pairwise
different. -/
theorem edges_le_three_triangles (A : Ambient) (text : List Char) :
    ((Mesh.fresh A).parseObjFile A (some text)).1.edges.length ≤
      3 * ((Mesh.fresh A).parseObjFile A (some text)).1.triangles.length ∧
    (((Mesh.fresh A).parseObjFile A (some text)).1.edges.length =
        3 * ((Mesh.fresh A).parseObjFile A (some text)).1.triangles.length →
      ((((Mesh.fresh A).parseObjFile A (some text)).1.triangles.flatMap sides).map
        edgeKey).Nodup) := by
  obtain ⟨he, ht, -⟩ := parseObjFile_topology A text
  rw [he, ht]
  have hlen := topology_edges_length _ (topology_linesDone A (splitLines text))
  have hs := length_flatMap_sides (linesDone A (splitLines text)).triangles
  constructor
  · rw [hlen, ← hs, ← List.length_map _ edgeKey]
    exact (List.dedup_sublist _).length_le
  · intro h
    apply nodup_of_length_dedup
    rw [← hlen, h, List.length_map, hs]

/-- Witness of C5 on a single triangle. -/
theorem edges_le_three_triangles_witness :
    ((Mesh.fresh Ambient.demo).parseObjFile Ambient.demo
        (some "f 1/1/1 2/2/2 3/3/3".toList)).1.edges.length =
      3 * ((Mesh.fresh Ambient.demo).parseObjFile Ambient.demo
        (some "f 1/1/1 2/2/2 3/3/3".toList)).1.triangles.length ∧
    ((((Mesh.fresh Ambient.demo).parseObjFile Ambient.demo
        (some "f 1/1/1 2/2/2 3/3/3".toList)).1.triangles.flatMap sides).map edgeKey).Nodup :=
  ⟨by decide, (edges_le_three_triangles Ambient.demo "f 1/1/1 2/2/2 3/3/3".toList).2 (by decide)⟩

theorem flatMap_ite_eq_filter {α : Type} (p : α → Bool) (l : List α) :
    l.flatMap (fun t => if p t then [t] else []) = l.filter p := by
  induction l with
  | nil => rfl
  | cons x xs ih =>
    rw [List.flatMap_cons, ih, List.filter_cons]
    cases p x <;> simp

theorem flatMap_congr_mem {α β : Type} (l : List α) (f g : α → List β)
    (h : ∀ x ∈ l, f x = g x) : l.flatMap f = l.flatMap g := by
  induction l with
  | nil => rfl
  | cons x xs ih =>
    rw [List.flatMap_cons, List.flatMap_cons, h x (List.mem_cons_self _ _),
      ih (fun y hy => h y (List.mem_cons_of_mem _ hy))]

theorem edgeKey_ne_of_proper (a b c d : Int)
    (h3 : ¬(a = c ∧ b = d)) (h4 : ¬(a = d ∧ b = c)) :
    (min a b, max a b) ≠ (min c d, max c d) := by
  intro h
  rw [Prod.mk.injEq] at h
  simp only [min_def, max_def] at h
  split_ifs at h <;> omega

theorem replicate_sideCount_proper (k : Edge) (t : Triangle) (h : t.Proper) :
    List.replicate (sideCount k t) t = if hasSide k t then [t] else [] := by
  obtain ⟨a, b, c⟩ := t
  obtain ⟨h1, h2, h3⟩ := h
  simp only at h1 h2 h3
  have k12 : lexKey ⟨a, b⟩ ≠ lexKey ⟨a, c⟩ := by
    rw [Ne, lexKey_eq_iff]
    exact edgeKey_ne_of_proper a.p b.p a.p c.p (by omega) (by omega)
  have k13 : lexKey ⟨a, b⟩ ≠ lexKey ⟨b, c⟩ := by
    rw [Ne, lexKey_eq_iff]
    exact edgeKey_ne_of_proper a.p b.p b.p c.p (by omega) (by omega)
  have k23 : lexKey ⟨a, c⟩ ≠ lexKey ⟨b, c⟩ := by
    rw [Ne, lexKey_eq_iff]
    exact edgeKey_ne_of_proper a.p c.p b.p c.p (by omega) (by omega)
  unfold sideCount hasSide sides
  simp only [List.countP_cons, List.countP_nil, List.any_cons, List.any_nil, Bool.or_false]
  by_cases e1 : edgeEquiv ⟨a, b⟩ k = true
  · have e2 : edgeEquiv ⟨a, c⟩ k = false := by
      rw [← Bool.not_eq_true, edgeEquiv_iff, ← (edgeEquiv_iff _ _).mp e1]
      exact fun hh => k12 hh.symm
    have e3 : edgeEquiv ⟨b, c⟩ k = false := by
      rw [← Bool.not_eq_true, edgeEquiv_iff, ← (edgeEquiv_iff _ _).mp e1]
      exact fun hh => k13 hh.symm
    rw [e1, e2, e3]; rfl
  · rw [Bool.not_eq_true] at e1
    by_cases e2 : edgeEquiv ⟨a, c⟩ k = true
    · have e3 : edgeEquiv ⟨b, c⟩ k = false := by
        rw [← Bool.not_eq_true, edgeEquiv_iff, ← (edgeEquiv_iff _ _).mp e2]
        exact fun hh => k23 hh.symm
      rw [e1, e2, e3]; rfl
    · rw [Bool.not_eq_true] at e2
      rw [e1, e2]
      cases edgeEquiv ⟨b, c⟩ k <;> rfl

/-- Counterexample to C6: the face `1 2 1` is the only triangle that has the
edge (0, 1) as a side, and the adjacency list of that edge has two entries. -/
theorem adjacency_repeated_corner :
    ((Mesh.fresh Ambient.demo).parseObjFile Ambient.demo
        (some "f 1/1/1 2/2/2 1/1/1".toList)).1.triangles.countP
          (hasSide ⟨⟨0, 0, 0⟩, ⟨1, 1, 1⟩⟩) = 1 ∧
    (adjacent ⟨⟨0, 0, 0⟩, ⟨1, 1, 1⟩⟩
      ((Mesh.fresh Ambient.demo).parseObjFile Ambient.demo
        (some "f 1/1/1 2/2/2 1/1/1".toList)).1.adjacentTriangles).length = 2 := by
  decide

/-- C6, amended: after `parseObjFile` on any text the adjacency list of every
canonical edge holds, in file order, one entry for each triangle side that is
that edge; when no triangle repeats a position index among its corners this
is exactly the list of the triangles that have the edge as a side, so an edge
that is a side of exactly two triangles has two entries and an edge that is
a side of only one triangle has one. -/
theorem adjacency_lists (A : Ambient) (text : List Char) (k : Edge) :
    adjacent k ((Mesh.fresh A).parseObjFile A (some text)).1.adjacentTriangles =
      ((Mesh.fresh A).parseObjFile A (some text)).1.triangles.flatMap
        (fun t => List.replicate (sideCount k t) t) ∧
    ((∀ t ∈ ((Mesh.fresh A).parseObjFile A (some text)).1.triangles, t.Proper) →
      adjacent k ((Mesh.fresh A).parseObjFile A (some text)).1.adjacentTriangles =
        ((Mesh.fresh A).parseObjFile A (some text)).1.triangles.filter (hasSide k) ∧
      (((Mesh.fresh A).parseObjFile A (some text)).1.triangles.countP (hasSide k) = 2 →
        (adjacent k ((Mesh.fresh A).parseObjFile A (some text)).1.adjacentTriangles).length
          = 2) ∧
      (((Mesh.fresh A).parseObjFile A (some text)).1.triangles.countP (hasSide k) = 1 →
        (adjacent k ((Mesh.fresh A).parseObjFile A (some text)).1.adjacentTriangles).length
          = 1)) := by
  obtain ⟨-, ht, ha⟩ := parseObjFile_topology A text
  rw [ht, ha]
  have hadj := (topology_linesDone A (splitLines text)).adjLists k
  refine ⟨hadj, fun hp => ?_⟩
  have hf : adjacent k (linesDone A (splitLines text)).adjacentTriangles =
      (linesDone A (splitLines text)).triangles.filter (hasSide k) := by
    rw [hadj, ← flatMap_ite_eq_filter]
    exact flatMap_congr_mem _ _ _ (fun t ht' => replicate_sideCount_proper k t (hp t ht'))
  refine ⟨hf, ?_, ?_⟩
  · intro hc; rw [hf, ← List.countP_eq_length_filter]; exact hc
  · intro hc; rw [hf, ← List.countP_eq_length_filter]; exact hc

/-- Witness of C6 (amended) on two triangles that share the edge (1, 2): the
shared edge has both triangles. -/
theorem adjacency_lists_witness :
    (∀ t ∈ ((Mesh.fresh Ambient.demo).parseObjFile Ambient.demo
      (some "f 1/1/1 2/2/2 3/3/3\nf 2/2/2 4/4/4 3/3/3".toList)).1.triangles, t.Proper) ∧
    adjacent ⟨⟨1, 1, 1⟩, ⟨2, 2, 2⟩⟩ ((Mesh.fresh Ambient.demo).parseObjFile Ambient.demo
      (some "f 1/1/1 2/2/2 3/3/3\nf 2/2/2 4/4/4 3/3/3".toList)).1.adjacentTriangles =
      ((Mesh.fresh Ambient.demo).parseObjFile Ambient.demo
        (some "f 1/1/1 2/2/2 3/3/3\nf 2/2/2 4/4/4 3/3/3".toList)).1.triangles.filter
          (hasSide ⟨⟨1, 1, 1⟩, ⟨2, 2, 2⟩⟩) :=
  ⟨by decide,
    ((adjacency_lists Ambient.demo "f 1/1/1 2/2/2 3/3/3\nf 2/2/2 4/4/4 3/3/3".toList
      ⟨⟨1, 1, 1⟩, ⟨2, 2, 2⟩⟩).2 (by decide)).1⟩

theorem readWord_fail_of_word (s : IStream) (h : (readWord s).1 ≠ []) :
    (readWord s).2.fail = false := by
  unfold readWord at h ⊢
  split
  · rename_i s1 hs; rw [hs] at h; exact absurd rfl h
  · rfl

theorem parseLine_face (A : Ambient) (m : Mesh) (line : List Char)
    (hmode : (readWord ⟨line, false, false⟩).1 = ['f']) :
    parseLine A m line = addFace m (readVerts A.uninit (readWord ⟨line, false, false⟩).2) := by
  have hf := readWord_fail_of_word ⟨line, false, false⟩ (by rw [hmode]; simp)
  unfold parseLine
  simp only [hmode, hf]
  simp

/-- C1: an `f` line on which the reference loop stores at least three
references makes `parseObjFile` append exactly one triangle, whose corners are
the first three references in order whatever follows them; the edges
(ref0, ref1), (ref0, ref2), (ref1, ref2) are inserted into the edge set, which
keeps what it held, and the triangle goes to the end of the adjacency list of
each of the three edges. -/
theorem face_line_appends_triangle (A : Ambient) (pre : List (List Char)) (line : List Char)
    (a b c : Vertex) (more : List Vertex)
    (hmode : (readWord ⟨line, false, false⟩).1 = ['f'])
    (hverts : readVerts A.uninit (readWord ⟨line, false, false⟩).2 = a :: b :: c :: more) :
    (linesDone A (pre ++ [line])).triangles = (linesDone A pre).triangles ++ [⟨a, b, c⟩] ∧
    (linesDone A (pre ++ [line])).edges =
      setInsert ⟨b, c⟩ (setInsert ⟨a, c⟩ (setInsert ⟨a, b⟩ (linesDone A pre).edges)) ∧
    (∀ e ∈ [(⟨a, b⟩ : Edge), ⟨a, c⟩, ⟨b, c⟩],
      ∃ x ∈ (linesDone A (pre ++ [line])).edges, edgeEquiv x e = true) ∧
    (∀ x ∈ (linesDone A pre).edges, x ∈ (linesDone A (pre ++ [line])).edges) ∧
    (∀ k : Edge, adjacent k (linesDone A (pre ++ [line])).adjacentTriangles =
      adjacent k (linesDone A pre).adjacentTriangles ++
        List.replicate (sideCount k ⟨a, b, c⟩) ⟨a, b, c⟩) ∧
    (∀ e ∈ [(⟨a, b⟩ : Edge), ⟨a, c⟩, ⟨b, c⟩],
      (adjacent e (linesDone A (pre ++ [line])).adjacentTriangles).getLast? =
        some ⟨a, b, c⟩) := by
  have hstep : linesDone A (pre ++ [line]) = addFace (linesDone A pre) (a :: b :: c :: more) := by
    unfold linesDone
    rw [List.foldl_append, List.foldl_cons, List.foldl_nil, parseLine_face A _ line hmode, hverts]
  have htop := topology_linesDone A pre
  have hadj : ∀ k : Edge, adjacent k (linesDone A (pre ++ [line])).adjacentTriangles =
      adjacent k (linesDone A pre).adjacentTriangles ++
        List.replicate (sideCount k ⟨a, b, c⟩) ⟨a, b, c⟩ := by
    intro k
    rw [hstep]
    exact adjacent_addFace _ a b c more k htop.adjSorted
  have hedges : (linesDone A (pre ++ [line])).edges =
      setInsert ⟨b, c⟩ (setInsert ⟨a, c⟩ (setInsert ⟨a, b⟩ (linesDone A pre).edges)) := by
    rw [hstep]; rfl
  refine ⟨by rw [hstep]; rfl, hedges, ?_, ?_, hadj, ?_⟩
  · intro e he
    have hk : lexKey e ∈ (linesDone A (pre ++ [line])).edges.map lexKey := by
      rw [hedges, mem_keys_setInsert, mem_keys_setInsert, mem_keys_setInsert]
      simp only [List.mem_cons, List.mem_singleton, List.not_mem_nil, or_false] at he
      rcases he with he | he | he
      · exact Or.inr (Or.inr (Or.inl (by rw [he])))
      · exact Or.inr (Or.inl (by rw [he]))
      · exact Or.inl (by rw [he])
    obtain ⟨x, hx, hxe⟩ := List.mem_map.mp hk
    exact ⟨x, hx, (edgeEquiv_iff x e).mpr hxe⟩
  · intro x hx
    rw [hedges]
    exact mem_setInsert_of_mem _ _ _ (mem_setInsert_of_mem _ _ _ (mem_setInsert_of_mem _ _ _ hx))
  · intro e he
    have hpos : 0 < sideCount e ⟨a, b, c⟩ := by
      unfold sideCount
      rw [List.countP_pos_iff]
      exact ⟨e, he, (edgeEquiv_iff e e).mpr rfl⟩
    obtain ⟨n, hn⟩ := Nat.exists_eq_succ_of_ne_zero (Nat.pos_iff_ne_zero.mp hpos)
    rw [hadj e, hn, List.replicate_succ', ← List.append_assoc, List.getLast?_append]
    rfl

/-- Witness of C1 on a face with four references. -/
theorem face_line_appends_triangle_witness :
    (linesDone Ambient.demo (["v 0 0 0".toList] ++ ["f 1/1/1 2/2/2 3/3/3 4/4/4".toList])).triangles
      = (linesDone Ambient.demo ["v 0 0 0".toList]).triangles ++
        [⟨⟨0, 0, 0⟩, ⟨1, 1, 1⟩, ⟨2, 2, 2⟩⟩] :=
  (face_line_appends_triangle Ambient.demo ["v 0 0 0".toList] "f 1/1/1 2/2/2 3/3/3 4/4/4".toList
    ⟨0, 0, 0⟩ ⟨1, 1, 1⟩ ⟨2, 2, 2⟩ [⟨3, 3, 3⟩] (by decide) (by decide)).1

/-! ### The stream operations -/

theorem sentry_not_good (s : IStream) (h : s.good = false) :
    sentry s = (⟨s.rest, s.eof, true⟩, false) := by
  unfold sentry
  rw [h]; rfl

theorem readInt_not_good (s : IStream) (h : s.good = false) :
    readInt s = (none, ⟨s.rest, s.eof, true⟩) := by
  unfold readInt
  rw [sentry_not_good s h]

theorem ignore1_not_good (s : IStream) (h : s.good = false) :
    ignore1 s = ⟨s.rest, s.eof, true⟩ := by
  unfold ignore1
  rw [h]; rfl

theorem good_of_fail (r : List Char) (e : Bool) : (IStream.mk r e true).good = false := by
  unfold IStream.good
  simp

theorem length_takeWhile_add_dropWhile {α : Type} (p : α → Bool) (l : List α) :
    (l.takeWhile p).length + (l.dropWhile p).length = l.length := by
  rw [← List.length_append, List.takeWhile_append_dropWhile]

theorem length_dropWhile_le' {α : Type} (p : α → Bool) (l : List α) :
    (l.dropWhile p).length ≤ l.length := by
  have := length_takeWhile_add_dropWhile p l
  omega

theorem sentry_shape (s : IStream) :
    ((sentry s).2 = false ∧ (sentry s).1.good = false) ∨
    ((sentry s).2 = true ∧ (sentry s).1.good = true ∧ (sentry s).1.eof = false ∧
      (sentry s).1.rest ≠ [] ∧ (sentry s).1.rest.length ≤ s.rest.length) := by
  unfold sentry
  by_cases hg : s.good = true
  · rw [if_pos hg]
    have hlen := length_dropWhile_le' isSpace s.rest
    split
    · exact Or.inl ⟨rfl, rfl⟩
    · rename_i c r hd
      rw [hd] at hlen
      unfold IStream.good at hg ⊢
      simp only [Bool.and_eq_true, Bool.not_eq_true'] at hg
      refine Or.inr ⟨rfl, ?_, hg.1, by simp, hlen⟩
      simp [hg.1, hg.2]
  · rw [if_neg hg]
    exact Or.inl ⟨rfl, good_of_fail _ _⟩

theorem readInt_shrinks (s : IStream) :
    (readInt s).2.rest.length ≤ s.rest.length ∧
    ((readInt s).2.good = true → (readInt s).2.rest.length < s.rest.length) := by
  unfold readInt
  rcases sentry_shape s with ⟨h2, hg⟩ | ⟨h2, -, -, hne, hlen⟩
  · have hs : sentry s = ((sentry s).1, false) := by rw [← h2]
    rw [hs]
    simp only
    refine ⟨?_, fun h => by rw [hg] at h; cases h⟩
    have hlen := length_dropWhile_le' isSpace s.rest
    unfold sentry
    split_ifs
    · split
      · simp
      · rename_i c r hd
        rw [hd] at hlen
        exact hlen
    · exact le_refl _
  · have hs : sentry s = ((sentry s).1, true) := by rw [← h2]
    rw [hs]
    simp only
    generalize (sentry s).1 = s1 at hne hlen
    obtain ⟨r, e, f⟩ := s1
    simp only at hne hlen
    match r, hne with
    | c :: r, _ =>
      simp only
      have hr1 : (if c = '-' ∨ c = '+' then r else c :: r).length ≤ (c :: r).length := by
        split_ifs <;> simp
      generalize (if c = '-' ∨ c = '+' then r else c :: r) = r1 at hr1
      have hsum := length_takeWhile_add_dropWhile isDigit r1
      by_cases hd : (r1.takeWhile isDigit).isEmpty = true
      · rw [if_pos hd]
        simp only
        exact ⟨by omega, fun h => by rw [good_of_fail] at h; cases h⟩
      · rw [if_neg hd]
        have hpos : 0 < (r1.takeWhile isDigit).length := by
          rw [List.length_pos]
          intro h0; rw [h0] at hd; exact hd rfl
        split_ifs <;> refine ⟨by simp only; omega, fun h => ?_⟩ <;>
          first
          | (simp only [good_of_fail] at h; done)
          | (simp only; omega)

theorem ignore1_shrinks (s : IStream) : (ignore1 s).rest.length ≤ s.rest.length := by
  unfold ignore1
  split_ifs
  · split <;> simp_all
  · exact le_refl _

theorem ignore1_good (s : IStream) (h : (ignore1 s).good = true) : s.good = true := by
  by_contra hg
  rw [Bool.not_eq_true] at hg
  rw [ignore1_not_good s hg, good_of_fail] at h
  cases h

theorem readInt_good (s : IStream) (h : (readInt s).2.good = true) : s.good = true := by
  by_contra hg
  rw [Bool.not_eq_true] at hg
  rw [readInt_not_good s hg, good_of_fail] at h
  cases h

theorem readVertex_shrinks (u : Vertex) (s : IStream) (h : (readVertex u s).2.good = true) :
    (readVertex u s).2.rest.length < s.rest.length := by
  unfold readVertex at h ⊢
  simp only at h ⊢
  have h5 := (readInt_shrinks (ignore1 (readInt (ignore1 (readInt s).2)).2)).2 h
  have h4 := ignore1_shrinks (readInt (ignore1 (readInt s).2)).2
  have h3 := (readInt_shrinks (ignore1 (readInt s).2)).1
  have h2 := ignore1_shrinks (readInt s).2
  have h1 := (readInt_shrinks s).1
  omega

theorem readVertsFuel_not_good (u : Nat → Vertex) (fuel : Nat) (s : IStream)
    (verts : List Vertex) (h : s.good = false) : readVertsFuel u fuel s verts = verts := by
  cases fuel with
  | zero => rfl
  | succ n => unfold readVertsFuel; rw [h]; rfl

/-- One pass more than the unread characters is enough for the reference loop:
any larger number of passes gives the same references, so the loop ends and
`readVerts` is what it leaves. -/
theorem readVertsFuel_enough (u : Nat → Vertex) (fuel : Nat) (s : IStream)
    (verts : List Vertex) (h : s.rest.length < fuel) :
    readVertsFuel u fuel s verts = readVertsFuel u (s.rest.length + 1) s verts := by
  suffices H : ∀ (n f1 f2 : Nat) (s : IStream) (verts : List Vertex), s.rest.length < n →
      n ≤ f1 → n ≤ f2 → readVertsFuel u f1 s verts = readVertsFuel u f2 s verts from
    H (s.rest.length + 1) fuel (s.rest.length + 1) s verts (Nat.lt_succ_self _) h (le_refl _)
  intro n
  induction n with
  | zero => intro f1 f2 s verts h; omega
  | succ n ih =>
    intro f1 f2 s verts hlen h1 h2
    obtain ⟨g1, rfl⟩ : ∃ g, f1 = g + 1 := ⟨f1 - 1, by omega⟩
    obtain ⟨g2, rfl⟩ : ∃ g, f2 = g + 1 := ⟨f2 - 1, by omega⟩
    unfold readVertsFuel
    by_cases hg : s.good = true
    · rw [if_pos hg, if_pos hg]
      simp only
      by_cases hg' : (readVertex (u verts.length) s).2.good = true
      · have := readVertex_shrinks _ s hg'
        exact ih g1 g2 _ _ (by omega) (by omega) (by omega)
      · rw [Bool.not_eq_true] at hg'
        rw [readVertsFuel_not_good u g1 _ _ hg', readVertsFuel_not_good u g2 _ _ hg']
    · rw [if_neg hg, if_neg hg]

/-! ### Reading the text of a reference -/

theorem digitChar_isDigit (d : Nat) (h : d < 10) :
    isDigit (Nat.digitChar d) = true ∧ (Nat.digitChar d).toNat - 48 = d := by
  interval_cases d <;> exact ⟨rfl, rfl⟩

theorem toDigitsCore_digits (fuel n : Nat) (acc : List Char)
    (h : ∀ c ∈ acc, isDigit c = true) :
    ∀ c ∈ Nat.toDigitsCore 10 fuel n acc, isDigit c = true := by
  induction fuel generalizing n acc with
  | zero => exact h
  | succ fuel ih =>
    have hacc : ∀ c ∈ Nat.digitChar (n % 10) :: acc, isDigit c = true := by
      intro c hc
      rcases List.mem_cons.mp hc with hc | hc
      · rw [hc]; exact (digitChar_isDigit _ (Nat.mod_lt _ (by norm_num))).1
      · exact h c hc
    unfold Nat.toDigitsCore
    simp only
    split_ifs
    · exact hacc
    · exact ih _ _ hacc

theorem toDigitsCore_ne_nil (fuel n : Nat) (acc : List Char) :
    Nat.toDigitsCore 10 (fuel + 1) n acc ≠ [] := by
  induction fuel generalizing n acc with
  | zero =>
    unfold Nat.toDigitsCore
    simp only
    split_ifs
    · simp
    · unfold Nat.toDigitsCore; simp
  | succ fuel ih =>
    unfold Nat.toDigitsCore
    simp only
    split_ifs
    · simp
    · exact ih _ _

theorem toDigitsCore_value (fuel n : Nat) (acc : List Char) (h : n < fuel) :
    (Nat.toDigitsCore 10 fuel n acc).foldl (fun a c => 10 * a + (c.toNat - 48)) 0 =
      acc.foldl (fun a c => 10 * a + (c.toNat - 48)) n := by
  induction fuel generalizing n acc with
  | zero => omega
  | succ fuel ih =>
    have hd := (digitChar_isDigit (n % 10) (Nat.mod_lt _ (by norm_num))).2
    unfold Nat.toDigitsCore
    simp only
    split_ifs with h0
    · rw [List.foldl_cons, hd]
      have : n % 10 = n := Nat.mod_eq_of_lt (by omega)
      rw [this]; simp
    · rw [ih _ _ (by omega), List.foldl_cons, hd]
      have : 10 * (n / 10) + n % 10 = n := Nat.div_add_mod n 10
      rw [this]

theorem toDigits_digits (n : Nat) : ∀ c ∈ Nat.toDigits 10 n, isDigit c = true :=
  toDigitsCore_digits _ _ [] (fun _ h => absurd h (List.not_mem_nil _))

theorem toDigits_ne_nil (n : Nat) : Nat.toDigits 10 n ≠ [] := toDigitsCore_ne_nil _ _ _

theorem digitsVal_toDigits (n : Nat) : digitsVal (Nat.toDigits 10 n) = n := by
  unfold digitsVal Nat.toDigits
  rw [toDigitsCore_value _ _ _ (Nat.lt_succ_self n)]
  rfl

theorem takeWhile_append_all {α : Type} (p : α → Bool) (l r : List α)
    (h : ∀ c ∈ l, p c = true) : (l ++ r).takeWhile p = l ++ r.takeWhile p := by
  induction l with
  | nil => rfl
  | cons x xs ih =>
    rw [List.cons_append, List.takeWhile_cons, h x (List.mem_cons_self _ _)]
    simp only [if_true, List.cons_append]
    rw [ih (fun c hc => h c (List.mem_cons_of_mem _ hc))]

theorem dropWhile_append_all {α : Type} (p : α → Bool) (l r : List α)
    (h : ∀ c ∈ l, p c = true) : (l ++ r).dropWhile p = r.dropWhile p := by
  induction l with
  | nil => rfl
  | cons x xs ih =>
    rw [List.cons_append, List.dropWhile_cons, h x (List.mem_cons_self _ _)]
    simp only [if_true]
    exact ih (fun c hc => h c (List.mem_cons_of_mem _ hc))

theorem takeWhile_stops (r : List Char) (h : StopsDigits r) : r.takeWhile isDigit = [] := by
  cases r with
  | nil => rfl
  | cons c r => rw [List.takeWhile_cons, h c rfl]; rfl

theorem dropWhile_stops (r : List Char) (h : StopsDigits r) : r.dropWhile isDigit = r := by
  cases r with
  | nil => rfl
  | cons c r => rw [List.dropWhile_cons, h c rfl]; rfl

theorem isSpace_not_digit (c : Char) (h : isDigit c = true) : isSpace c = false := by
  unfold isDigit at h
  unfold isSpace
  simp only [Bool.and_eq_true, decide_eq_true_eq] at h
  simp only [Bool.or_eq_false_iff, decide_eq_false_iff_not, Bool.and_eq_false_imp,
    decide_eq_true_eq]
  omega

theorem dropWhile_space_text (ws body : List Char) (hws : ∀ c ∈ ws, isSpace c = true)
    (c : Char) (r : List Char) (hbody : body = c :: r) (hc : isSpace c = false) :
    (ws ++ body).dropWhile isSpace = c :: r := by
  rw [dropWhile_append_all _ _ _ hws, hbody, List.dropWhile_cons, hc]
  rfl

theorem wrap32_inRange (i : Int) (h : InRange i) : wrap32 (i - 1) = i - 1 := by
  unfold InRange INT_MIN INT_MAX at h
  unfold wrap32
  omega

theorem readInt_nat (ws : List Char) (n : Nat) (r : List Char)
    (hws : ∀ c ∈ ws, isSpace c = true) (hr : StopsDigits r) (hn : (n : Int) ≤ INT_MAX) :
    readInt ⟨ws ++ (Nat.toDigits 10 n ++ r), false, false⟩ =
      (some (n : Int), ⟨r, r.isEmpty, false⟩) := by
  obtain ⟨c, ds, hds⟩ := List.exists_cons_of_ne_nil (toDigits_ne_nil n)
  have hall := toDigits_digits n
  have hcd : isDigit c = true := hall c (by rw [hds]; exact List.mem_cons_self _ _)
  have hdrop : (ws ++ (Nat.toDigits 10 n ++ r)).dropWhile isSpace = c :: (ds ++ r) :=
    dropWhile_space_text ws _ hws c (ds ++ r) (by rw [hds]; rfl) (isSpace_not_digit c hcd)
  have hminus : ¬(c = '-' ∨ c = '+') := by
    rintro (h | h) <;> rw [h] at hcd <;> exact absurd hcd (by decide)
  have hminus' : ¬c = '-' := fun h => hminus (Or.inl h)
  have htake : (c :: (ds ++ r)).takeWhile isDigit = Nat.toDigits 10 n := by
    rw [← List.cons_append, ← hds, takeWhile_append_all _ _ _ hall, takeWhile_stops r hr,
      List.append_nil]
  have hdropd : (c :: (ds ++ r)).dropWhile isDigit = r := by
    rw [← List.cons_append, ← hds, dropWhile_append_all _ _ _ hall, dropWhile_stops r hr]
  have hne : (Nat.toDigits 10 n).isEmpty = false := by
    rw [hds]; rfl
  unfold readInt sentry
  simp only [IStream.good, Bool.not_false, Bool.and_self, if_true, hdrop, if_neg hminus, htake,
    hdropd, hne, decide_eq_true_eq, if_neg hminus', digitsVal_toDigits, Bool.false_eq_true,
    if_false]
  have h1 : ¬((n : Int) < INT_MIN) := by unfold INT_MIN; omega
  have h2 : ¬(INT_MAX < (n : Int)) := by omega
  rw [if_neg h1, if_neg h2]

theorem readInt_neg (ws : List Char) (n : Nat) (r : List Char)
    (hws : ∀ c ∈ ws, isSpace c = true) (hr : StopsDigits r)
    (hn : INT_MIN ≤ Int.negSucc n) :
    readInt ⟨ws ++ ('-' :: (Nat.toDigits 10 (n + 1) ++ r)), false, false⟩ =
      (some (Int.negSucc n), ⟨r, r.isEmpty, false⟩) := by
  have hall := toDigits_digits (n + 1)
  have hdrop : (ws ++ ('-' :: (Nat.toDigits 10 (n + 1) ++ r))).dropWhile isSpace =
      '-' :: (Nat.toDigits 10 (n + 1) ++ r) :=
    dropWhile_space_text ws _ hws '-' _ rfl (by decide)
  have htake : (Nat.toDigits 10 (n + 1) ++ r).takeWhile isDigit = Nat.toDigits 10 (n + 1) := by
    rw [takeWhile_append_all _ _ _ hall, takeWhile_stops r hr, List.append_nil]
  have hdropd : (Nat.toDigits 10 (n + 1) ++ r).dropWhile isDigit = r := by
    rw [dropWhile_append_all _ _ _ hall, dropWhile_stops r hr]
  have hne : (Nat.toDigits 10 (n + 1)).isEmpty = false := by
    obtain ⟨c, ds, hds⟩ := List.exists_cons_of_ne_nil (toDigits_ne_nil (n + 1))
    rw [hds]; rfl
  unfold readInt sentry
  simp only [IStream.good, Bool.not_false, Bool.and_self, if_true, hdrop, true_or, htake,
    hdropd, hne, decide_True, digitsVal_toDigits, Bool.false_eq_true, if_false]
  have hv : -((n + 1 : Nat) : Int) = Int.negSucc n := by
    rw [Int.negSucc_eq]; push_cast; ring
  rw [hv]
  have h1 : ¬(Int.negSucc n < INT_MIN) := by omega
  have h2 : ¬(INT_MAX < Int.negSucc n) := by
    unfold INT_MAX
    have := Int.negSucc_lt_zero n
    omega
  rw [if_neg h1, if_neg h2]

theorem readInt_text (ws : List Char) (i : Int) (r : List Char)
    (hws : ∀ c ∈ ws, isSpace c = true) (hr : StopsDigits r)
    (hi : INT_MIN ≤ i ∧ i ≤ INT_MAX) :
    readInt ⟨ws ++ (intText i ++ r), false, false⟩ = (some i, ⟨r, r.isEmpty, false⟩) := by
  cases i with
  | ofNat n => exact readInt_nat ws n r hws hr hi.2
  | negSucc n => exact readInt_neg ws n r hws hr hi.1

theorem stopsDigits_slash (r : List Char) : StopsDigits ('/' :: r) := by
  intro c hc
  rw [List.head?_cons, Option.mem_def, Option.some.injEq] at hc
  rw [← hc]; rfl

theorem stopsDigits_flatMap (refs : List (List Char × Int × Int × Int))
    (hsep : ∀ r ∈ refs, IsSeparator r.1) :
    StopsDigits (refs.flatMap (fun r => r.1 ++ refText r.2)) := by
  cases refs with
  | nil => intro c hc; cases hc
  | cons x xs =>
    obtain ⟨hne, hsp⟩ := hsep x (List.mem_cons_self _ _)
    obtain ⟨w, ws, hw⟩ := List.exists_cons_of_ne_nil hne
    intro c hc
    rw [List.flatMap_cons, hw, List.cons_append, List.cons_append, List.head?_cons,
      Option.mem_def, Option.some.injEq] at hc
    have hspace : isSpace c = true := by
      rw [← hc]; exact hsp w (by rw [hw]; exact List.mem_cons_self _ _)
    cases hd : isDigit c
    · rfl
    · rw [isSpace_not_digit c hd] at hspace; cases hspace

theorem readVertex_text (u : Vertex) (ws : List Char) (p t n : Int) (r : List Char)
    (hws : ∀ c ∈ ws, isSpace c = true) (hr : StopsDigits r)
    (hp : InRange p) (ht : InRange t) (hn : InRange n) :
    readVertex u ⟨ws ++ (refText (p, t, n) ++ r), false, false⟩ =
      (⟨p - 1, t - 1, n - 1⟩, ⟨r, r.isEmpty, false⟩) := by
  have e1 : ws ++ (refText (p, t, n) ++ r) =
      ws ++ (intText p ++ '/' :: (intText t ++ '/' :: (intText n ++ r))) := by
    unfold refText
    simp
  have r1 := readInt_text ws p ('/' :: (intText t ++ '/' :: (intText n ++ r))) hws
    (stopsDigits_slash _) ⟨hp.1.le, hp.2⟩
  have r2 := readInt_text [] t ('/' :: (intText n ++ r)) (fun _ h => absurd h (List.not_mem_nil _))
    (stopsDigits_slash _) ⟨ht.1.le, ht.2⟩
  have r3 := readInt_text [] n r (fun _ h => absurd h (List.not_mem_nil _)) hr ⟨hn.1.le, hn.2⟩
  rw [List.nil_append] at r2 r3
  unfold readVertex
  rw [e1, r1]
  simp only [ignore1, IStream.good, List.isEmpty_cons, Bool.not_false, Bool.and_self, if_true,
    r2, r3, Option.getD_some, wrap32_inRange p hp, wrap32_inRange t ht, wrap32_inRange n hn]

theorem readVertsFuel_text (u : Nat → Vertex) (refs : List (List Char × Int × Int × Int))
    (hsep : ∀ r ∈ refs, IsSeparator r.1)
    (hrange : ∀ r ∈ refs, InRange r.2.1 ∧ InRange r.2.2.1 ∧ InRange r.2.2.2)
    (fuel : Nat) (hfuel : refs.length < fuel) (verts : List Vertex) :
    readVertsFuel u fuel
        ⟨refs.flatMap (fun r => r.1 ++ refText r.2),
          (refs.flatMap (fun r => r.1 ++ refText r.2)).isEmpty, false⟩ verts =
      verts ++ refs.map (fun r => ⟨r.2.1 - 1, r.2.2.1 - 1, r.2.2.2 - 1⟩) := by
  induction refs generalizing fuel verts with
  | nil =>
    have h0 := readVertsFuel_not_good u fuel ⟨[], true, false⟩ verts rfl
    simpa using h0
  | cons x xs ih =>
    obtain ⟨ws, p, t, n⟩ := x
    obtain ⟨g, rfl⟩ : ∃ g, fuel = g + 1 := ⟨fuel - 1, by omega⟩
    have hsx : IsSeparator ws := hsep _ (List.mem_cons_self _ _)
    have hrx : InRange p ∧ InRange t ∧ InRange n := hrange _ (List.mem_cons_self _ _)
    have hne : (ws ++ (refText (p, t, n) ++
        xs.flatMap (fun r => r.1 ++ refText r.2))).isEmpty = false := by
      obtain ⟨w, ws', hw⟩ := List.exists_cons_of_ne_nil hsx.1
      rw [hw]; rfl
    have hv := readVertex_text (u verts.length) ws p t n
      (xs.flatMap (fun r => r.1 ++ refText r.2)) hsx.2
      (stopsDigits_flatMap xs (fun r hr => hsep r (List.mem_cons_of_mem _ hr)))
      hrx.1 hrx.2.1 hrx.2.2
    rw [List.flatMap_cons, List.append_assoc, hne]
    unfold readVertsFuel
    simp only [IStream.good, Bool.not_false, Bool.and_self, if_true, hv]
    rw [ih (fun r hr => hsep r (List.mem_cons_of_mem _ hr))
      (fun r hr => hrange r (List.mem_cons_of_mem _ hr)) g
      (by simp only [List.length_cons] at hfuel; omega)]
    simp

theorem length_flatMap_ge (refs : List (List Char × Int × Int × Int))
    (hsep : ∀ r ∈ refs, IsSeparator r.1) :
    refs.length ≤ (refs.flatMap (fun r => r.1 ++ refText r.2)).length := by
  induction refs with
  | nil => simp
  | cons x xs ih =>
    have hx := (hsep x (List.mem_cons_self _ _)).1
    have := ih (fun r hr => hsep r (List.mem_cons_of_mem _ hr))
    have hpos : 0 < x.1.length := List.length_pos.mpr hx
    rw [List.flatMap_cons, List.length_append, List.length_append, List.length_cons]
    omega

theorem readWord_faceLine (refs : List (List Char × Int × Int × Int))
    (hsep : ∀ r ∈ refs, IsSeparator r.1) :
    readWord ⟨faceLine refs, false, false⟩ =
      (['f'], ⟨refs.flatMap (fun r => r.1 ++ refText r.2),
        (refs.flatMap (fun r => r.1 ++ refText r.2)).isEmpty, false⟩) := by
  have htail : ∀ R : List Char, (∀ c ∈ R.head?, isSpace c = true) →
      R.takeWhile (fun c => !isSpace c) = [] ∧ R.dropWhile (fun c => !isSpace c) = R := by
    intro R hR
    cases R with
    | nil => exact ⟨rfl, rfl⟩
    | cons c R =>
      have := hR c rfl
      rw [List.takeWhile_cons, List.dropWhile_cons, this]
      exact ⟨rfl, rfl⟩
  have hhead : ∀ c ∈ (refs.flatMap (fun r => r.1 ++ refText r.2)).head?, isSpace c = true := by
    cases refs with
    | nil => intro c hc; cases hc
    | cons x xs =>
      obtain ⟨hne, hsp⟩ := hsep x (List.mem_cons_self _ _)
      obtain ⟨w, ws, hw⟩ := List.exists_cons_of_ne_nil hne
      intro c hc
      rw [List.flatMap_cons, hw, List.cons_append, List.cons_append, List.head?_cons,
        Option.mem_def, Option.some.injEq] at hc
      rw [← hc]; exact hsp w (by rw [hw]; exact List.mem_cons_self _ _)
  obtain ⟨h1, h2⟩ := htail _ hhead
  have hf : isSpace 'f' = false := by decide
  unfold readWord sentry faceLine
  simp only [IStream.good, Bool.not_false, Bool.and_self, if_true, List.dropWhile_cons, hf,
    Bool.false_eq_true, if_false, List.takeWhile_cons, Bool.not_false, h1, h2]

/-- Counterexample to C3: on `f 1/5/1 2/6/2 3/7/3` the stored uv indices are
4, 5, 6, one less than the 5, 6, 7 that were read. -/
theorem uv_index_decremented :
    ((Mesh.fresh Ambient.demo).parseObjFile Ambient.demo
      (some "f 1/5/1 2/6/2 3/7/3".toList)).1.triangles =
      [⟨⟨0, 4, 0⟩, ⟨1, 5, 1⟩, ⟨2, 6, 2⟩⟩] := by
  decide

/-- C3, amended: on an `f` line whose references `p/t/n` are written in
decimal, each behind white space and each index within the range of `int`
and above its least value, the loop stores for every reference the position
index p-1, the uv index t-1 and the normal index n-1: all three are
decremented. -/
theorem face_refs_decremented (u : Nat → Vertex) (refs : List (List Char × Int × Int × Int))
    (hsep : ∀ r ∈ refs, IsSeparator r.1)
    (hrange : ∀ r ∈ refs, InRange r.2.1 ∧ InRange r.2.2.1 ∧ InRange r.2.2.2) :
    (readWord ⟨faceLine refs, false, false⟩).1 = ['f'] ∧
    readVerts u (readWord ⟨faceLine refs, false, false⟩).2 =
      refs.map (fun r => ⟨r.2.1 - 1, r.2.2.1 - 1, r.2.2.2 - 1⟩) := by
  rw [readWord_faceLine refs hsep]
  refine ⟨rfl, ?_⟩
  unfold readVerts
  have := readVertsFuel_text u refs hsep hrange
    ((refs.flatMap (fun r => r.1 ++ refText r.2)).length + 1)
    (Nat.lt_succ_of_le (length_flatMap_ge refs hsep)) []
  rw [List.nil_append] at this
  exact this

/-- Witness of C3 (amended) on the line `f 1/5/1 2/6/2 3/7/3`. -/
theorem face_refs_decremented_witness :
    faceLine [([' '], 1, 5, 1), ([' '], 2, 6, 2), ([' '], 3, 7, 3)] =
      "f 1/5/1 2/6/2 3/7/3".toList ∧
    readVerts Ambient.demo.uninit
      (readWord ⟨faceLine [([' '], 1, 5, 1), ([' '], 2, 6, 2), ([' '], 3, 7, 3)], false, false⟩).2 =
      [⟨0, 4, 0⟩, ⟨1, 5, 1⟩, ⟨2, 6, 2⟩] :=
  ⟨by decide,
    (face_refs_decremented Ambient.demo.uninit
      [([' '], 1, 5, 1), ([' '], 2, 6, 2), ([' '], 3, 7, 3)]
      (by decide) (by decide)).2⟩

/-! ### Lines that are skipped -/

theorem readWord_eq_firstToken (line : List Char) :
    ((readWord ⟨line, false, false⟩).2.fail = true ∧ firstToken line = []) ∨
    ((readWord ⟨line, false, false⟩).2.fail = false ∧
      (readWord ⟨line, false, false⟩).1 = firstToken line) := by
  unfold readWord sentry firstToken
  simp only [IStream.good, Bool.not_false, Bool.and_self, if_true]
  cases h : line.dropWhile isSpace with
  | nil => exact Or.inl ⟨rfl, rfl⟩
  | cons c r => exact Or.inr ⟨rfl, rfl⟩

theorem parseLine_ignorable (A : Ambient) (m : Mesh) (line : List Char) (h : Ignorable line) :
    parseLine A m line = m := by
  unfold Ignorable at h
  simp only [List.mem_cons, List.mem_singleton, List.not_mem_nil, or_false, not_or] at h
  unfold parseLine
  rcases readWord_eq_firstToken line with ⟨hf, -⟩ | ⟨hf, hw⟩
  · simp only [hf, if_true]
  · simp only [hf, hw, Bool.false_eq_true, if_false, if_neg h.1, if_neg h.2.1, if_neg h.2.2.1,
      if_neg h.2.2.2]

theorem readWord_leading_space (ws line : List Char) (hws : ∀ c ∈ ws, isSpace c = true) :
    readWord ⟨ws ++ line, false, false⟩ = readWord ⟨line, false, false⟩ := by
  unfold readWord sentry
  simp only [IStream.good, Bool.not_false, Bool.and_self, if_true,
    dropWhile_append_all _ _ _ hws]

theorem parseLine_leading_space (A : Ambient) (m : Mesh) (ws line : List Char)
    (hws : ∀ c ∈ ws, isSpace c = true) : parseLine A m (ws ++ line) = parseLine A m line := by
  unfold parseLine
  rw [readWord_leading_space ws line hws]

theorem splitLines_single (l : List Char) (h : '\n' ∉ l) : splitLines l = [l] := by
  induction l with
  | nil => rfl
  | cons c cs ih =>
    rw [List.mem_cons, not_or] at h
    unfold splitLines
    rw [if_neg (fun hc => h.1 hc.symm), ih h.2]

theorem splitLines_cons (c : Char) (cs : List Char) :
    splitLines (c :: cs) =
      if c = '\n' then [] :: splitLines cs
      else
        match splitLines cs with
        | [] => [[c]]
        | l :: ls => (c :: l) :: ls := rfl

theorem splitLines_append (l b : List Char) (h : '\n' ∉ l) :
    splitLines (l ++ '\n' :: b) = l :: splitLines b := by
  induction l with
  | nil => rw [List.nil_append, splitLines_cons, if_pos rfl]
  | cons c cs ih =>
    rw [List.mem_cons, not_or] at h
    rw [List.cons_append, splitLines_cons, if_neg (fun hc => h.1 hc.symm), ih h.2]

theorem splitLines_joinLines (ls : List (List Char)) (hne : ls ≠ [])
    (h : ∀ l ∈ ls, '\n' ∉ l) : splitLines (joinLines ls) = ls := by
  induction ls with
  | nil => exact absurd rfl hne
  | cons l ls ih =>
    cases ls with
    | nil => exact splitLines_single l (h l (List.mem_cons_self _ _))
    | cons l' ls' =>
      unfold joinLines
      rw [splitLines_append l _ (h l (List.mem_cons_self _ _)),
        ih (by simp) (fun x hx => h x (List.mem_cons_of_mem _ hx))]

theorem parseLine_nil (A : Ambient) (m : Mesh) : parseLine A m [] = m :=
  parseLine_ignorable A m [] (by decide)

theorem foldl_split_join (A : Ambient) (m : Mesh) (ls : List (List Char))
    (h : ∀ l ∈ ls, '\n' ∉ l) :
    (splitLines (joinLines ls)).foldl (parseLine A) m = ls.foldl (parseLine A) m := by
  cases ls with
  | nil => exact parseLine_nil A m
  | cons l ls => rw [splitLines_joinLines _ (by simp) h]

theorem parseObjFile_joinLines (A : Ambient) (m : Mesh) (ls ls' : List (List Char))
    (h : ∀ l ∈ ls, '\n' ∉ l) (h' : ∀ l ∈ ls', '\n' ∉ l)
    (heq : ls.foldl (parseLine A) m = ls'.foldl (parseLine A) m) :
    m.parseObjFile A (some (joinLines ls)) = m.parseObjFile A (some (joinLines ls')) := by
  unfold Mesh.parseObjFile
  simp only
  rw [foldl_split_join A m ls h, foldl_split_join A m ls' h', heq]

/-- C7: in a file given by its lines, inserting or removing a line whose
first token is none of `v`, `vn`, `vt`, `f` (a blank or white-space-only line
has no token) leaves the whole result of `parseObjFile` unchanged, and so
does white space put in front of any line. -/
theorem skipped_lines_and_leading_space (A : Ambient) (m : Mesh)
    (pre post : List (List Char)) (l ws : List Char)
    (hpre : ∀ x ∈ pre, '\n' ∉ x) (hpost : ∀ x ∈ post, '\n' ∉ x) (hl : '\n' ∉ l) :
    (Ignorable l →
      m.parseObjFile A (some (joinLines (pre ++ l :: post))) =
        m.parseObjFile A (some (joinLines (pre ++ post)))) ∧
    ((∀ c ∈ ws, isSpace c = true ∧ c ≠ '\n') →
      m.parseObjFile A (some (joinLines (pre ++ (ws ++ l) :: post))) =
        m.parseObjFile A (some (joinLines (pre ++ l :: post)))) := by
  have h1 : ∀ x ∈ pre ++ l :: post, '\n' ∉ x := by
    intro x hx
    rcases List.mem_append.mp hx with hx | hx
    · exact hpre x hx
    · rcases List.mem_cons.mp hx with hx | hx
      · rw [hx]; exact hl
      · exact hpost x hx
  have h2 : ∀ x ∈ pre ++ post, '\n' ∉ x := by
    intro x hx
    rcases List.mem_append.mp hx with hx | hx
    · exact hpre x hx
    · exact hpost x hx
  constructor
  · intro hig
    apply parseObjFile_joinLines A m _ _ h1 h2
    rw [List.foldl_append, List.foldl_cons, parseLine_ignorable A _ l hig, List.foldl_append]
  · intro hws
    have h3 : ∀ x ∈ pre ++ (ws ++ l) :: post, '\n' ∉ x := by
      intro x hx
      rcases List.mem_append.mp hx with hx | hx
      · exact hpre x hx
      · rcases List.mem_cons.mp hx with hx | hx
        · rw [hx]
          intro hmem
          rcases List.mem_append.mp hmem with hm | hm
          · exact (hws _ hm).2 rfl
          · exact hl hm
        · exact hpost x hx
    apply parseObjFile_joinLines A m _ _ h3 h1
    rw [List.foldl_append, List.foldl_cons,
      parseLine_leading_space A _ ws l (fun c hc => (hws c hc).1), List.foldl_append,
      List.foldl_cons]

/-- Witness of C7: a comment line between two records, and a tab and a blank
in front of a record. -/
theorem skipped_lines_and_leading_space_witness :
    joinLines (["v 0 0 0".toList] ++ "# note".toList :: ["v 1 0 0".toList]) =
      "v 0 0 0\n# note\nv 1 0 0".toList ∧
    (Mesh.fresh Ambient.demo).parseObjFile Ambient.demo
        (some (joinLines (["v 0 0 0".toList] ++ "# note".toList :: ["v 1 0 0".toList]))) =
      (Mesh.fresh Ambient.demo).parseObjFile Ambient.demo
        (some (joinLines (["v 0 0 0".toList] ++ ["v 1 0 0".toList]))) :=
  ⟨by decide,
    (skipped_lines_and_leading_space Ambient.demo (Mesh.fresh Ambient.demo) ["v 0 0 0".toList]
      ["v 1 0 0".toList] "# note".toList "\t ".toList (by decide) (by decide) (by decide)).1
      (by decide)⟩

/-! ### Faces with fewer than three references -/

theorem parseLine_short_face (A : Ambient) (m : Mesh) (line : List Char)
    (hmode : (readWord ⟨line, false, false⟩).1 = ['f'])
    (hshort : (readVerts A.uninit (readWord ⟨line, false, false⟩).2).length < 3) :
    parseLine A m line = m := by
  rw [parseLine_face A m line hmode]
  generalize readVerts A.uninit (readWord ⟨line, false, false⟩).2 = verts at hshort
  match verts, hshort with
  | [], _ => rfl
  | [_], _ => rfl
  | [_, _], _ => rfl
  | _ :: _ :: _ :: _, h => simp only [List.length_cons] at h; omega

theorem setInsert_ne_nil (e : Edge) (xs : List Edge) : setInsert e xs ≠ [] := by
  cases xs with
  | nil => simp [setInsert]
  | cons x xs => unfold setInsert; split_ifs <;> simp

theorem mapPush_ne_nil (e : Edge) (t : Triangle) (adj : AdjacencyMap) : mapPush e t adj ≠ [] := by
  cases adj with
  | nil => simp [mapPush]
  | cons kv rest => obtain ⟨k, ts⟩ := kv; unfold mapPush; split_ifs <;> simp

theorem addFace_ne_nil (m : Mesh) (a b c : Vertex) (more : List Vertex) :
    (addFace m (a :: b :: c :: more)).edges ≠ [] ∧
    (addFace m (a :: b :: c :: more)).adjacentTriangles ≠ [] :=
  ⟨setInsert_ne_nil _ _, mapPush_ne_nil _ _ _⟩

/-- C2, the code at the failing input: on the line `f 1/1/1 2/2/2 ` with a
blank behind its two references the loop makes a third pass, whose
extractions fail and leave the local vertex as it was, and stores it: the
line yields a triangle, edges and adjacency entries, while the same line
without the trailing blank, like the empty text, yields nothing. -/
theorem two_refs_trailing_blank (A : Ambient) :
    readVerts A.uninit (readWord ⟨"f 1/1/1 2/2/2 ".toList, false, false⟩).2 =
      [⟨0, 0, 0⟩, ⟨1, 1, 1⟩,
        ⟨wrap32 ((A.uninit 2).p - 1), wrap32 ((A.uninit 2).t - 1), wrap32 ((A.uninit 2).n - 1)⟩] ∧
    ((Mesh.fresh A).parseObjFile A (some "f 1/1/1 2/2/2 ".toList)).1.triangles.length = 1 ∧
    ((Mesh.fresh A).parseObjFile A (some "f 1/1/1 2/2/2 ".toList)).1.numFaces = 1 ∧
    ((Mesh.fresh A).parseObjFile A (some "f 1/1/1 2/2/2 ".toList)).1.edges ≠ [] ∧
    ((Mesh.fresh A).parseObjFile A (some "f 1/1/1 2/2/2 ".toList)).1.adjacentTriangles ≠ [] ∧
    ((Mesh.fresh A).parseObjFile A (some "f 1/1/1 2/2/2".toList)).1.triangles = [] ∧
    ((Mesh.fresh A).parseObjFile A (some "f 1/1/1 2/2/2".toList)).1.edges = [] ∧
    ((Mesh.fresh A).parseObjFile A (some "".toList)).1.triangles = [] := by
  have hv : readVerts A.uninit (readWord ⟨"f 1/1/1 2/2/2 ".toList, false, false⟩).2 =
      [⟨0, 0, 0⟩, ⟨1, 1, 1⟩,
        ⟨wrap32 ((A.uninit 2).p - 1), wrap32 ((A.uninit 2).t - 1),
          wrap32 ((A.uninit 2).n - 1)⟩] := rfl
  have hm : ((Mesh.fresh A).parseObjFile A (some "f 1/1/1 2/2/2 ".toList)).1.edges =
      (addFace (Mesh.fresh A) [⟨0, 0, 0⟩, ⟨1, 1, 1⟩,
        ⟨wrap32 ((A.uninit 2).p - 1), wrap32 ((A.uninit 2).t - 1),
          wrap32 ((A.uninit 2).n - 1)⟩]).edges := rfl
  have ha : ((Mesh.fresh A).parseObjFile A (some "f 1/1/1 2/2/2 ".toList)).1.adjacentTriangles =
      (addFace (Mesh.fresh A) [⟨0, 0, 0⟩, ⟨1, 1, 1⟩,
        ⟨wrap32 ((A.uninit 2).p - 1), wrap32 ((A.uninit 2).t - 1),
          wrap32 ((A.uninit 2).n - 1)⟩]).adjacentTriangles := rfl
  refine ⟨hv, rfl, rfl, ?_, ?_, rfl, rfl, rfl⟩
  · rw [hm]; exact (addFace_ne_nil _ _ _ _ _).1
  · rw [ha]; exact (addFace_ne_nil _ _ _ _ _).2

/-! ### The counters and the sizes of the arrays -/

/-- C8, the code at the failing input: when the file cannot be opened
`parseObjFile` prints its message and returns before the counters are
assigned, so the constructor goes on with whatever they hold: `reset` throws
when `numVertices` is negative, and otherwise the mesh keeps both
indeterminate counters and gets that many velocities, with no position and
no triangle. -/
theorem unopened_file_counters (A : Ambient) :
    (Mesh.fresh A).parseObjFile A none = (Mesh.fresh A, true) ∧
    (Mesh.construct A none).2 = true ∧
    (Mesh.construct A none).1.map
        (fun m => (m.numVertices, m.numFaces, m.velocities.length, m.vertices, m.triangles)) =
      (if 0 ≤ A.numVertices0 then
        some (A.numVertices0, A.numFaces0, A.numVertices0.toNat, [], [])
      else none) ∧
    (Mesh.construct Ambient.stale none).1.map
        (fun m => (m.numVertices, m.numFaces, m.velocities.length, m.vertices.length)) =
      some (3, -2, 3, 0) := by
  refine ⟨rfl, rfl, ?_, by decide⟩
  unfold Mesh.construct Mesh.parseObjFile Mesh.reset
  simp only [Mesh.fresh]
  split_ifs
  · simp [Mesh.updateBoundingBox]
  · rfl

theorem length_foldl_set {α : Type} (f : List α → Nat → α) (is : List Nat) (vs : List α) :
    (is.foldl (fun vs i => vs.set i (f vs i)) vs).length = vs.length := by
  induction is generalizing vs with
  | nil => rfl
  | cons i is ih => rw [List.foldl_cons, ih, List.length_set]

theorem sized_parseObjFile (A : Ambient) (m : Mesh) (text : List Char) :
    (m.parseObjFile A (some text)).1.numVertices =
      ((m.parseObjFile A (some text)).1.vertices.length : Int) ∧
    (m.parseObjFile A (some text)).1.numFaces =
      ((m.parseObjFile A (some text)).1.triangles.length : Int) ∧
    (m.parseObjFile A (some text)).1.surfaceNormals.length =
      (m.parseObjFile A (some text)).1.triangles.length := by
  unfold Mesh.parseObjFile Mesh.generateSurfaceNormals
  simp

theorem sized_reset (m : Mesh) (h : m.Sized) : ∃ m', m.reset = some m' ∧ m'.Sized := by
  have h0 : 0 ≤ m.numVertices := by rw [h.numVertices_eq]; exact Int.natCast_nonneg _
  unfold Mesh.reset
  rw [if_pos h0]
  refine ⟨_, rfl, ?_⟩
  constructor
  · show m.numVertices = (m.initialVertices.length : Int)
    rw [h.initialVertices_len]; exact h.numVertices_eq
  · rfl
  · show (List.replicate m.numVertices.toNat Vec3.zero).length = m.initialVertices.length
    rw [List.length_replicate, h.numVertices_eq, Int.toNat_natCast, h.initialVertices_len]
  · exact h.numFaces_eq
  · exact h.surfaceNormals_len

theorem sized_translate (m : Mesh) (d : Vec3) (h : m.Sized) : (m.translate d).Sized := by
  have hl : (m.translate d).vertices.length = m.vertices.length :=
    length_foldl_set (fun vs i => (vs.getD i Vec3.zero).add d) _ _
  constructor
  · rw [hl]; exact h.numVertices_eq
  · rw [hl]; exact h.initialVertices_len
  · rw [hl]; exact h.velocities_len
  · exact h.numFaces_eq
  · exact h.surfaceNormals_len

theorem sized_applyImpulse (m : Mesh) (f : Vec3) (h : m.Sized) : (m.applyImpulse f).Sized := by
  have hl : (m.applyImpulse f).velocities.length = m.velocities.length :=
    length_foldl_set (fun vs i => (vs.getD i Vec3.zero).add f) _ _
  constructor
  · exact h.numVertices_eq
  · exact h.initialVertices_len
  · rw [hl]; exact h.velocities_len
  · exact h.numFaces_eq
  · exact h.surfaceNormals_len

theorem sized_generateSurfaceNormals (A : Ambient) (m : Mesh) (h : m.Sized) :
    (m.generateSurfaceNormals A).Sized := by
  constructor
  · exact h.numVertices_eq
  · exact h.initialVertices_len
  · exact h.velocities_len
  · exact h.numFaces_eq
  · show ((List.range m.numFaces.toNat).map _).length = m.triangles.length
    rw [List.length_map, List.length_range, h.numFaces_eq, Int.toNat_natCast]

theorem sized_updateBoundingBox (m : Mesh) (h : m.Sized) : m.updateBoundingBox.Sized :=
  ⟨h.numVertices_eq, h.initialVertices_len, h.velocities_len, h.numFaces_eq,
    h.surfaceNormals_len⟩

theorem intersect_mesh (A : Ambient) (m : Mesh) (ro rd : Vec3) (t : Scalar) (n : Vec3)
    (vi ti : Int) : (m.intersect A ro rd t n vi ti).1 = m := by
  unfold Mesh.intersect
  split_ifs
  · rfl
  · dsimp only
    split_ifs <;> rfl

/-- C9: after a parse of a file that could be opened `numVertices` is the
length of the position array and `numFaces` the length of the triangle
array; the constructor then returns a mesh on which numVertices = |vertices|
= |initialVertices| = |velocities| and numFaces = |triangles| =
|surfaceNormals|; and each of `reset`, `translate`, `applyImpulse`,
`generateSurfaceNormals`, `updateBoundingBox` and `intersect` takes a mesh
with these equalities to a mesh with them. -/
theorem sizes_invariant (A : Ambient) (text : List Char) :
    (((Mesh.fresh A).parseObjFile A (some text)).1.numVertices =
        (((Mesh.fresh A).parseObjFile A (some text)).1.vertices.length : Int) ∧
      ((Mesh.fresh A).parseObjFile A (some text)).1.numFaces =
        (((Mesh.fresh A).parseObjFile A (some text)).1.triangles.length : Int)) ∧
    (∃ m, (Mesh.construct A (some text)).1 = some m ∧ m.Sized) ∧
    (∀ m : Mesh, m.Sized →
      (∃ m', m.reset = some m' ∧ m'.Sized) ∧
      (∀ d, (m.translate d).Sized) ∧
      (∀ f, (m.applyImpulse f).Sized) ∧
      (m.generateSurfaceNormals A).Sized ∧
      m.updateBoundingBox.Sized ∧
      (∀ ro rd t n vi ti, (m.intersect A ro rd t n vi ti).1.Sized)) := by
  obtain ⟨hv, hf, hn⟩ := sized_parseObjFile A (Mesh.fresh A) text
  refine ⟨⟨hv, hf⟩, ?_, fun m h => ⟨sized_reset m h, fun d => sized_translate m d h,
    fun f => sized_applyImpulse m f h, sized_generateSurfaceNormals A m h,
    sized_updateBoundingBox m h, fun ro rd t n vi ti => by rw [intersect_mesh]; exact h⟩⟩
  have hc : (Mesh.construct A (some text)).1 =
      (Mesh.reset { ((Mesh.fresh A).parseObjFile A (some text)).1 with
        initialVertices := ((Mesh.fresh A).parseObjFile A (some text)).1.vertices }).map
        Mesh.updateBoundingBox := rfl
  rw [hc]
  generalize ((Mesh.fresh A).parseObjFile A (some text)).1 = p at hv hf hn
  have h0 : 0 ≤ p.numVertices := by rw [hv]; exact Int.natCast_nonneg _
  unfold Mesh.reset
  simp only [if_pos h0, Option.map_some']
  refine ⟨_, rfl, ?_⟩
  constructor
  · exact hv
  · rfl
  · show (List.replicate p.numVertices.toNat Vec3.zero).length = p.vertices.length
    rw [List.length_replicate, hv, Int.toNat_natCast]
  · exact hf
  · exact hn

/-- Witness of C9: the mesh built from three positions and one face has the
sizes in agreement, and so has its translate. -/
theorem sizes_invariant_witness :
    ((Mesh.fresh Ambient.demo).parseObjFile Ambient.demo (some oneTriangleText)).1.numVertices = 3 ∧
    (∀ m, (Mesh.construct Ambient.demo (some oneTriangleText)).1 = some m →
      m.Sized ∧ (m.translate ⟨1, 0, 0⟩).Sized) :=
  ⟨by decide, fun m hm =>
    have hs : m.Sized := by
      obtain ⟨m', hm', hs'⟩ := (sizes_invariant Ambient.demo oneTriangleText).2.1
      rw [hm] at hm'
      cases hm'
      exact hs'
    ⟨hs, ((sizes_invariant Ambient.demo oneTriangleText).2.2 m hs).2.1 ⟨1, 0, 0⟩⟩⟩

/-! ### Reset -/

/-- C10: on a mesh whose `numVertices` is not negative `reset` returns, the
positions are then `initialVertices` and the velocities are `numVertices`
zero vectors, whatever the positions and velocities were; `initialVertices`,
the triangles, the edge set, the adjacency map and the two counters are as
before, and a second `reset` changes nothing. -/
theorem reset_restores (m : Mesh) (h : 0 ≤ m.numVertices) :
    ∃ m', m.reset = some m' ∧
      m'.vertices = m.initialVertices ∧
      m'.velocities = List.replicate m.numVertices.toNat Vec3.zero ∧
      (m'.velocities.length : Int) = m.numVertices ∧
      (∀ vs ws, ({ m with vertices := vs, velocities := ws } : Mesh).reset = some m') ∧
      m'.initialVertices = m.initialVertices ∧ m'.triangles = m.triangles ∧
      m'.edges = m.edges ∧ m'.adjacentTriangles = m.adjacentTriangles ∧
      m'.numVertices = m.numVertices ∧ m'.numFaces = m.numFaces ∧
      m'.reset = some m' := by
  have hr : ∀ x : Mesh, 0 ≤ x.numVertices → x.reset =
      some { x with vertices := x.initialVertices,
                    velocities := List.replicate x.numVertices.toNat Vec3.zero } := by
    intro x hx
    unfold Mesh.reset
    rw [if_pos hx]
  refine ⟨_, hr m h, rfl, rfl, ?_, fun vs ws => ?_, rfl, rfl, rfl, rfl, rfl, rfl, ?_⟩
  · show ((List.replicate m.numVertices.toNat Vec3.zero).length : Int) = m.numVertices
    rw [List.length_replicate]
    exact Int.toNat_of_nonneg h
  · exact hr _ h
  · exact hr _ h

/-- Witness of C10 on the mesh parsed from three positions and one face,
after a translation. -/
theorem reset_restores_witness :
    ∃ m', ((((Mesh.fresh Ambient.demo).parseObjFile Ambient.demo
        (some oneTriangleText)).1).translate ⟨1, 2, 3⟩).reset = some m' ∧
      m'.vertices = ((((Mesh.fresh Ambient.demo).parseObjFile Ambient.demo
        (some oneTriangleText)).1).translate ⟨1, 2, 3⟩).initialVertices ∧
      m'.velocities = [Vec3.zero, Vec3.zero, Vec3.zero] :=
  (reset_restores ((((Mesh.fresh Ambient.demo).parseObjFile Ambient.demo
      (some oneTriangleText)).1).translate ⟨1, 2, 3⟩) (by decide)).imp
    (fun _ h => ⟨h.1, h.2.1, h.2.2.1⟩)

/-! ### Face normals -/

theorem surfaceNormals_generate (A : Ambient) (m : Mesh) :
    (m.generateSurfaceNormals A).surfaceNormals =
      (List.range m.numFaces.toNat).map
        (fun i => faceNormal A m.vertices (triangleAt m.triangles i)) := rfl

theorem surfaceNormals_getD (A : Ambient) (m : Mesh) (i : Nat) (hi : i < m.numFaces.toNat) :
    (m.generateSurfaceNormals A).surfaceNormals.getD i Vec3.zero =
      faceNormal A m.vertices (triangleAt m.triangles i) := by
  rw [surfaceNormals_generate, List.getD_eq_getElem?_getD, List.getElem?_map,
    List.getElem?_range hi]
  rfl

/-- C17: calling `generateSurfaceNormals` a second time without a change of
the positions gives the mesh of the first call, so the same `surfaceNormals`;
the array has `numFaces` entries (it is replaced, not extended), and entry i
is normalize(cross(v1 - v0, v2 - v0)) of triangle i. -/
theorem generateSurfaceNormals_idempotent (A : Ambient) (m : Mesh) :
    (m.generateSurfaceNormals A).generateSurfaceNormals A = m.generateSurfaceNormals A ∧
    ((m.generateSurfaceNormals A).generateSurfaceNormals A).surfaceNormals =
      (m.generateSurfaceNormals A).surfaceNormals ∧
    (m.generateSurfaceNormals A).surfaceNormals.length = m.numFaces.toNat ∧
    (0 ≤ m.numFaces → ((m.generateSurfaceNormals A).surfaceNormals.length : Int) = m.numFaces) ∧
    (∀ i, i < m.numFaces.toNat →
      (m.generateSurfaceNormals A).surfaceNormals[i]? =
        some (A.normalize (Vec3.cross
          ((vertexAt m.vertices (triangleAt m.triangles i).v1.p).sub
            (vertexAt m.vertices (triangleAt m.triangles i).v0.p))
          ((vertexAt m.vertices (triangleAt m.triangles i).v2.p).sub
            (vertexAt m.vertices (triangleAt m.triangles i).v0.p))))) := by
  have hlen : (m.generateSurfaceNormals A).surfaceNormals.length = m.numFaces.toNat := by
    rw [surfaceNormals_generate, List.length_map, List.length_range]
  refine ⟨rfl, rfl, hlen, ?_, ?_⟩
  · intro h
    rw [hlen]
    exact Int.toNat_of_nonneg h
  · intro i hi
    rw [surfaceNormals_generate, List.getElem?_map, List.getElem?_range hi]
    rfl

/-- Witness of C17 on the mesh of two triangles. -/
theorem generateSurfaceNormals_idempotent_witness :
    ((twoPlates.generateSurfaceNormals Ambient.demo).surfaceNormals.length : Int) = 2 ∧
    (twoPlates.generateSurfaceNormals Ambient.demo).surfaceNormals[1]? = some ⟨0, 0, 1⟩ :=
  ⟨(generateSurfaceNormals_idempotent Ambient.demo twoPlates).2.2.2.1 (by decide),
    ((generateSurfaceNormals_idempotent Ambient.demo twoPlates).2.2.2.2 1 (by decide)).trans
      (by with_unfolding_all decide)⟩

/-! ### The arrays of the simulation -/

theorem addFace_simulation (m : Mesh) (verts : List Vertex) :
    (addFace m verts).inverseMasses = m.inverseMasses ∧
    (addFace m verts).estimatePositions = m.estimatePositions := by
  match verts with
  | [] => exact ⟨rfl, rfl⟩
  | [_] => exact ⟨rfl, rfl⟩
  | [_, _] => exact ⟨rfl, rfl⟩
  | _ :: _ :: _ :: _ => exact ⟨rfl, rfl⟩

theorem parseLine_simulation (A : Ambient) (m : Mesh) (line : List Char) :
    (parseLine A m line).inverseMasses = m.inverseMasses ∧
    (parseLine A m line).estimatePositions = m.estimatePositions := by
  unfold parseLine
  simp only
  split_ifs
  · exact ⟨rfl, rfl⟩
  · exact ⟨rfl, rfl⟩
  · exact ⟨rfl, rfl⟩
  · exact ⟨rfl, rfl⟩
  · exact addFace_simulation m _
  · exact ⟨rfl, rfl⟩

theorem foldl_parseLine_simulation (A : Ambient) (ls : List (List Char)) (m : Mesh) :
    (ls.foldl (parseLine A) m).inverseMasses = m.inverseMasses ∧
    (ls.foldl (parseLine A) m).estimatePositions = m.estimatePositions := by
  induction ls generalizing m with
  | nil => exact ⟨rfl, rfl⟩
  | cons l ls ih =>
    rw [List.foldl_cons]
    exact ⟨(ih _).1.trans (parseLine_simulation A m l).1,
      (ih _).2.trans (parseLine_simulation A m l).2⟩

/-- Counterexample to C11: after construction from three positions and one
face `numVertices` is 3 and `velocities` has 3 entries, while `inverseMasses`
and `estimatePositions` are empty. -/
theorem simulation_arrays_unsized :
    (Mesh.construct Ambient.demo (some oneTriangleText)).1.map
      (fun m => (m.numVertices, m.velocities.length, m.inverseMasses.length,
        m.estimatePositions.length)) = some (3, 3, 0, 0) := by
  decide

/-- C11, amended: after construction from a file that could be opened the
`velocities` array has length `numVertices`, and after every `reset` that
returns it has length `numVertices` again; the constructor and `reset` do
not size `inverseMasses` and `estimatePositions`: both are empty after
construction and `reset` leaves them as they are. -/
theorem velocities_sized (A : Ambient) (text : List Char) :
    (∃ m, (Mesh.construct A (some text)).1 = some m ∧
      (m.velocities.length : Int) = m.numVertices ∧
      m.inverseMasses = [] ∧ m.estimatePositions = []) ∧
    (∀ m m' : Mesh, m.reset = some m' →
      (m'.velocities.length : Int) = m'.numVertices ∧
      m'.inverseMasses = m.inverseMasses ∧ m'.estimatePositions = m.estimatePositions) := by
  constructor
  · have hc : (Mesh.construct A (some text)).1 =
        (Mesh.reset { ((Mesh.fresh A).parseObjFile A (some text)).1 with
          initialVertices := ((Mesh.fresh A).parseObjFile A (some text)).1.vertices }).map
          Mesh.updateBoundingBox := rfl
    have hv := (sized_parseObjFile A (Mesh.fresh A) text).1
    have hi : ((Mesh.fresh A).parseObjFile A (some text)).1.inverseMasses = [] :=
      (foldl_parseLine_simulation A (splitLines text) (Mesh.fresh A)).1
    have he : ((Mesh.fresh A).parseObjFile A (some text)).1.estimatePositions = [] :=
      (foldl_parseLine_simulation A (splitLines text) (Mesh.fresh A)).2
    rw [hc]
    generalize ((Mesh.fresh A).parseObjFile A (some text)).1 = p at hv hi he
    have h0 : 0 ≤ p.numVertices := by rw [hv]; exact Int.natCast_nonneg _
    unfold Mesh.reset
    simp only [if_pos h0, Option.map_some']
    refine ⟨_, rfl, ?_, hi, he⟩
    show ((List.replicate p.numVertices.toNat Vec3.zero).length : Int) = p.numVertices
    rw [List.length_replicate]
    exact Int.toNat_of_nonneg h0
  · intro m m' hr
    unfold Mesh.reset at hr
    split_ifs at hr with h0
    rw [Option.some.injEq] at hr
    subst hr
    refine ⟨?_, rfl, rfl⟩
    show ((List.replicate m.numVertices.toNat Vec3.zero).length : Int) = m.numVertices
    rw [List.length_replicate]
    exact Int.toNat_of_nonneg h0

/-- Witness of C11 (amended): the mesh built from three positions and one
face, and a reset of the mesh of two triangles. -/
theorem velocities_sized_witness :
    (∃ m, (Mesh.construct Ambient.demo (some oneTriangleText)).1 = some m ∧
      (m.velocities.length : Int) = m.numVertices ∧
      m.inverseMasses = [] ∧ m.estimatePositions = []) ∧
    twoPlates.reset = some twoPlates ∧
    (twoPlates.velocities.length : Int) = twoPlates.numVertices :=
  ⟨(velocities_sized Ambient.demo oneTriangleText).1, rfl,
    ((velocities_sized Ambient.demo oneTriangleText).2 twoPlates twoPlates rfl).1⟩

/-! ### Position indices of the stored triangles -/

/-- C20, the code at the failing input: the text has two `v` records and one
`f` line whose two position indices, 1 and 2, are in range; behind them
stands a character that is no number, so the third pass of the reference
loop stores 0 for the position index, decrements it and pushes the
reference: the stored triangle has the position index -1 while
`numVertices` is 2. With a blank behind the two references the third
position index is the indeterminate content of the local, decremented. -/
theorem position_index_out_of_range (A : Ambient) :
    ((Mesh.fresh A).parseObjFile A
      (some "v 0 0 0\nv 1 0 0\nf 1/1/1 2/2/2 #".toList)).1.numVertices = 2 ∧
    ((Mesh.fresh A).parseObjFile A
      (some "v 0 0 0\nv 1 0 0\nf 1/1/1 2/2/2 #".toList)).1.triangles.map
        (fun t => (t.v0.p, t.v1.p, t.v2.p)) = [(0, 1, -1)] ∧
    ((Mesh.fresh A).parseObjFile A
      (some "v 0 0 0\nv 1 0 0\nf 1/1/1 2/2/2 ".toList)).1.triangles.map
        (fun t => (t.v0.p, t.v1.p, t.v2.p)) = [(0, 1, wrap32 ((A.uninit 2).p - 1))] :=
  ⟨rfl, rfl, rfl⟩

/-! ### The closest hit -/

theorem triTest_excluded (m : Mesh) (ro rd : Vec3) (vi : Int) (j : Nat)
    (h : (triangleAt m.triangles j).hasIndex vi) : (triTest m ro rd vi j).1 = false := by
  unfold triTest Mesh.rayTriangleIntersect
  unfold Triangle.hasIndex at h
  simp only [if_pos h]

theorem triTest_fin (m : Mesh) (ro rd : Vec3) (vi : Int) (j : Nat)
    (h : (triTest m ro rd vi j).1 = true) : ∃ q, (triTest m ro rd vi j).2.1 = .fin q := by
  have hc : (triTest m ro rd vi j).1 = false ∨ ∃ q, (triTest m ro rd vi j).2.1 = .fin q := by
    unfold triTest Mesh.rayTriangleIntersect
    simp only
    split_ifs
    · exact Or.inl rfl
    · exact Or.inl rfl
    · exact Or.inl rfl
    · exact Or.inl rfl
    · exact Or.inr ⟨_, rfl⟩
  rcases hc with hc | hc
  · rw [hc] at h; cases h
  · exact hc

theorem triTest_not_excluded (m : Mesh) (ro rd : Vec3) (vi : Int) (j : Nat)
    (h : (triTest m ro rd vi j).1 = true) : ¬(triangleAt m.triangles j).hasIndex vi := by
  intro hx
  rw [triTest_excluded m ro rd vi j hx] at h
  cases h

theorem triTest_congr (m : Mesh) (ro rd : Vec3) (vi vi' : Int) (j : Nat)
    (h : ¬(triangleAt m.triangles j).hasIndex vi) (h' : ¬(triangleAt m.triangles j).hasIndex vi') :
    triTest m ro rd vi j = triTest m ro rd vi' j := by
  unfold triTest Mesh.rayTriangleIntersect
  unfold Triangle.hasIndex at h h'
  simp only [if_neg h, if_neg h']

/-- The state of the locals `hit`, `t`, `closestIndex` after the first `n`
passes of the loop of `intersect`. -/
theorem intersect_loop (m : Mesh) (ro rd : Vec3) (vi : Int) (n : Nat) :
    ((((List.range n).foldl (intersectStep m ro rd vi) (false, .posInf, 0)).1 = false ∧
      ((List.range n).foldl (intersectStep m ro rd vi) (false, .posInf, 0)).2.1 = .posInf ∧
      ∀ j < n, (triTest m ro rd vi j).1 = false) ∨
    (((List.range n).foldl (intersectStep m ro rd vi) (false, .posInf, 0)).1 = true ∧
      ∃ k q, k < n ∧
        ((List.range n).foldl (intersectStep m ro rd vi) (false, .posInf, 0)).2.2 = k ∧
        ((List.range n).foldl (intersectStep m ro rd vi) (false, .posInf, 0)).2.1 = .fin q ∧
        (triTest m ro rd vi k).1 = true ∧ (triTest m ro rd vi k).2.1 = .fin q ∧
        (∀ j < n, (triTest m ro rd vi j).1 = true →
          ∃ q', (triTest m ro rd vi j).2.1 = .fin q' ∧ |q| ≤ |q'|) ∧
        (∀ j < k, (triTest m ro rd vi j).1 = true →
          ∃ q', (triTest m ro rd vi j).2.1 = .fin q' ∧ |q| < |q'|))) := by
  induction n with
  | zero =>
    left
    exact ⟨rfl, rfl, fun j hj => absurd hj (Nat.not_lt_zero j)⟩
  | succ n ih =>
    rw [List.range_succ, List.foldl_append, List.foldl_cons, List.foldl_nil]
    generalize (List.range n).foldl (intersectStep m ro rd vi) (false, .posInf, 0) = acc at ih
    obtain ⟨hit, t, idx⟩ := acc
    have hstep : intersectStep m ro rd vi (hit, t, idx) n =
        if (triTest m ro rd vi n).1 && Scalar.lt (triTest m ro rd vi n).2.1.fabs t.fabs then
          (true, (triTest m ro rd vi n).2.1, n) else (hit, t, idx) := rfl
    rw [hstep]
    rcases ih with ⟨h1, h2, h3⟩ | ⟨h1, k, q, hk, hidx, ht, hpass, hpt, hmin, htie⟩
    · simp only at h1 h2
      subst h1 h2
      by_cases hp : (triTest m ro rd vi n).1 = true
      · obtain ⟨qn, hqn⟩ := triTest_fin m ro rd vi n hp
        have hc : ((triTest m ro rd vi n).1 &&
            Scalar.lt (triTest m ro rd vi n).2.1.fabs Scalar.posInf.fabs) = true := by
          rw [hp, hqn]; rfl
        rw [if_pos hc]
        right
        refine ⟨rfl, n, qn, Nat.lt_succ_self n, rfl, hqn, hp, hqn, ?_, ?_⟩
        · intro j hj hpj
          rcases Nat.lt_succ_iff_lt_or_eq.mp hj with hj | hj
          · rw [h3 j hj] at hpj; cases hpj
          · subst hj; exact ⟨qn, hqn, le_refl _⟩
        · intro j hj hpj
          rw [h3 j hj] at hpj; cases hpj
      · rw [Bool.not_eq_true] at hp
        have hc : ¬((triTest m ro rd vi n).1 &&
            Scalar.lt (triTest m ro rd vi n).2.1.fabs Scalar.posInf.fabs) = true := by
          rw [hp]; simp
        rw [if_neg hc]
        left
        refine ⟨rfl, rfl, ?_⟩
        intro j hj
        rcases Nat.lt_succ_iff_lt_or_eq.mp hj with hj | hj
        · exact h3 j hj
        · subst hj; exact hp
    · simp only at h1 hidx ht
      subst h1 hidx ht
      by_cases hp : (triTest m ro rd vi n).1 = true
      · obtain ⟨qn, hqn⟩ := triTest_fin m ro rd vi n hp
        by_cases hlt : |qn| < |q|
        · have hc : ((triTest m ro rd vi n).1 &&
              Scalar.lt (triTest m ro rd vi n).2.1.fabs (Scalar.fin q).fabs) = true := by
            rw [hp, hqn]
            simp [Scalar.fabs, Scalar.lt, hlt]
          rw [if_pos hc]
          right
          refine ⟨rfl, n, qn, Nat.lt_succ_self n, rfl, hqn, hp, hqn, ?_, ?_⟩
          · intro j hj hpj
            rcases Nat.lt_succ_iff_lt_or_eq.mp hj with hj | hj
            · obtain ⟨q', hq', hle⟩ := hmin j hj hpj
              exact ⟨q', hq', le_trans hlt.le hle⟩
            · subst hj; exact ⟨qn, hqn, le_refl _⟩
          · intro j hj hpj
            obtain ⟨q', hq', hle⟩ := hmin j hj hpj
            exact ⟨q', hq', lt_of_lt_of_le hlt hle⟩
        · have hc : ¬((triTest m ro rd vi n).1 &&
              Scalar.lt (triTest m ro rd vi n).2.1.fabs (Scalar.fin q).fabs) = true := by
            rw [hp, hqn]
            simp [Scalar.fabs, Scalar.lt, hlt]
          rw [if_neg hc]
          right
          refine ⟨rfl, idx, q, Nat.lt_succ_of_lt hk, rfl, rfl, hpass, hpt, ?_, htie⟩
          intro j hj hpj
          rcases Nat.lt_succ_iff_lt_or_eq.mp hj with hj | hj
          · exact hmin j hj hpj
          · subst hj; exact ⟨qn, hqn, not_lt.mp hlt⟩
      · rw [Bool.not_eq_true] at hp
        have hc : ¬((triTest m ro rd vi n).1 &&
            Scalar.lt (triTest m ro rd vi n).2.1.fabs (Scalar.fin q).fabs) = true := by
          rw [hp]; simp
        rw [if_neg hc]
        right
        refine ⟨rfl, idx, q, Nat.lt_succ_of_lt hk, rfl, rfl, hpass, hpt, ?_, htie⟩
        intro j hj hpj
        rcases Nat.lt_succ_iff_lt_or_eq.mp hj with hj | hj
        · exact hmin j hj hpj
        · subst hj; rw [hp] at hpj; cases hpj

theorem intersect_box_fail (A : Ambient) (m : Mesh) (ro rd : Vec3) (t0 : Scalar) (n0 : Vec3)
    (vi ti0 : Int) (h : A.boxIntersect m.boundingBox ro rd = false) :
    m.intersect A ro rd t0 n0 vi ti0 = (m, false, t0, n0, ti0) := by
  unfold Mesh.intersect
  rw [h]
  rfl

theorem intersect_box_pass (A : Ambient) (m : Mesh) (ro rd : Vec3) (t0 : Scalar) (n0 : Vec3)
    (vi ti0 : Int) (h : A.boxIntersect m.boundingBox ro rd = true) :
    m.intersect A ro rd t0 n0 vi ti0 =
      if ((List.range m.numFaces.toNat).foldl (intersectStep m ro rd vi)
          (false, .posInf, 0)).1 = true then
        (m, true,
          ((List.range m.numFaces.toNat).foldl (intersectStep m ro rd vi)
            (false, .posInf, 0)).2.1,
          faceNormal A m.vertices (triangleAt m.triangles
            ((List.range m.numFaces.toNat).foldl (intersectStep m ro rd vi)
              (false, .posInf, 0)).2.2),
          ((((List.range m.numFaces.toNat).foldl (intersectStep m ro rd vi)
            (false, .posInf, 0)).2.2 : Nat) : Int))
      else
        (m, false,
          ((List.range m.numFaces.toNat).foldl (intersectStep m ro rd vi)
            (false, .posInf, 0)).2.1, n0, ti0) := by
  unfold Mesh.intersect
  rw [h]
  rfl

/-- C12: whenever `intersect` reports a hit, the returned `triHitIndex` is a
triangle `k` that passes the per-triangle test, the returned `t` is the `t` of
that triangle, its absolute value is at most that of the `t` of every
triangle that passes the test (the sign plays no part, so a hit behind the
origin with smaller magnitude beats a forward hit), every passing triangle
with a lower index has a strictly larger absolute value, and the returned
normal is normalize(cross(v1 - v0, v2 - v0)) of triangle `k`. -/
theorem intersect_closest_hit (A : Ambient) (m : Mesh) (ro rd : Vec3) (t0 : Scalar)
    (n0 : Vec3) (vi ti0 : Int) (hhit : (m.intersect A ro rd t0 n0 vi ti0).2.1 = true) :
    ∃ (k : Nat) (q : ℚ), k < m.numFaces.toNat ∧
      (m.intersect A ro rd t0 n0 vi ti0).2.2.2.2 = (k : Int) ∧
      (triTest m ro rd vi k).1 = true ∧
      (m.intersect A ro rd t0 n0 vi ti0).2.2.1 = .fin q ∧
      (triTest m ro rd vi k).2.1 = .fin q ∧
      (∀ j < m.numFaces.toNat, (triTest m ro rd vi j).1 = true →
        ∃ q', (triTest m ro rd vi j).2.1 = .fin q' ∧ |q| ≤ |q'|) ∧
      (∀ j < k, (triTest m ro rd vi j).1 = true →
        ∃ q', (triTest m ro rd vi j).2.1 = .fin q' ∧ |q| < |q'|) ∧
      (m.intersect A ro rd t0 n0 vi ti0).2.2.2.1 =
        A.normalize (Vec3.cross
          ((vertexAt m.vertices (triangleAt m.triangles k).v1.p).sub
            (vertexAt m.vertices (triangleAt m.triangles k).v0.p))
          ((vertexAt m.vertices (triangleAt m.triangles k).v2.p).sub
            (vertexAt m.vertices (triangleAt m.triangles k).v0.p))) := by
  by_cases hb : A.boxIntersect m.boundingBox ro rd = true
  · rw [intersect_box_pass A m ro rd t0 n0 vi ti0 hb] at hhit ⊢
    rcases intersect_loop m ro rd vi m.numFaces.toNat with
      ⟨h1, -, -⟩ | ⟨h1, k, q, hk, hidx, ht, hpass, hpt, hmin, htie⟩
    · rw [if_neg (by rw [h1]; simp)] at hhit
      cases hhit
    · rw [if_pos h1]
      refine ⟨k, q, hk, by rw [hidx], hpass, ht, hpt, hmin, htie, ?_⟩
      show faceNormal A m.vertices _ = _
      rw [hidx]
      rfl
  · rw [Bool.not_eq_true] at hb
    rw [intersect_box_fail A m ro rd t0 n0 vi ti0 hb] at hhit
    cases hhit

/-- Witness of C12: the ray from (1/4, 1/4, 1) along +z meets triangle 0 in
front at t = 4 and triangle 1 behind at t = -1, and triangle 1 is returned. -/
theorem intersect_closest_hit_witness :
    (twoPlates.intersect Ambient.demo ⟨1/4, 1/4, 1⟩ ⟨0, 0, 1⟩ .posInf Vec3.zero (-1) 0).2.2.2.2
      = 1 ∧
    (twoPlates.intersect Ambient.demo ⟨1/4, 1/4, 1⟩ ⟨0, 0, 1⟩ .posInf Vec3.zero (-1) 0).2.2.1
      = .fin (-1) ∧
    (triTest twoPlates ⟨1/4, 1/4, 1⟩ ⟨0, 0, 1⟩ (-1) 0).2.1 = .fin 4 ∧
    ∃ (k : Nat) (q : ℚ), k < twoPlates.numFaces.toNat ∧
      (twoPlates.intersect Ambient.demo ⟨1/4, 1/4, 1⟩ ⟨0, 0, 1⟩ .posInf Vec3.zero
        (-1) 0).2.2.2.2 = (k : Int) ∧
      (triTest twoPlates ⟨1/4, 1/4, 1⟩ ⟨0, 0, 1⟩ (-1) k).1 = true ∧
      (twoPlates.intersect Ambient.demo ⟨1/4, 1/4, 1⟩ ⟨0, 0, 1⟩ .posInf Vec3.zero
        (-1) 0).2.2.1 = .fin q :=
  ⟨by with_unfolding_all decide, by with_unfolding_all decide, by with_unfolding_all decide,
    (intersect_closest_hit Ambient.demo twoPlates ⟨1/4, 1/4, 1⟩ ⟨0, 0, 1⟩ .posInf Vec3.zero
      (-1) 0 (by with_unfolding_all decide)).imp
      (fun _ h => h.imp (fun _ h' => ⟨h'.1, h'.2.1, h'.2.2.1, h'.2.2.2.1⟩))⟩

theorem hit_iff_box_and_triangle (A : Ambient) (m : Mesh) (ro rd : Vec3) (t0 : Scalar)
    (n0 : Vec3) (vi ti0 : Int) :
    (m.intersect A ro rd t0 n0 vi ti0).2.1 = true ↔
      (A.boxIntersect m.boundingBox ro rd = true ∧
        ∃ j, j < m.numFaces.toNat ∧ (triTest m ro rd vi j).1 = true) := by
  by_cases hb : A.boxIntersect m.boundingBox ro rd = true
  · rw [intersect_box_pass A m ro rd t0 n0 vi ti0 hb]
    rcases intersect_loop m ro rd vi m.numFaces.toNat with
      ⟨h1, -, h3⟩ | ⟨h1, k, q, hk, -, -, hpass, -, -, -⟩
    · rw [if_neg (by rw [h1]; simp)]
      constructor
      · intro h; cases h
      · rintro ⟨-, j, hj, hp⟩
        rw [h3 j hj] at hp; cases hp
    · rw [if_pos h1]
      exact ⟨fun _ => ⟨hb, k, hk, hpass⟩, fun _ => rfl⟩
  · constructor
    · intro h
      rw [Bool.not_eq_true] at hb
      rw [intersect_box_fail A m ro rd t0 n0 vi ti0 hb] at h
      cases h
    · intro h; exact absurd h.1 hb

theorem intersect_all_rejected (A : Ambient) (m : Mesh) (ro rd : Vec3) (t0 : Scalar)
    (n0 : Vec3) (vi ti0 : Int)
    (hall : ∀ j, j < m.numFaces.toNat → (triTest m ro rd vi j).1 = false) :
    (m.intersect A ro rd t0 n0 vi ti0).2.1 = false := by
  rw [← Bool.not_eq_true, hit_iff_box_and_triangle]
  rintro ⟨-, j, hj, hp⟩
  rw [hall j hj] at hp; cases hp

/-- C13: `intersect` reports a hit exactly when the ray passes the
bounding-box test and some triangle passes the per-triangle test; so there
is no hit on a mesh without triangles, none when the bounding-box test
fails, in which case `t`, `normal` and `triHitIndex` are returned as they
were passed, and none when every triangle is rejected. -/
theorem intersect_hit_iff (A : Ambient) (m : Mesh) (ro rd : Vec3) (t0 : Scalar)
    (n0 : Vec3) (vi ti0 : Int) :
    ((m.intersect A ro rd t0 n0 vi ti0).2.1 = true ↔
      (A.boxIntersect m.boundingBox ro rd = true ∧
        ∃ j, j < m.numFaces.toNat ∧ (triTest m ro rd vi j).1 = true)) ∧
    (m.numFaces = (m.triangles.length : Int) → m.triangles = [] →
      (m.intersect A ro rd t0 n0 vi ti0).2.1 = false) ∧
    (A.boxIntersect m.boundingBox ro rd = false →
      m.intersect A ro rd t0 n0 vi ti0 = (m, false, t0, n0, ti0)) ∧
    ((∀ j, j < m.numFaces.toNat → (triTest m ro rd vi j).1 = false) →
      (m.intersect A ro rd t0 n0 vi ti0).2.1 = false) := by
  refine ⟨hit_iff_box_and_triangle A m ro rd t0 n0 vi ti0, ?_,
    intersect_box_fail A m ro rd t0 n0 vi ti0, intersect_all_rejected A m ro rd t0 n0 vi ti0⟩
  intro hn he
  apply intersect_all_rejected
  intro j hj
  rw [hn, he] at hj
  exact absurd hj (Nat.not_lt_zero j)

/-- Witness of C13: a ray that runs beside both triangles is not a hit, and
the outputs of a call whose bounding-box test fails are the inputs. -/
theorem intersect_hit_iff_witness :
    (twoPlates.intersect Ambient.demo ⟨3, 3, 1⟩ ⟨0, 0, 1⟩ (.fin 7) Vec3.zero (-1) 9).2.1
      = false ∧
    twoPlates.intersect { Ambient.demo with boxIntersect := fun _ _ _ => false }
        ⟨1/4, 1/4, 1⟩ ⟨0, 0, 1⟩ (.fin 7) ⟨1, 2, 3⟩ (-1) 9 =
      (twoPlates, false, .fin 7, ⟨1, 2, 3⟩, 9) :=
  ⟨(intersect_hit_iff Ambient.demo twoPlates ⟨3, 3, 1⟩ ⟨0, 0, 1⟩ (.fin 7) Vec3.zero (-1)
      9).2.2.2 (by with_unfolding_all decide),
    (intersect_hit_iff { Ambient.demo with boxIntersect := fun _ _ _ => false } twoPlates
      ⟨1/4, 1/4, 1⟩ ⟨0, 0, 1⟩ (.fin 7) ⟨1, 2, 3⟩ (-1) 9).2.2.1 rfl⟩

/-! ### Self-exclusion -/

theorem rayTriangleIntersect_excluded (m : Mesh) (ro rd : Vec3) (t : Scalar) (j : Nat)
    (vi : Int) (u v : ℚ) (h : (triangleAt m.triangles j).hasIndex vi) :
    (m.rayTriangleIntersect ro rd t j vi u v).1 = false := by
  unfold Mesh.rayTriangleIntersect
  unfold Triangle.hasIndex at h
  simp only [if_pos h]

theorem foldl_intersectStep_congr (m : Mesh) (ro rd : Vec3) (x y : Int) (js : List Nat)
    (acc : Bool × Scalar × Nat)
    (h : ∀ j ∈ js, ((triTest m ro rd x j).1 = false ∧ (triTest m ro rd y j).1 = false) ∨
      triTest m ro rd x j = triTest m ro rd y j) :
    js.foldl (intersectStep m ro rd x) acc = js.foldl (intersectStep m ro rd y) acc := by
  induction js generalizing acc with
  | nil => rfl
  | cons j js ih =>
    have hstep : intersectStep m ro rd x acc j = intersectStep m ro rd y acc j := by
      have ex : intersectStep m ro rd x acc j =
          if (triTest m ro rd x j).1 && Scalar.lt (triTest m ro rd x j).2.1.fabs acc.2.1.fabs
          then (true, (triTest m ro rd x j).2.1, j) else acc := rfl
      have ey : intersectStep m ro rd y acc j =
          if (triTest m ro rd y j).1 && Scalar.lt (triTest m ro rd y j).2.1.fabs acc.2.1.fabs
          then (true, (triTest m ro rd y j).2.1, j) else acc := rfl
      rw [ex, ey]
      rcases h j (List.mem_cons_self _ _) with ⟨hx, hy⟩ | he
      · rw [hx, hy]; rfl
      · rw [he]
    rw [List.foldl_cons, List.foldl_cons, hstep]
    exact ih _ (fun k hk => h k (List.mem_cons_of_mem _ hk))

theorem intersect_congr (A : Ambient) (m : Mesh) (ro rd : Vec3) (t0 : Scalar) (n0 : Vec3)
    (x y ti0 : Int)
    (h : ∀ j < m.numFaces.toNat,
      ((triTest m ro rd x j).1 = false ∧ (triTest m ro rd y j).1 = false) ∨
      triTest m ro rd x j = triTest m ro rd y j) :
    m.intersect A ro rd t0 n0 x ti0 = m.intersect A ro rd t0 n0 y ti0 := by
  have hf := foldl_intersectStep_congr m ro rd x y (List.range m.numFaces.toNat)
    (false, .posInf, 0) (fun j hj => h j (List.mem_range.mp hj))
  unfold Mesh.intersect
  rw [hf]

/-- C14: `rayTriangleIntersect` rejects every triangle that has the excluded
vertex index among its three position indices. On a mesh in which -1 is no
position index, so that -1 excludes nothing: if exactly one triangle passes
the test without exclusion, `intersect` with any of its three position
indices excluded reports no hit; and for every excluded index that is not a
position index of any triangle that passes the test without exclusion,
`intersect` returns the same hit flag, `t`, normal and triangle index as with
the index -1. -/
theorem self_exclusion (A : Ambient) (m : Mesh) (ro rd : Vec3) :
    (∀ (t : Scalar) (j : Nat) (vi : Int) (u v : ℚ), (triangleAt m.triangles j).hasIndex vi →
      (m.rayTriangleIntersect ro rd t j vi u v).1 = false) ∧
    ((∀ j, j < m.numFaces.toNat → ¬(triangleAt m.triangles j).hasIndex (-1)) →
      (∀ k, k < m.numFaces.toNat → (triTest m ro rd (-1) k).1 = true →
        (∀ j, j < m.numFaces.toNat → (triTest m ro rd (-1) j).1 = true → j = k) →
        ∀ x, (triangleAt m.triangles k).hasIndex x →
          ∀ (t0 : Scalar) (n0 : Vec3) (ti0 : Int),
            (m.intersect A ro rd t0 n0 x ti0).2.1 = false) ∧
      (∀ x, (∀ j, j < m.numFaces.toNat → (triTest m ro rd (-1) j).1 = true →
          ¬(triangleAt m.triangles j).hasIndex x) →
        ∀ (t0 : Scalar) (n0 : Vec3) (ti0 : Int),
          m.intersect A ro rd t0 n0 x ti0 = m.intersect A ro rd t0 n0 (-1) ti0)) := by
  refine ⟨fun t j vi u v h => rayTriangleIntersect_excluded m ro rd t j vi u v h,
    fun hneg => ⟨?_, ?_⟩⟩
  · intro k hk hpass huniq x hx t0 n0 ti0
    apply intersect_all_rejected
    intro j hj
    by_contra hp
    rw [Bool.not_eq_false] at hp
    have hnx := triTest_not_excluded m ro rd x j hp
    have hp' : (triTest m ro rd (-1) j).1 = true := by
      rw [← triTest_congr m ro rd x (-1) j hnx (hneg j hj)]; exact hp
    have hjk := huniq j hj hp'
    rw [hjk] at hnx
    exact hnx hx
  · intro x hx t0 n0 ti0
    apply intersect_congr
    intro j hj
    by_cases hix : (triangleAt m.triangles j).hasIndex x
    · left
      refine ⟨triTest_excluded m ro rd x j hix, ?_⟩
      by_contra hp
      rw [Bool.not_eq_false] at hp
      exact hx j hj hp hix
    · right
      exact triTest_congr m ro rd x (-1) j hix (hneg j hj)

/-- Witness of C14: the ray from (1/4, 1/4, -1) along (1/10, 0, 1) passes
only the test of triangle 1, on the positions 0, 1, 2; with position 1
excluded there is no hit, and with position 4, a corner of the other
triangle, excluded the result is that of the index -1. -/
theorem self_exclusion_witness :
    (twoPlates.intersect Ambient.demo ⟨1/4, 1/4, -1⟩ ⟨1/10, 0, 1⟩ .posInf Vec3.zero (-1) 0).2.1
      = true ∧
    (twoPlates.intersect Ambient.demo ⟨1/4, 1/4, -1⟩ ⟨1/10, 0, 1⟩ .posInf Vec3.zero 1 0).2.1
      = false ∧
    twoPlates.intersect Ambient.demo ⟨1/4, 1/4, -1⟩ ⟨1/10, 0, 1⟩ .posInf Vec3.zero 4 0 =
      twoPlates.intersect Ambient.demo ⟨1/4, 1/4, -1⟩ ⟨1/10, 0, 1⟩ .posInf Vec3.zero (-1) 0 :=
  ⟨by with_unfolding_all decide,
    ((self_exclusion Ambient.demo twoPlates ⟨1/4, 1/4, -1⟩ ⟨1/10, 0, 1⟩).2
      (by with_unfolding_all decide)).1 1 (by decide) (by with_unfolding_all decide)
      (by with_unfolding_all decide) 1 (by decide) .posInf Vec3.zero 0,
    ((self_exclusion Ambient.demo twoPlates ⟨1/4, 1/4, -1⟩ ⟨1/10, 0, 1⟩).2
      (by with_unfolding_all decide)).2 4 (by with_unfolding_all decide) .posInf Vec3.zero 0⟩

/-! ### Translation -/

theorem getElem?_foldl_set {α : Type} (f : α → α) (z : α) (n : Nat) (vs : List α) :
    ∀ k : Nat, ((List.range n).foldl (fun vs i => vs.set i (f (vs.getD i z))) vs)[k]? =
      if k < n then vs[k]?.map f else vs[k]? := by
  induction n with
  | zero => intro k; simp
  | succ n ih =>
    intro k
    rw [List.range_succ, List.foldl_append, List.foldl_cons, List.foldl_nil]
    have hlen : ((List.range n).foldl (fun vs i => vs.set i (f (vs.getD i z))) vs).length =
        vs.length := length_foldl_set (fun vs i => f (vs.getD i z)) _ _
    generalize (List.range n).foldl (fun vs i => vs.set i (f (vs.getD i z))) vs = L at ih hlen
    rw [List.getElem?_set]
    by_cases hk : n = k
    · subst hk
      rw [if_pos rfl, if_pos (Nat.lt_succ_self n)]
      have hLn : L[n]? = vs[n]? := by
        rw [ih n, if_neg (Nat.lt_irrefl n)]
      by_cases hn : n < L.length
      · rw [if_pos hn, List.getD_eq_getElem?_getD, hLn]
        rw [hlen] at hn
        rw [List.getElem?_eq_getElem hn]
        rfl
      · rw [if_neg hn]
        rw [hlen] at hn
        rw [List.getElem?_eq_none (Nat.le_of_not_lt hn)]
        rfl
    · rw [if_neg hk, ih k]
      by_cases hkn : k < n
      · rw [if_pos hkn, if_pos (Nat.lt_succ_of_lt hkn)]
      · rw [if_neg hkn, if_neg (by omega)]

theorem foldl_set_eq_map {α : Type} (f : α → α) (z : α) (vs : List α) :
    (List.range vs.length).foldl (fun vs i => vs.set i (f (vs.getD i z))) vs = vs.map f := by
  apply List.ext_getElem?
  intro k
  rw [getElem?_foldl_set, List.getElem?_map]
  by_cases hk : k < vs.length
  · rw [if_pos hk]
  · rw [if_neg hk, List.getElem?_eq_none (Nat.le_of_not_lt hk)]
    rfl

theorem vec3_add_neg (v d : Vec3) : (v.add d).add d.neg = v := by
  obtain ⟨x, y, z⟩ := v
  simp [Vec3.add, Vec3.neg]

theorem translate_vertices (m : Mesh) (d : Vec3) (h : m.numVertices = (m.vertices.length : Int)) :
    (m.translate d).vertices = m.vertices.map (fun v => v.add d) := by
  show (List.range m.numVertices.toNat).foldl
    (fun vs i => vs.set i ((vs.getD i Vec3.zero).add d)) m.vertices = _
  rw [h, Int.toNat_natCast]
  exact foldl_set_eq_map (fun v => v.add d) Vec3.zero m.vertices

/-- C15: on a mesh with |vertices| = numVertices, `translate(delta)` adds
delta to every vertex position and leaves the velocities, `initialVertices`,
the topology and the counters as they are, and `translate(delta)` followed
by `translate(-delta)` gives back the mesh it started from, every position
exactly. -/
theorem translate_round_trip (m : Mesh) (d : Vec3)
    (h : m.numVertices = (m.vertices.length : Int)) :
    (m.translate d).vertices = m.vertices.map (fun v => v.add d) ∧
    (∀ i, i < m.vertices.length →
      (m.translate d).vertices[i]? = (m.vertices[i]?).map (fun v => v.add d)) ∧
    (m.translate d).velocities = m.velocities ∧
    (m.translate d).initialVertices = m.initialVertices ∧
    (m.translate d).triangles = m.triangles ∧ (m.translate d).edges = m.edges ∧
    (m.translate d).adjacentTriangles = m.adjacentTriangles ∧
    (m.translate d).numVertices = m.numVertices ∧ (m.translate d).numFaces = m.numFaces ∧
    ((m.translate d).translate d.neg).vertices = m.vertices ∧
    (m.translate d).translate d.neg = m := by
  have h1 := translate_vertices m d h
  have h2 : (m.translate d).numVertices = ((m.translate d).vertices.length : Int) := by
    rw [h1, List.length_map]; exact h
  have h3 : ((m.translate d).translate d.neg).vertices = m.vertices := by
    rw [translate_vertices _ d.neg h2, h1, List.map_map]
    conv_rhs => rw [← List.map_id m.vertices]
    apply List.map_congr_left
    intro v _
    exact vec3_add_neg v d
  refine ⟨h1, ?_, rfl, rfl, rfl, rfl, rfl, rfl, rfl, h3, ?_⟩
  · intro i _
    rw [h1, List.getElem?_map]
  · have h4 : (m.translate d).translate d.neg =
        { m with vertices := ((m.translate d).translate d.neg).vertices } := rfl
    rw [h4, h3]

/-- Witness of C15 on the mesh of two triangles. -/
theorem translate_round_trip_witness :
    (twoPlates.translate ⟨1, 2, 3⟩).vertices =
      [⟨1, 2, 3⟩, ⟨2, 2, 3⟩, ⟨1, 3, 3⟩, ⟨1, 2, 8⟩, ⟨2, 2, 8⟩, ⟨1, 3, 8⟩] ∧
    (twoPlates.translate ⟨1, 2, 3⟩).translate (Vec3.neg ⟨1, 2, 3⟩) = twoPlates :=
  ⟨by with_unfolding_all decide, (translate_round_trip twoPlates ⟨1, 2, 3⟩ rfl).2.2.2.2.2.2.2.2.2.2⟩

/-! ### The bounding box -/

theorem foldl_range_getD {α β : Type} (g : β → α → β) (z : α) (vs : List α) (b : β) :
    (List.range vs.length).foldl (fun b i => g b (vs.getD i z)) b = vs.foldl g b := by
  induction vs using List.reverseRecOn with
  | nil => rfl
  | append_singleton vs v ih =>
    rw [List.length_append, List.length_singleton, List.range_succ, List.foldl_append,
      List.foldl_append, List.foldl_cons, List.foldl_nil, List.foldl_cons, List.foldl_nil]
    have hlast : (vs ++ [v]).getD vs.length z = v := by
      rw [List.getD_eq_getElem?_getD, List.getElem?_append_right (le_refl _)]
      simp
    rw [hlast]
    congr 1
    rw [← ih]
    apply List.foldl_ext
    intro b i hi
    have hi' : i < vs.length := List.mem_range.mp hi
    rw [List.getD_eq_getElem?_getD, List.getD_eq_getElem?_getD, List.getElem?_append_left hi']

theorem boundStep_fields (b : BoundingBox) (v : Vec3) :
    boundStep b v = ⟨lowerStep b.xMin v.x, upperStep b.xMax v.x, lowerStep b.yMin v.y,
      upperStep b.yMax v.y, lowerStep b.zMin v.z, upperStep b.zMax v.z⟩ := rfl

theorem foldl_boundStep (vs : List Vec3) (b : BoundingBox) :
    vs.foldl boundStep b =
      ⟨(vs.map Vec3.x).foldl lowerStep b.xMin, (vs.map Vec3.x).foldl upperStep b.xMax,
        (vs.map Vec3.y).foldl lowerStep b.yMin, (vs.map Vec3.y).foldl upperStep b.yMax,
        (vs.map Vec3.z).foldl lowerStep b.zMin, (vs.map Vec3.z).foldl upperStep b.zMax⟩ := by
  induction vs generalizing b with
  | nil => rfl
  | cons v vs ih =>
    rw [List.foldl_cons, ih, boundStep_fields]
    rfl

theorem foldl_lowerStep_fin (cs : List ℚ) (a : ℚ) :
    ∃ lo, cs.foldl lowerStep (.fin a) = .fin lo ∧ lo ≤ a ∧ (∀ c ∈ cs, lo ≤ c) ∧
      (lo = a ∨ lo ∈ cs) := by
  induction cs generalizing a with
  | nil => exact ⟨a, rfl, le_refl _, fun _ h => absurd h (List.not_mem_nil _), Or.inl rfl⟩
  | cons c cs ih =>
    rw [List.foldl_cons]
    by_cases hc : c < a
    · have hs : lowerStep (.fin a) c = .fin c := by
        unfold lowerStep Scalar.lt
        simp [hc]
      rw [hs]
      obtain ⟨lo, h1, h2, h3, h4⟩ := ih c
      refine ⟨lo, h1, le_trans h2 hc.le, ?_, ?_⟩
      · intro x hx
        rcases List.mem_cons.mp hx with hx | hx
        · rw [hx]; exact h2
        · exact h3 x hx
      · rcases h4 with h4 | h4
        · exact Or.inr (by rw [h4]; exact List.mem_cons_self _ _)
        · exact Or.inr (List.mem_cons_of_mem _ h4)
    · have hs : lowerStep (.fin a) c = .fin a := by
        unfold lowerStep Scalar.lt
        simp [hc]
      rw [hs]
      obtain ⟨lo, h1, h2, h3, h4⟩ := ih a
      refine ⟨lo, h1, h2, ?_, ?_⟩
      · intro x hx
        rcases List.mem_cons.mp hx with hx | hx
        · rw [hx]; exact le_trans h2 (not_lt.mp hc)
        · exact h3 x hx
      · rcases h4 with h4 | h4
        · exact Or.inl h4
        · exact Or.inr (List.mem_cons_of_mem _ h4)

theorem foldl_upperStep_fin (cs : List ℚ) (a : ℚ) :
    ∃ hi, cs.foldl upperStep (.fin a) = .fin hi ∧ a ≤ hi ∧ (∀ c ∈ cs, c ≤ hi) ∧
      (hi = a ∨ hi ∈ cs) := by
  induction cs generalizing a with
  | nil => exact ⟨a, rfl, le_refl _, fun _ h => absurd h (List.not_mem_nil _), Or.inl rfl⟩
  | cons c cs ih =>
    rw [List.foldl_cons]
    by_cases hc : a < c
    · have hs : upperStep (.fin a) c = .fin c := by
        unfold upperStep Scalar.lt
        simp [hc]
      rw [hs]
      obtain ⟨hi, h1, h2, h3, h4⟩ := ih c
      refine ⟨hi, h1, le_trans hc.le h2, ?_, ?_⟩
      · intro x hx
        rcases List.mem_cons.mp hx with hx | hx
        · rw [hx]; exact h2
        · exact h3 x hx
      · rcases h4 with h4 | h4
        · exact Or.inr (by rw [h4]; exact List.mem_cons_self _ _)
        · exact Or.inr (List.mem_cons_of_mem _ h4)
    · have hs : upperStep (.fin a) c = .fin a := by
        unfold upperStep Scalar.lt
        simp [hc]
      rw [hs]
      obtain ⟨hi, h1, h2, h3, h4⟩ := ih a
      refine ⟨hi, h1, h2, ?_, ?_⟩
      · intro x hx
        rcases List.mem_cons.mp hx with hx | hx
        · rw [hx]; exact le_trans (not_lt.mp hc) h2
        · exact h3 x hx
      · rcases h4 with h4 | h4
        · exact Or.inl h4
        · exact Or.inr (List.mem_cons_of_mem _ h4)

theorem foldl_lowerStep_posInf (cs : List ℚ) (h : cs ≠ []) :
    ∃ lo, cs.foldl lowerStep .posInf = .fin lo ∧ (∀ c ∈ cs, lo ≤ c) ∧ lo ∈ cs := by
  obtain ⟨c, cs', rfl⟩ := List.exists_cons_of_ne_nil h
  rw [List.foldl_cons]
  have hs : lowerStep .posInf c = .fin c := rfl
  rw [hs]
  obtain ⟨lo, h1, h2, h3, h4⟩ := foldl_lowerStep_fin cs' c
  refine ⟨lo, h1, ?_, ?_⟩
  · intro x hx
    rcases List.mem_cons.mp hx with hx | hx
    · rw [hx]; exact h2
    · exact h3 x hx
  · rcases h4 with h4 | h4
    · rw [h4]; exact List.mem_cons_self _ _
    · exact List.mem_cons_of_mem _ h4

theorem foldl_upperStep_negInf (cs : List ℚ) (h : cs ≠ []) :
    ∃ hi, cs.foldl upperStep .negInf = .fin hi ∧ (∀ c ∈ cs, c ≤ hi) ∧ hi ∈ cs := by
  obtain ⟨c, cs', rfl⟩ := List.exists_cons_of_ne_nil h
  rw [List.foldl_cons]
  have hs : upperStep .negInf c = .fin c := rfl
  rw [hs]
  obtain ⟨hi, h1, h2, h3, h4⟩ := foldl_upperStep_fin cs' c
  refine ⟨hi, h1, ?_, ?_⟩
  · intro x hx
    rcases List.mem_cons.mp hx with hx | hx
    · rw [hx]; exact h2
    · exact h3 x hx
  · rcases h4 with h4 | h4
    · rw [h4]; exact List.mem_cons_self _ _
    · exact List.mem_cons_of_mem _ h4

theorem updateBoundingBox_box (m : Mesh) (h : m.numVertices = (m.vertices.length : Int)) :
    m.updateBoundingBox.boundingBox =
      ⟨(m.vertices.map Vec3.x).foldl lowerStep .posInf,
        (m.vertices.map Vec3.x).foldl upperStep .negInf,
        (m.vertices.map Vec3.y).foldl lowerStep .posInf,
        (m.vertices.map Vec3.y).foldl upperStep .negInf,
        (m.vertices.map Vec3.z).foldl lowerStep .posInf,
        (m.vertices.map Vec3.z).foldl upperStep .negInf⟩ := by
  show (List.range m.numVertices.toNat).foldl
    (fun b i => boundStep b (m.vertices.getD i Vec3.zero))
    ⟨.posInf, .negInf, .posInf, .negInf, .posInf, .negInf⟩ = _
  rw [h, Int.toNat_natCast, foldl_range_getD boundStep Vec3.zero, foldl_boundStep]

/-- C16: after `updateBoundingBox` on a mesh with |vertices| = numVertices
and at least one vertex, each of the six bounds is finite, xMin, yMin, zMin
are at most and xMax, yMax, zMax at least the corresponding coordinate of
every current vertex, and each bound is the coordinate of some vertex, so
the bounds are the minima and maxima over the current positions; on a mesh
with no vertices the minima are +infinity and the maxima -infinity. -/
theorem updateBoundingBox_min_max (m : Mesh) (h : m.numVertices = (m.vertices.length : Int)) :
    (m.vertices ≠ [] →
      ∃ x0 x1 y0 y1 z0 z1 : ℚ,
        m.updateBoundingBox.boundingBox = ⟨.fin x0, .fin x1, .fin y0, .fin y1, .fin z0, .fin z1⟩ ∧
        (∀ v ∈ m.vertices, x0 ≤ v.x ∧ v.x ≤ x1 ∧ y0 ≤ v.y ∧ v.y ≤ y1 ∧ z0 ≤ v.z ∧ v.z ≤ z1) ∧
        (∃ v ∈ m.vertices, v.x = x0) ∧ (∃ v ∈ m.vertices, v.x = x1) ∧
        (∃ v ∈ m.vertices, v.y = y0) ∧ (∃ v ∈ m.vertices, v.y = y1) ∧
        (∃ v ∈ m.vertices, v.z = z0) ∧ (∃ v ∈ m.vertices, v.z = z1)) ∧
    (m.vertices = [] →
      m.updateBoundingBox.boundingBox =
        ⟨.posInf, .negInf, .posInf, .negInf, .posInf, .negInf⟩) := by
  rw [updateBoundingBox_box m h]
  constructor
  · intro hne
    have hx : m.vertices.map Vec3.x ≠ [] := by simpa using hne
    have hy : m.vertices.map Vec3.y ≠ [] := by simpa using hne
    have hz : m.vertices.map Vec3.z ≠ [] := by simpa using hne
    obtain ⟨x0, ex0, lx0, mx0⟩ := foldl_lowerStep_posInf _ hx
    obtain ⟨x1, ex1, lx1, mx1⟩ := foldl_upperStep_negInf _ hx
    obtain ⟨y0, ey0, ly0, my0⟩ := foldl_lowerStep_posInf _ hy
    obtain ⟨y1, ey1, ly1, my1⟩ := foldl_upperStep_negInf _ hy
    obtain ⟨z0, ez0, lz0, mz0⟩ := foldl_lowerStep_posInf _ hz
    obtain ⟨z1, ez1, lz1, mz1⟩ := foldl_upperStep_negInf _ hz
    refine ⟨x0, x1, y0, y1, z0, z1, by rw [ex0, ex1, ey0, ey1, ez0, ez1], ?_,
      ?_, ?_, ?_, ?_, ?_, ?_⟩
    · intro v hv
      exact ⟨lx0 _ (List.mem_map_of_mem _ hv), lx1 _ (List.mem_map_of_mem _ hv),
        ly0 _ (List.mem_map_of_mem _ hv), ly1 _ (List.mem_map_of_mem _ hv),
        lz0 _ (List.mem_map_of_mem _ hv), lz1 _ (List.mem_map_of_mem _ hv)⟩
    · obtain ⟨v, hv, e⟩ := List.mem_map.mp mx0; exact ⟨v, hv, e⟩
    · obtain ⟨v, hv, e⟩ := List.mem_map.mp mx1; exact ⟨v, hv, e⟩
    · obtain ⟨v, hv, e⟩ := List.mem_map.mp my0; exact ⟨v, hv, e⟩
    · obtain ⟨v, hv, e⟩ := List.mem_map.mp my1; exact ⟨v, hv, e⟩
    · obtain ⟨v, hv, e⟩ := List.mem_map.mp mz0; exact ⟨v, hv, e⟩
    · obtain ⟨v, hv, e⟩ := List.mem_map.mp mz1; exact ⟨v, hv, e⟩
  · intro he
    rw [he]
    rfl

/-- Witness of C16 on the mesh of two triangles, whose box is
[0, 1] × [0, 1] × [0, 5], and on the mesh without vertices. -/
theorem updateBoundingBox_min_max_witness :
    twoPlates.updateBoundingBox.boundingBox =
      ⟨.fin 0, .fin 1, .fin 0, .fin 1, .fin 0, .fin 5⟩ ∧
    (∃ x0 x1 y0 y1 z0 z1 : ℚ,
      twoPlates.updateBoundingBox.boundingBox =
        ⟨.fin x0, .fin x1, .fin y0, .fin y1, .fin z0, .fin z1⟩ ∧
      (∀ v ∈ twoPlates.vertices,
        x0 ≤ v.x ∧ v.x ≤ x1 ∧ y0 ≤ v.y ∧ v.y ≤ y1 ∧ z0 ≤ v.z ∧ v.z ≤ z1)) ∧
    ({ twoPlates with numVertices := 0, vertices := [] } : Mesh).updateBoundingBox.boundingBox =
      ⟨.posInf, .negInf, .posInf, .negInf, .posInf, .negInf⟩ :=
  ⟨by with_unfolding_all decide,
    ((updateBoundingBox_min_max twoPlates rfl).1 (by decide)).imp
      (fun _ h1 => h1.imp (fun _ h2 => h2.imp (fun _ h3 => h3.imp (fun _ h4 => h4.imp
        (fun _ h5 => h5.imp (fun _ h6 => ⟨h6.1, h6.2.1⟩)))))),
    (updateBoundingBox_min_max { twoPlates with numVertices := 0, vertices := [] } rfl).2 rfl⟩

/-! ### The arrays built by `render` -/

theorem foldl_emitStep (A : Ambient) (m : Mesh) (temp : List Vec3) (is : List Nat)
    (out : List Vec3 × List Vec3) :
    is.foldl (emitStep A m temp) out =
      (out.1 ++ is.flatMap (fun i =>
          [vertexAt m.vertices (triangleAt m.triangles i).v0.p,
            vertexAt m.vertices (triangleAt m.triangles i).v1.p,
            vertexAt m.vertices (triangleAt m.triangles i).v2.p]),
        out.2 ++ is.flatMap (fun i =>
          [A.normalize (vertexAt temp (triangleAt m.triangles i).v0.p),
            A.normalize (vertexAt temp (triangleAt m.triangles i).v1.p),
            A.normalize (vertexAt temp (triangleAt m.triangles i).v2.p)])) := by
  induction is generalizing out with
  | nil => simp
  | cons i is ih =>
    rw [List.foldl_cons, ih]
    simp [emitStep, List.flatMap_cons]

theorem length_flatMap_triple {α : Type} (a b c : Nat → α) (is : List Nat) :
    (is.flatMap (fun i => [a i, b i, c i])).length = 3 * is.length := by
  induction is with
  | nil => rfl
  | cons i is ih =>
    rw [List.flatMap_cons, List.length_append, ih, List.length_cons]
    simp only [List.length_cons, List.length_nil]
    omega

theorem getElem?_cons3 {α : Type} (x y z : α) (l : List α) (n : Nat) :
    (x :: y :: z :: l)[n + 3]? = l[n]? := by
  rw [show n + 3 = n + 1 + 1 + 1 from rfl, List.getElem?_cons_succ, List.getElem?_cons_succ,
    List.getElem?_cons_succ]

theorem getElem?_flatMap_triple {α : Type} (a b c : Nat → α) (is : List Nat) (k i : Nat)
    (hk : is[k]? = some i) :
    (is.flatMap (fun i => [a i, b i, c i]))[3 * k]? = some (a i) ∧
    (is.flatMap (fun i => [a i, b i, c i]))[3 * k + 1]? = some (b i) ∧
    (is.flatMap (fun i => [a i, b i, c i]))[3 * k + 2]? = some (c i) := by
  induction is generalizing k with
  | nil => simp at hk
  | cons x xs ih =>
    have hcons : (x :: xs).flatMap (fun i => [a i, b i, c i]) =
        a x :: b x :: c x :: xs.flatMap (fun i => [a i, b i, c i]) := rfl
    rw [hcons]
    cases k with
    | zero =>
      simp only [List.getElem?_cons_zero, Option.some.injEq] at hk
      subst hk
      refine ⟨by simp, by simp, by simp⟩
    | succ k =>
      rw [List.getElem?_cons_succ] at hk
      obtain ⟨h0, h1, h2⟩ := ih k hk
      have e0 : 3 * (k + 1) = 3 * k + 3 := by ring
      have e1 : 3 * (k + 1) + 1 = 3 * k + 1 + 3 := by ring
      have e2 : 3 * (k + 1) + 2 = 3 * k + 2 + 3 := by ring
      refine ⟨?_, ?_, ?_⟩
      · rw [e0, getElem?_cons3]; exact h0
      · rw [e1, getElem?_cons3]; exact h1
      · rw [e2, getElem?_cons3]; exact h2

theorem length_addAt (vs : List Vec3) (i : Int) (n : Vec3) : (addAt vs i n).length = vs.length := by
  unfold addAt
  split_ifs
  · exact List.length_set _ _ _
  · rfl

theorem vertexAt_nonneg (vs : List Vec3) (q : Int) (h0 : 0 ≤ q) :
    vertexAt vs q = vs[q.toNat]?.getD Vec3.zero := by
  unfold vertexAt
  rw [if_pos h0, List.getD_eq_getElem?_getD]

theorem vertexAt_addAt (vs : List Vec3) (i q : Int) (n : Vec3) (h0 : 0 ≤ q)
    (h1 : q < (vs.length : Int)) :
    vertexAt (addAt vs i n) q = if i = q then (vertexAt vs q).add n else vertexAt vs q := by
  have hq : q.toNat < vs.length := by omega
  by_cases hi : i = q
  · subst hi
    rw [if_pos rfl]
    unfold addAt
    rw [if_pos h0, vertexAt_nonneg _ _ h0, List.getElem?_set, if_pos rfl, if_pos hq]
    rfl
  · rw [if_neg hi]
    unfold addAt
    split_ifs with hi0
    · have hne : i.toNat ≠ q.toNat := by omega
      rw [vertexAt_nonneg _ _ h0, vertexAt_nonneg _ _ h0, List.getElem?_set_ne hne]
    · rfl

/-- The additions that the summing loop of `render` makes for triangle `i`. -/
theorem accumulateStep_eq (m : Mesh) (temp : List Vec3) (i : Nat) :
    accumulateStep m temp i =
      ((corners (triangleAt m.triangles i)).map
        (fun c => (c.p, m.surfaceNormals.getD i Vec3.zero))).foldl
        (fun tn u => addAt tn u.1 u.2) temp := rfl

theorem foldl_accumulateStep (m : Mesh) (is : List Nat) (temp : List Vec3) :
    is.foldl (accumulateStep m) temp =
      (is.flatMap (fun i => (corners (triangleAt m.triangles i)).map
        (fun c => (c.p, m.surfaceNormals.getD i Vec3.zero)))).foldl
        (fun tn u => addAt tn u.1 u.2) temp := by
  induction is generalizing temp with
  | nil => rfl
  | cons i is ih =>
    rw [List.foldl_cons, ih, List.flatMap_cons, List.foldl_append, accumulateStep_eq]

theorem vertexAt_foldl_addAt (ups : List (Int × Vec3)) (temp : List Vec3) (q : Int)
    (h0 : 0 ≤ q) (h1 : q < (temp.length : Int)) :
    vertexAt (ups.foldl (fun tn u => addAt tn u.1 u.2) temp) q =
      ((ups.filter (fun u => decide (u.1 = q))).map Prod.snd).foldl Vec3.add
        (vertexAt temp q) := by
  induction ups generalizing temp with
  | nil => rfl
  | cons u ups ih =>
    rw [List.foldl_cons, ih _ (by rw [length_addAt]; exact h1), vertexAt_addAt _ _ _ _ h0 h1,
      List.filter_cons]
    by_cases hu : u.1 = q
    · rw [if_pos hu, if_pos (by simpa using hu), List.map_cons, List.foldl_cons]
    · rw [if_neg hu, if_neg (by simpa using hu)]

theorem vertexAt_replicate (n : Nat) (q : Int) : vertexAt (List.replicate n Vec3.zero) q =
    Vec3.zero := by
  unfold vertexAt
  split_ifs
  · rw [List.getD_eq_getElem?_getD]
    by_cases h : q.toNat < n
    · rw [List.getElem?_replicate_of_lt h]; rfl
    · rw [List.getElem?_eq_none (by rw [List.length_replicate]; omega)]; rfl
  · rfl

theorem filter_updates (A : Ambient) (m : Mesh) (q : Int) (is : List Nat)
    (his : ∀ i ∈ is, i < m.numFaces.toNat) :
    ((is.flatMap (fun i => (corners (triangleAt m.triangles i)).map
        (fun c => (c.p, (m.generateSurfaceNormals A).surfaceNormals.getD i Vec3.zero)))).filter
        (fun u => decide (u.1 = q))).map Prod.snd =
      is.flatMap (fun i =>
        ((corners (triangleAt m.triangles i)).filter (fun c => decide (c.p = q))).map
          (fun _ => faceNormal A m.vertices (triangleAt m.triangles i))) := by
  induction is with
  | nil => rfl
  | cons i is ih =>
    rw [List.flatMap_cons, List.filter_append, List.map_append, List.flatMap_cons,
      ih (fun j hj => his j (List.mem_cons_of_mem _ hj)),
      surfaceNormals_getD A m i (his i (List.mem_cons_self _ _))]
    congr 1
    rw [List.filter_map, List.map_map]
    rfl

theorem summed_normals (A : Ambient) (m : Mesh) (q : Int) (h0 : 0 ≤ q)
    (h1 : q < m.numVertices) :
    vertexAt ((List.range m.numFaces.toNat).foldl (accumulateStep (m.generateSurfaceNormals A))
        (List.replicate m.numVertices.toNat Vec3.zero)) q =
      Vec3.sum (incidentNormals A m q) := by
  have hlen : q < ((List.replicate m.numVertices.toNat Vec3.zero).length : Int) := by
    rw [List.length_replicate]
    omega
  rw [foldl_accumulateStep, vertexAt_foldl_addAt _ _ q h0 hlen, vertexAt_replicate]
  have hf := filter_updates A m q (List.range m.numFaces.toNat)
    (fun i hi => List.mem_range.mp hi)
  have hf' : ((List.flatMap (List.range m.numFaces.toNat) (fun i =>
      (corners (triangleAt (m.generateSurfaceNormals A).triangles i)).map
        (fun c => (c.p, (m.generateSurfaceNormals A).surfaceNormals.getD i Vec3.zero)))).filter
        (fun u => decide (u.1 = q))).map Prod.snd = incidentNormals A m q := hf
  rw [hf']
  rfl

theorem render_eq (A : Ambient) (m : Mesh) (hv : 0 ≤ m.numVertices) (hf0 : 0 ≤ m.numFaces)
    (hf1 : m.numFaces ≤ INT_MAX) :
    m.render A = some (m.generateSurfaceNormals A,
      (List.range m.numFaces.toNat).flatMap (fun i =>
        [vertexAt m.vertices (triangleAt m.triangles i).v0.p,
          vertexAt m.vertices (triangleAt m.triangles i).v1.p,
          vertexAt m.vertices (triangleAt m.triangles i).v2.p]),
      (List.range m.numFaces.toNat).flatMap (fun i =>
        [A.normalize (vertexAt ((List.range m.numFaces.toNat).foldl
            (accumulateStep (m.generateSurfaceNormals A))
            (List.replicate m.numVertices.toNat Vec3.zero)) (triangleAt m.triangles i).v0.p),
          A.normalize (vertexAt ((List.range m.numFaces.toNat).foldl
            (accumulateStep (m.generateSurfaceNormals A))
            (List.replicate m.numVertices.toNat Vec3.zero)) (triangleAt m.triangles i).v1.p),
          A.normalize (vertexAt ((List.range m.numFaces.toNat).foldl
            (accumulateStep (m.generateSurfaceNormals A))
            (List.replicate m.numVertices.toNat Vec3.zero))
            (triangleAt m.triangles i).v2.p)])) := by
  have hcount : ((m.generateSurfaceNormals A).numFaces % 4294967296).toNat =
      m.numFaces.toNat := by
    have : (m.generateSurfaceNormals A).numFaces = m.numFaces := rfl
    rw [this, Int.emod_eq_of_lt hf0 (by unfold INT_MAX at hf1; omega)]
  unfold Mesh.render
  rw [if_pos hv]
  simp only [hcount, foldl_emitStep, List.nil_append]
  rfl

/-- C18: on a mesh whose counters are not negative, `render` builds two
arrays of length 3·numFaces in triangle-list order: for every face i and
corner j, outVertices[3i+j] is the current position of the j-th position
index of triangle i, and, when that position index lies within the vertex
array, outNormals[3i+j] is normalize of the sum of the face normals of all
triangle corners that lie on that position index, one addend per corner. -/
theorem render_arrays (A : Ambient) (m : Mesh) (hv : 0 ≤ m.numVertices)
    (hf0 : 0 ≤ m.numFaces) (hf1 : m.numFaces ≤ INT_MAX) :
    ∃ outVertices outNormals : List Vec3,
      m.render A = some (m.generateSurfaceNormals A, outVertices, outNormals) ∧
      outVertices.length = 3 * m.numFaces.toNat ∧
      outNormals.length = 3 * m.numFaces.toNat ∧
      ∀ i, i < m.numFaces.toNat →
        outVertices[3 * i]? = some (vertexAt m.vertices (triangleAt m.triangles i).v0.p) ∧
        outVertices[3 * i + 1]? = some (vertexAt m.vertices (triangleAt m.triangles i).v1.p) ∧
        outVertices[3 * i + 2]? = some (vertexAt m.vertices (triangleAt m.triangles i).v2.p) ∧
        (0 ≤ (triangleAt m.triangles i).v0.p ∧ (triangleAt m.triangles i).v0.p < m.numVertices →
          outNormals[3 * i]? = some (A.normalize
            (Vec3.sum (incidentNormals A m (triangleAt m.triangles i).v0.p)))) ∧
        (0 ≤ (triangleAt m.triangles i).v1.p ∧ (triangleAt m.triangles i).v1.p < m.numVertices →
          outNormals[3 * i + 1]? = some (A.normalize
            (Vec3.sum (incidentNormals A m (triangleAt m.triangles i).v1.p)))) ∧
        (0 ≤ (triangleAt m.triangles i).v2.p ∧ (triangleAt m.triangles i).v2.p < m.numVertices →
          outNormals[3 * i + 2]? = some (A.normalize
            (Vec3.sum (incidentNormals A m (triangleAt m.triangles i).v2.p)))) := by
  refine ⟨_, _, render_eq A m hv hf0 hf1, length_flatMap_triple _ _ _ _ |>.trans (by
    rw [List.length_range]), length_flatMap_triple _ _ _ _ |>.trans (by
    rw [List.length_range]), ?_⟩
  intro i hi
  have hk : (List.range m.numFaces.toNat)[i]? = some i := List.getElem?_range hi
  obtain ⟨v0, v1, v2⟩ := getElem?_flatMap_triple
    (fun i => vertexAt m.vertices (triangleAt m.triangles i).v0.p)
    (fun i => vertexAt m.vertices (triangleAt m.triangles i).v1.p)
    (fun i => vertexAt m.vertices (triangleAt m.triangles i).v2.p) _ i i hk
  obtain ⟨n0, n1, n2⟩ := getElem?_flatMap_triple
    (fun i => A.normalize (vertexAt ((List.range m.numFaces.toNat).foldl
      (accumulateStep (m.generateSurfaceNormals A))
      (List.replicate m.numVertices.toNat Vec3.zero)) (triangleAt m.triangles i).v0.p))
    (fun i => A.normalize (vertexAt ((List.range m.numFaces.toNat).foldl
      (accumulateStep (m.generateSurfaceNormals A))
      (List.replicate m.numVertices.toNat Vec3.zero)) (triangleAt m.triangles i).v1.p))
    (fun i => A.normalize (vertexAt ((List.range m.numFaces.toNat).foldl
      (accumulateStep (m.generateSurfaceNormals A))
      (List.replicate m.numVertices.toNat Vec3.zero)) (triangleAt m.triangles i).v2.p))
    _ i i hk
  refine ⟨v0, v1, v2, ?_, ?_, ?_⟩
  · intro hp
    rw [n0, summed_normals A m _ hp.1 hp.2]
  · intro hp
    rw [n1, summed_normals A m _ hp.1 hp.2]
  · intro hp
    rw [n2, summed_normals A m _ hp.1 hp.2]

/-- Witness of C18 on the mesh of two triangles: six positions and six
normals, the normal of the first corner being the face normal (0, 0, 1). -/
theorem render_arrays_witness :
    (twoPlates.render Ambient.demo).map (fun r => (r.2.1.length, r.2.2.length, r.2.2[0]?)) =
      some (6, 6, some ⟨0, 0, 1⟩) ∧
    ∃ outVertices outNormals : List Vec3,
      twoPlates.render Ambient.demo =
        some (twoPlates.generateSurfaceNormals Ambient.demo, outVertices, outNormals) ∧
      outVertices.length = 3 * twoPlates.numFaces.toNat ∧
      outNormals.length = 3 * twoPlates.numFaces.toNat :=
  ⟨by with_unfolding_all decide,
    (render_arrays Ambient.demo twoPlates (by decide) (by decide) (by decide)).imp
      (fun _ h => h.imp (fun _ h' => ⟨h'.1, h'.2.1, h'.2.2.1⟩))⟩

/-! ### The per-triangle test -/

theorem moller_trumbore_point (P0 P1 P2 ro rd : Vec3)
    (hdet : (P1.sub P0).dot (rd.cross (P2.sub P0)) ≠ 0) :
    ro.add (rd.scale ((P2.sub P0).dot ((ro.sub P0).cross (P1.sub P0)) *
        (1 / (P1.sub P0).dot (rd.cross (P2.sub P0))))) =
      ((P0.scale (1 - (ro.sub P0).dot (rd.cross (P2.sub P0)) *
            (1 / (P1.sub P0).dot (rd.cross (P2.sub P0))) -
          rd.dot ((ro.sub P0).cross (P1.sub P0)) *
            (1 / (P1.sub P0).dot (rd.cross (P2.sub P0))))).add
        (P1.scale ((ro.sub P0).dot (rd.cross (P2.sub P0)) *
            (1 / (P1.sub P0).dot (rd.cross (P2.sub P0)))))).add
        (P2.scale (rd.dot ((ro.sub P0).cross (P1.sub P0)) *
            (1 / (P1.sub P0).dot (rd.cross (P2.sub P0))))) := by
  obtain ⟨a0, b0, c0⟩ := P0
  obtain ⟨a1, b1, c1⟩ := P1
  obtain ⟨a2, b2, c2⟩ := P2
  obtain ⟨ox, oy, oz⟩ := ro
  obtain ⟨dx, dy, dz⟩ := rd
  simp only [Vec3.sub, Vec3.dot, Vec3.cross, Vec3.add, Vec3.scale] at hdet ⊢
  rw [Vec3.mk.injEq]
  refine ⟨?_, ?_, ?_⟩ <;> field_simp <;> ring

/-- Counterexample to C19: on the triangle with the corners (0,0,0),
(0.0001f,0,0), (0,1,0) and the ray from (0,0,-1) along (0,0,1) the
determinant dot(v1 - v0, cross(rayDirection, v2 - v0)) has the absolute value
13743895/137438953472, which is below 1/10000, and `rayTriangleIntersect`
returns true, with t = 1 and u = v = 0. -/
theorem parallel_bound_is_float_literal :
    |((vertexAt thinTriangle.vertices (triangleAt thinTriangle.triangles 0).v1.p).sub
          (vertexAt thinTriangle.vertices (triangleAt thinTriangle.triangles 0).v0.p)).dot
        ((⟨0, 0, 1⟩ : Vec3).cross
          ((vertexAt thinTriangle.vertices (triangleAt thinTriangle.triangles 0).v2.p).sub
            (vertexAt thinTriangle.vertices (triangleAt thinTriangle.triangles 0).v0.p)))|
      < 1 / 10000 ∧
    thinTriangle.rayTriangleIntersect ⟨0, 0, -1⟩ ⟨0, 0, 1⟩ .posInf 0 (-1) 0 0 =
      (true, .fin 1, 0, 0) := by
  constructor
  · with_unfolding_all decide
  · with_unfolding_all decide

/-- C19, amended: in exact arithmetic, whenever `rayTriangleIntersect`
returns true with the outputs t, u, v on a triangle with corners v0, v1, v2,
then u ≥ 0, v ≥ 0, u + v ≤ 1 and rayOrigin + t·rayDirection =
(1-u-v)·v0 + u·v1 + v·v2; and it returns false whenever
|dot(v1 - v0, cross(rayDirection, v2 - v0))| is below the value
13743895/137438953472 of the `float` literal `0.0001f`, which is less than
1/10000. -/
theorem rayTriangleIntersect_sound (m : Mesh) (ro rd : Vec3) (t0 : Scalar) (j : Nat)
    (vi : Int) (u0 w0 : ℚ) :
    ((m.rayTriangleIntersect ro rd t0 j vi u0 w0).1 = true →
      ∃ t : ℚ, (m.rayTriangleIntersect ro rd t0 j vi u0 w0).2.1 = .fin t ∧
        0 ≤ (m.rayTriangleIntersect ro rd t0 j vi u0 w0).2.2.1 ∧
        0 ≤ (m.rayTriangleIntersect ro rd t0 j vi u0 w0).2.2.2 ∧
        (m.rayTriangleIntersect ro rd t0 j vi u0 w0).2.2.1 +
          (m.rayTriangleIntersect ro rd t0 j vi u0 w0).2.2.2 ≤ 1 ∧
        ro.add (rd.scale t) =
          (((vertexAt m.vertices (triangleAt m.triangles j).v0.p).scale
              (1 - (m.rayTriangleIntersect ro rd t0 j vi u0 w0).2.2.1 -
                (m.rayTriangleIntersect ro rd t0 j vi u0 w0).2.2.2)).add
            ((vertexAt m.vertices (triangleAt m.triangles j).v1.p).scale
              (m.rayTriangleIntersect ro rd t0 j vi u0 w0).2.2.1)).add
            ((vertexAt m.vertices (triangleAt m.triangles j).v2.p).scale
              (m.rayTriangleIntersect ro rd t0 j vi u0 w0).2.2.2)) ∧
    (|((vertexAt m.vertices (triangleAt m.triangles j).v1.p).sub
          (vertexAt m.vertices (triangleAt m.triangles j).v0.p)).dot
        (rd.cross ((vertexAt m.vertices (triangleAt m.triangles j).v2.p).sub
          (vertexAt m.vertices (triangleAt m.triangles j).v0.p)))|
        < 13743895 / 137438953472 →
      (m.rayTriangleIntersect ro rd t0 j vi u0 w0).1 = false) ∧
    (13743895 / 137438953472 : ℚ) < 1 / 10000 := by
  unfold Mesh.rayTriangleIntersect
  simp only
  refine ⟨?_, ?_, by norm_num⟩
  · intro h
    by_cases h1 : (triangleAt m.triangles j).v0.p = vi ∨ (triangleAt m.triangles j).v1.p = vi ∨
        (triangleAt m.triangles j).v2.p = vi
    · rw [if_pos h1] at h; cases h
    rw [if_neg h1] at h ⊢
    by_cases h2 : |((vertexAt m.vertices (triangleAt m.triangles j).v1.p).sub
          (vertexAt m.vertices (triangleAt m.triangles j).v0.p)).dot
          (rd.cross ((vertexAt m.vertices (triangleAt m.triangles j).v2.p).sub
            (vertexAt m.vertices (triangleAt m.triangles j).v0.p)))|
          < 13743895 / 137438953472
    · rw [if_pos h2] at h; cases h
    rw [if_neg h2] at h ⊢
    split_ifs at h with h3 h4
    · rw [if_neg h3, if_neg h4]
      have hdet : ((vertexAt m.vertices (triangleAt m.triangles j).v1.p).sub
          (vertexAt m.vertices (triangleAt m.triangles j).v0.p)).dot
          (rd.cross ((vertexAt m.vertices (triangleAt m.triangles j).v2.p).sub
            (vertexAt m.vertices (triangleAt m.triangles j).v0.p))) ≠ 0 := by
        intro h0
        apply h2
        rw [h0]
        norm_num
      rw [not_or, not_lt, not_lt] at h3 h4
      exact ⟨_, rfl, h3.1, h4.1, h4.2, moller_trumbore_point _ _ _ ro rd hdet⟩
  · intro hsmall
    split_ifs with h1
    · rfl
    · rfl

/-- Witness of C19 (amended): the ray from (1/4, 1/4, 1) along +z meets the
triangle in the plane z = 5 at t = 4 with u = v = 1/4, and a ray in the plane
of a triangle, whose determinant is 0, is rejected. -/
theorem rayTriangleIntersect_sound_witness :
    twoPlates.rayTriangleIntersect ⟨1/4, 1/4, 1⟩ ⟨0, 0, 1⟩ .posInf 0 (-1) 0 0 =
      (true, .fin 4, 1/4, 1/4) ∧
    (∃ t : ℚ, (twoPlates.rayTriangleIntersect ⟨1/4, 1/4, 1⟩ ⟨0, 0, 1⟩ .posInf 0 (-1) 0 0).2.1
        = .fin t ∧
      0 ≤ (twoPlates.rayTriangleIntersect ⟨1/4, 1/4, 1⟩ ⟨0, 0, 1⟩ .posInf 0 (-1) 0 0).2.2.1) ∧
    (twoPlates.rayTriangleIntersect ⟨1/4, 1/4, 5⟩ ⟨1, 0, 0⟩ .posInf 0 (-1) 0 0).1 = false :=
  ⟨by with_unfolding_all decide,
    ((rayTriangleIntersect_sound twoPlates ⟨1/4, 1/4, 1⟩ ⟨0, 0, 1⟩ .posInf 0 (-1) 0 0).1
      (by with_unfolding_all decide)).imp (fun _ h => ⟨h.1, h.2.1⟩),
    (rayTriangleIntersect_sound twoPlates ⟨1/4, 1/4, 5⟩ ⟨1, 0, 0⟩ .posInf 0 (-1) 0 0).2.1
      (by with_unfolding_all decide)⟩

end PBD
